import Mathlib

/-!
# Chesslib computer player: move tree, evaluator and allocation registry

A shallow embedding of `chesslib-computer.c` (with the declarations it uses from
`chesslib.h`) and theorems about it.

Conventions of the embedding.

* A C `char[3]` square label such as `"e2"` is the pair of its two characters.
* A `malloc` result is a block number drawn from a counter kept in the state; the
  trace of `free` calls is kept in the state as well.  A tree node carries the number
  of its own block (`self`), which stands for the pointer to it.
* A field that the code has not assigned yet is `none`; reading it, dereferencing
  `NULL`, or running out of recursion fuel makes a function return `none`.
* A function that receives a board through a pointer and may write to it returns the
  board it leaves behind.
* `getAllMoves`, `_makeMove` (chesslib.c) are parameters, collected in `Env`.
* Diagnostic printing (`_printAIMoveTree`) writes to standard output only and is
  left out.
-/

namespace Chesslib

/-! ## chesslib.h -/

def WHITE : Int := 0x1eaf
def BLACK : Int := 0x1eb0
def EMPTY : Int := 0x1eb1

def PAWN : Char := 'P'
def KING : Char := 'K'
def QUEEN : Char := 'Q'
def BISHOP : Char := 'B'
def KNIGHT : Char := 'N'
def ROOK : Char := 'R'
def NOPIECE : Char := 'e'

/-- One square of the board (`struct ch_template`). -/
structure ch_template where
  current : Char
  square : Char × Char
  occ : Bool
  c : Int
deriving DecidableEq, Repr

/-- The board `ch_template chb[8][8]`, indexed by row and column. -/
abbrev Board := Fin 8 → Fin 8 → ch_template

/-- One entry of a move list (`struct MoveNode`); the `nxt` link is the tail of the
Lean list that holds the entry. -/
structure MoveNode where
  start : Char × Char
  end_ : Char × Char
deriving DecidableEq, Repr

/-- The collaborators of chesslib.c that the computer player calls.

* `getAllMoves chb c_flag` gives the board it leaves behind and the contents of the
  globals `b_moves[6]` and `w_moves[6]` after the call.
* `_makeMove chb st_move en_move color ListCheck` gives the board it leaves behind and
  its return value. -/
structure Env where
  getAllMoves : Board → Int → Board × (Fin 6 → List MoveNode) × (Fin 6 → List MoveNode)
  _makeMove : Board → Char × Char → Char × Char → Int → Bool → Board × Bool

/-- Modelled from the spec: `_copyBoard(to, from)` of chesslib.c, which "deep-copies
every square; no error conditions".  The result is the pair of the new contents of
`to` and the contents of `from` after the call. -/
def _copyBoard (src : Board) : Board × Board := (src, src)

/-! ## chesslib-computer.c: types and globals -/

def MOVE_COUNT : Nat := 50

/-- A node of the move tree (`struct MoveTreeNode`).  `self` is the number of the block
that holds the node.  `child` lists the slots of `child[MOVE_COUNT]` that have been
written, in index order: it is empty until the node is expanded.  `parent` is the block
number of the parent, `none` for `NULL`. -/
inductive MoveTreeNode where
  | mk (self : Nat) (start : Char × Char) (end_ : Option (Char × Char))
      (color : Option Int) (score : Option Int) (depth : Nat)
      (child : List (Option MoveTreeNode)) (parent : Option Nat) : MoveTreeNode

namespace MoveTreeNode

def self : MoveTreeNode → Nat
  | mk p _ _ _ _ _ _ _ => p

def start : MoveTreeNode → Char × Char
  | mk _ st _ _ _ _ _ _ => st

def end_ : MoveTreeNode → Option (Char × Char)
  | mk _ _ en _ _ _ _ _ => en

def color : MoveTreeNode → Option Int
  | mk _ _ _ c _ _ _ _ => c

def score : MoveTreeNode → Option Int
  | mk _ _ _ _ sc _ _ _ => sc

def depth : MoveTreeNode → Nat
  | mk _ _ _ _ _ d _ _ => d

def child : MoveTreeNode → List (Option MoveTreeNode)
  | mk _ _ _ _ _ _ ch _ => ch

def parent : MoveTreeNode → Option Nat
  | mk _ _ _ _ _ _ _ pa => pa

/-- The assignment `node->score = v`. -/
def setScore : MoveTreeNode → Int → MoveTreeNode
  | mk p st en c _ d ch pa, v => mk p st en c (some v) d ch pa

/-- The node after its `child` array has been written. -/
def setChild : MoveTreeNode → List (Option MoveTreeNode) → MoveTreeNode
  | mk p st en c sc d _ pa, ch => mk p st en c sc d ch pa

end MoveTreeNode

/-- One entry of the registry (`struct HeapListNode`): `self` is the number of the block
holding the entry, `alloc_mem` the tracked block; `nxt` is the tail of the list. -/
structure HeapListNode where
  self : Nat
  alloc_mem : Nat
deriving DecidableEq, Repr

/-- The globals `max_depth`, `CPU_PLAYER`, `AIHeap` and the allocator: `nextBlock` is the
number the next `malloc` returns, `freed` the arguments of the `free` calls so far,
oldest first. -/
structure AIState where
  max_depth : Nat
  CPU_PLAYER : Int
  AIHeap : List HeapListNode
  nextBlock : Nat
  freed : List Nat
deriving DecidableEq, Repr

/-- The call `malloc(...)`: a fresh block. -/
def malloc (s : AIState) : Nat × AIState :=
  (s.nextBlock, { s with nextBlock := s.nextBlock + 1 })

/-- The call `free(p)`. -/
def free (p : Nat) (s : AIState) : AIState :=
  { s with freed := s.freed ++ [p] }

/-! ## chesslib-computer.c: functions -/

def _addToAIHeap (x : Nat) (s : AIState) : AIState :=
  let new := (malloc s).1
  let s := (malloc s).2
  { s with AIHeap := { self := new, alloc_mem := x } :: s.AIHeap }

/-- The loop of `_deleteAIHeap`, by recursion on the list that `AIHeap` points to. -/
def deleteAIHeapLoop : List HeapListNode → AIState → AIState
  | [], s => { s with AIHeap := [] }
  | e :: curr, s =>
    let s := free e.alloc_mem s
    let s := free e.self s
    deleteAIHeapLoop curr { s with AIHeap := curr }

def _deleteAIHeap (s : AIState) : AIState :=
  deleteAIHeapLoop s.AIHeap s

/-- The twelve counters of `_Evaluate`.  They are `unsigned short` in the source; a board
has 64 squares, so none of them wraps. -/
structure PieceCounts where
  b_pawn_count : Nat
  b_queen_count : Nat
  b_king_count : Nat
  b_bishop_count : Nat
  b_rook_count : Nat
  b_knight_count : Nat
  w_pawn_count : Nat
  w_queen_count : Nat
  w_king_count : Nat
  w_bishop_count : Nat
  w_rook_count : Nat
  w_knight_count : Nat
deriving DecidableEq, Repr

def PieceCounts.zero : PieceCounts :=
  ⟨0, 0, 0, 0, 0, 0, 0, 0, 0, 0, 0, 0⟩

/-- The body of the inner loop of `_Evaluate` for one square: six tests in a row. -/
def evaluateSquare (k : PieceCounts) (sq : ch_template) : PieceCounts :=
  let k := if sq.current = PAWN then
    (if sq.c = BLACK then { k with b_pawn_count := k.b_pawn_count + 1 }
      else { k with w_pawn_count := k.w_pawn_count + 1 }) else k
  let k := if sq.current = QUEEN then
    (if sq.c = BLACK then { k with b_queen_count := k.b_queen_count + 1 }
      else { k with w_queen_count := k.w_queen_count + 1 }) else k
  let k := if sq.current = KING then
    (if sq.c = BLACK then { k with b_king_count := k.b_king_count + 1 }
      else { k with w_king_count := k.w_king_count + 1 }) else k
  let k := if sq.current = BISHOP then
    (if sq.c = BLACK then { k with b_bishop_count := k.b_bishop_count + 1 }
      else { k with w_bishop_count := k.w_bishop_count + 1 }) else k
  let k := if sq.current = ROOK then
    (if sq.c = BLACK then { k with b_rook_count := k.b_rook_count + 1 }
      else { k with w_rook_count := k.w_rook_count + 1 }) else k
  let k := if sq.current = KNIGHT then
    (if sq.c = BLACK then { k with b_knight_count := k.b_knight_count + 1 }
      else { k with w_knight_count := k.w_knight_count + 1 }) else k
  k

/-- The two nested loops of `_Evaluate` over rows and columns. -/
def evaluateCounts (chb : Board) : PieceCounts :=
  (List.finRange 8).foldl
    (fun k row => (List.finRange 8).foldl (fun k col => evaluateSquare k (chb row col)) k)
    PieceCounts.zero

def _Evaluate (chb : Board) (color : Int) : Int :=
  let k := evaluateCounts chb
  let black_material_balance : Int :=
    (k.b_pawn_count * 100 : Nat) + (k.b_queen_count * 900 : Nat) + (k.b_rook_count * 500 : Nat)
      + (k.b_bishop_count * 325 : Nat) + (k.b_knight_count * 300 : Nat)
  let white_material_balance : Int :=
    (k.w_pawn_count * 100 : Nat) + (k.w_queen_count * 900 : Nat) + (k.w_rook_count * 500 : Nat)
      + (k.w_bishop_count * 325 : Nat) + (k.w_knight_count * 300 : Nat)
  if (k.w_king_count = 0 ∧ color = WHITE) ∨ (k.b_king_count = 0 ∧ color = BLACK) then
    -1
  else if color = BLACK then black_material_balance else white_material_balance

/-- The result is the board `chb` as the call leaves it, and the returned value. -/
def _evaluateNext (E : Env) (chb : Board) (color : Int) (st en : Char × Char) :
    Board × Int :=
  let temp_chb := (_copyBoard chb).1
  let chb := (_copyBoard chb).2
  let temp_chb := (E._makeMove temp_chb st en color false).1
  (chb, _Evaluate temp_chb color)

/-- The loop `while (!temp_moves[move_list_count]) move_list_count++;`, run on the part
of `temp_moves` from index `move_list_count` on.  The source does not bound the index:
once the six lists are used up it reads `temp_moves[6]`, past the array.  That read is
taken to find a non-null word, which ends the loop with `move_list_count = 6`. -/
def skipNull : List (List MoveNode) → Nat → Nat
  | [] :: rest, move_list_count => skipNull rest (move_list_count + 1)
  | _, move_list_count => move_list_count

/-- The body of the first loop of `_createAIMoveTree` (the slot filling) for one slot
`child[i]`.  `curr_leaf` is the node being expanded.  The result is the state, the board
`chb`, the array `temp_moves` and the index `move_list_count` as the iteration leaves them,
and the value written to `child[i]`. -/
def fillSlot (E : Env) (color : Int) (depth_count : Nat) (curr_leaf : MoveTreeNode)
    (s : AIState) (chb : Board) (temp_moves : List (List MoveNode)) (move_list_count : Nat) :
    Option (AIState × Board × List (List MoveNode) × Nat × Option MoveTreeNode) :=
  let move_list_count := skipNull (temp_moves.drop move_list_count) move_list_count
  if move_list_count > 5 then
    some (s, chb, temp_moves, move_list_count, none)
  else
    match temp_moves[move_list_count]? with
    | some (m :: nxt) =>
      let test : Option (Board × Bool) :=
        if color ≠ s.CPU_PLAYER then
          match curr_leaf.score with
          | some score =>
            let r := _evaluateNext E chb (if color = BLACK then WHITE else BLACK) m.start m.end_
            some (r.1, decide (r.2 > score))
          | none => none
        else some (chb, false)
      match test with
      | some (chb, true) =>
        some (s, chb, temp_moves.set move_list_count nxt, move_list_count, none)
      | some (chb, false) =>
        let p := (malloc s).1
        let s := (malloc s).2
        let node := MoveTreeNode.mk p m.start (some m.end_) (some color) none
          ((depth_count + 1) % 65536) [] (some curr_leaf.self)
        let s := _addToAIHeap p s
        some (s, chb, temp_moves.set move_list_count nxt, move_list_count, some node)
      | none => none
    | _ => none

/-- The first loop of `_createAIMoveTree` (`for (int i = 0; i < MOVE_COUNT; i++)`), with
`n` iterations left.  The result is the state, the board `chb` as the loop leaves it, and
the slots written, in index order. -/
def fillSlots (E : Env) (color : Int) (depth_count : Nat) (curr_leaf : MoveTreeNode) :
    Nat → AIState → Board → List (List MoveNode) → Nat →
      Option (AIState × Board × List (Option MoveTreeNode))
  | 0, s, chb, _, _ => some (s, chb, [])
  | n + 1, s, chb, temp_moves, move_list_count =>
    match fillSlot E color depth_count curr_leaf s chb temp_moves move_list_count with
    | some (s, chb, temp_moves, move_list_count, slot) =>
      (fillSlots E color depth_count curr_leaf n s chb temp_moves move_list_count).map
        (fun r => (r.1, r.2.1, slot :: r.2.2))
    | none => none

/-- The body of the second loop of `_createAIMoveTree` (scoring and recursion) for a slot
that holds the node `c`.  `recur` is the recursive call of `_createAIMoveTree`.  The result
is the state, the board `chb` as the iteration leaves it, and the node of the slot. -/
def scoreSlot (E : Env)
    (recur : AIState → MoveTreeNode → Board → Int → Nat → Option (AIState × MoveTreeNode × Board))
    (color : Int) (depth_count : Nat) (c : MoveTreeNode) (s : AIState) (chb : Board) :
    Option (AIState × Board × MoveTreeNode) :=
  let next_chb := (_copyBoard chb).1
  let chb := (_copyBoard chb).2
  match c.color, c.end_ with
  | some c_color, some c_end =>
    let next_chb := (E._makeMove next_chb c.start c_end c_color false).1
    let c := c.setScore (_Evaluate next_chb color)
    let r : Option (AIState × MoveTreeNode × Board) :=
      if depth_count = 0 then
        recur s c next_chb color ((depth_count + 1) % 65536)
      else if depth_count ≤ s.max_depth then
        recur s c next_chb (if color = BLACK then WHITE else BLACK) ((depth_count + 1) % 65536)
      else some (s, c, next_chb)
    r.map (fun r => (r.1, chb, r.2.1))
  | _, _ => none

/-- The second loop of `_createAIMoveTree`, run on the slots from the current index on; it
returns at the first slot that holds no node.  The result is the state, the board `chb` as
the loop leaves it, and the slots after the loop. -/
def scoreSlots (E : Env)
    (recur : AIState → MoveTreeNode → Board → Int → Nat → Option (AIState × MoveTreeNode × Board))
    (color : Int) (depth_count : Nat) :
    List (Option MoveTreeNode) → AIState → Board →
      Option (AIState × Board × List (Option MoveTreeNode))
  | [], s, chb => some (s, chb, [])
  | none :: rest, s, chb => some (s, chb, none :: rest)
  | some c :: rest, s, chb =>
    match scoreSlot E recur color depth_count c s chb with
    | some (s, chb, c) =>
      (scoreSlots E recur color depth_count rest s chb).map
        (fun r => (r.1, r.2.1, some c :: r.2.2))
    | none => none

/-- The function `_createAIMoveTree(curr_leaf, chb, color, depth_count)`, with recursion fuel
as first argument.  `curr_leaf` is the node `*curr_leaf` (`none` for `NULL`).  The result is
the state, the node `*curr_leaf` with its subtree, and the board `chb` as the call leaves it. -/
def _createAIMoveTree (E : Env) :
    Nat → AIState → Option MoveTreeNode → Board → Int → Nat →
      Option (AIState × MoveTreeNode × Board)
  | 0, _, _, _, _, _ => none
  | fuel + 1, s, curr_leaf, chb, color, depth_count =>
    let moves := E.getAllMoves chb color
    let chb := moves.1
    let temp_moves : List (List MoveNode) :=
      List.ofFn (fun i : Fin 6 => if color = BLACK then moves.2.1 i else moves.2.2 i)
    let init : Option (AIState × MoveTreeNode) :=
      if depth_count = 0 then
        let p := (malloc s).1
        let s := (malloc s).2
        some (_addToAIHeap p s, MoveTreeNode.mk p ('T', Char.ofNat 0) none none none 0 [] none)
      else curr_leaf.map (fun node => (s, node))
    match init with
    | some (s, node) =>
      match fillSlots E color depth_count node MOVE_COUNT s chb temp_moves 0 with
      | some (s, chb, slots) =>
        match scoreSlots E (fun s c b col d => _createAIMoveTree E fuel s (some c) b col d)
            color depth_count slots s chb with
        | some (s, chb, slots) => some (s, node.setChild slots, chb)
        | none => none
      | none => none
    | none => none

/-- What a call of `getAImove` leaves behind: the returned string (`none` for `NULL`), the
tree that the local `top` pointed to when `_createAIMoveTree` returned (`none` when no tree
was built), the globals and allocator, and the caller's board. -/
structure AIMoveResult where
  retvalue : Option String
  top : Option MoveTreeNode
  state : AIState
  chb : Board

/-- The function `getAImove(chb, color, depth)`; `none` when the tree builder does not
return a result. -/
def getAImove (E : Env) (s : AIState) (chb : Board) (color : Int) (depth : Nat) :
    Option AIMoveResult :=
  if depth = 0 ∨ (color ≠ BLACK ∧ color ≠ WHITE) then
    some ⟨none, none, s, chb⟩
  else
    let retvalue : Option String := none
    let s := { s with AIHeap := [] }
    let s := { s with CPU_PLAYER := color }
    let s := { s with max_depth := (depth - 1) % 65536 }
    match _createAIMoveTree E (depth + 1) s none chb color 0 with
    | some (s, top, chb) =>
      let s := _deleteAIHeap s
      let s := { s with max_depth := 0 }
      some ⟨retvalue, some top, s, chb⟩
    | none => none

/-! ## Traversals of a built tree -/

/-- The block numbers of the nodes held by a list of slots, in slot order. -/
def slotBlocks : List (Option MoveTreeNode) → List Nat
  | [] => []
  | none :: rest => slotBlocks rest
  | some c :: rest => c.self :: slotBlocks rest

mutual
/-- The block numbers of the nodes below a node: its children in slot order, then the nodes
below the children. -/
def MoveTreeNode.descendants : MoveTreeNode → List Nat
  | .mk _ _ _ _ _ _ ch _ => slotBlocks ch ++ belowBlocks ch
/-- The block numbers of the nodes below the nodes held by a list of slots, slot by slot. -/
def belowBlocks : List (Option MoveTreeNode) → List Nat
  | [] => []
  | none :: rest => belowBlocks rest
  | some c :: rest => c.descendants ++ belowBlocks rest
end

/-- The block numbers of a node and of every node below it, in the order in which the
builder allocates them: the node, its children, then the nodes below the children. -/
def MoveTreeNode.blocks (t : MoveTreeNode) : List Nat :=
  t.self :: t.descendants

mutual
/-- The number of nodes of a tree. -/
def MoveTreeNode.size : MoveTreeNode → Nat
  | .mk _ _ _ _ _ _ ch _ => 1 + slotsSize ch
/-- The number of nodes in the trees held by a list of slots. -/
def slotsSize : List (Option MoveTreeNode) → Nat
  | [] => 0
  | none :: rest => slotsSize rest
  | some c :: rest => c.size + slotsSize rest
end

mutual
/-- The largest `depth` field in a tree. -/
def MoveTreeNode.maxPly : MoveTreeNode → Nat
  | .mk _ _ _ _ _ d ch _ => max d (slotsMaxPly ch)
/-- The largest `depth` field in the trees held by a list of slots. -/
def slotsMaxPly : List (Option MoveTreeNode) → Nat
  | [] => 0
  | none :: rest => slotsMaxPly rest
  | some c :: rest => max c.maxPly (slotsMaxPly rest)
end

mutual
/-- The largest number of edges on a path from a node down to a leaf. -/
def MoveTreeNode.height : MoveTreeNode → Nat
  | .mk _ _ _ _ _ _ ch _ => slotsHeight ch
/-- One more than the largest height of a tree held by a list of slots; 0 when no slot
holds a node. -/
def slotsHeight : List (Option MoveTreeNode) → Nat
  | [] => 0
  | none :: rest => slotsHeight rest
  | some c :: rest => max (c.height + 1) (slotsHeight rest)
end

/-! ## A small stand-in for chesslib.c, used to run the functions on concrete inputs -/

/-- A square without a piece. -/
def demoEmpty : ch_template := ⟨NOPIECE, (' ', ' '), false, EMPTY⟩

/-- White king e1, white pawn a2, black king e8, black pawn a7; row = rank - 1, column = file. -/
def demoBoard : Board := fun row col =>
  if row = 0 ∧ col = 4 then ⟨KING, ('e', '1'), true, WHITE⟩
  else if row = 1 ∧ col = 0 then ⟨PAWN, ('a', '2'), true, WHITE⟩
  else if row = 7 ∧ col = 4 then ⟨KING, ('e', '8'), true, BLACK⟩
  else if row = 6 ∧ col = 0 then ⟨PAWN, ('a', '7'), true, BLACK⟩
  else demoEmpty

/-- Row and column of a label such as `('e', '2')`. -/
def demoIndex (sq : Char × Char) : Nat × Nat := (sq.2.toNat - 49, sq.1.toNat - 97)

/-- A move generator that lists the same moves on every board: a2a3 for White, a7a6 and
e8d8 for Black.  It leaves the board alone. -/
def demoMoves (chb : Board) (_c_flag : Int) :
    Board × (Fin 6 → List MoveNode) × (Fin 6 → List MoveNode) :=
  (chb,
   fun i => if i = 0 then [⟨('a', '7'), ('a', '6')⟩] else if i = 1 then [⟨('e', '8'), ('d', '8')⟩] else [],
   fun i => if i = 0 then [⟨('a', '2'), ('a', '3')⟩] else [])

/-- A move application without legality check: the piece on the start square goes to the end
square and takes the colour given in the call; the start square becomes empty. -/
def demoMakeMove (chb : Board) (st en : Char × Char) (color : Int) (_ListCheck : Bool) :
    Board × Bool :=
  (fun row col =>
    if (row.val, col.val) = demoIndex en then
      ⟨(chb ⟨(demoIndex st).1 % 8, Nat.mod_lt _ (by decide)⟩
            ⟨(demoIndex st).2 % 8, Nat.mod_lt _ (by decide)⟩).current, (chb row col).square, true, color⟩
    else if (row.val, col.val) = demoIndex st then
      ⟨NOPIECE, (chb row col).square, false, EMPTY⟩
    else chb row col,
   true)

def demoEnv : Env := ⟨demoMoves, demoMakeMove⟩

/-- The globals before the first call of `getAImove`: zero-initialised statics, nothing
allocated. -/
def demoState : AIState := ⟨0, 0, [], 0, []⟩

/-- A node at ply 2 with score 100, to be expanded for Black when White is `CPU_PLAYER`. -/
def demoNode : MoveTreeNode :=
  MoveTreeNode.mk 4 ('a', '2') (some ('a', '3')) (some WHITE) (some 100) 2 [] (some 2)

/-! ## Relations used to state what the builder does -/

/-- The registry lists its tracked blocks in decreasing order, all below the allocator's next
block. -/
def RegistryOK (s : AIState) : Prop :=
  (s.AIHeap.map (fun e => e.alloc_mem)).Pairwise (fun a b => a > b)
    ∧ ∀ a ∈ s.AIHeap.map (fun e => e.alloc_mem), a < s.nextBlock

/-- The node `c2` is the node `c1` up to its score and its children. -/
def SameNode (c1 c2 : MoveTreeNode) : Prop :=
  c2.self = c1.self ∧ c2.start = c1.start ∧ c2.end_ = c1.end_ ∧ c2.color = c1.color
    ∧ c2.depth = c1.depth ∧ c2.parent = c1.parent

/-- Two slots hold nothing both, or the same node up to score and children. -/
def SameSlot : Option MoveTreeNode → Option MoveTreeNode → Prop
  | none, none => True
  | some c1, some c2 => SameNode c1 c2
  | _, _ => False

/-- What the slot loops rely on in a recursive call `recur s c b col d` that returns, when
`d` is not 0 and `max_depth` is below 65535: the call keeps `max_depth`, `CPU_PLAYER` and
the trace of `free`, returns the node `c` with a new `child` array, and has put on the
registry the blocks of the nodes below `c`, newest first. -/
def RecurOK
    (recur : AIState → MoveTreeNode → Board → Int → Nat → Option (AIState × MoveTreeNode × Board)) :
    Prop :=
  ∀ s c b col d s1 c1 b1, recur s c b col d = some (s1, c1, b1) → d ≠ 0 → s.max_depth < 65535 →
    s1.max_depth = s.max_depth ∧ s1.CPU_PLAYER = s.CPU_PLAYER ∧ s1.freed = s.freed
      ∧ c1 = c.setChild c1.child
      ∧ s1.AIHeap.map (fun e => e.alloc_mem)
          = (slotBlocks c1.child ++ belowBlocks c1.child).reverse
              ++ s.AIHeap.map (fun e => e.alloc_mem)
      ∧ (RegistryOK s → RegistryOK s1)

/-! ## Counting pieces -/

/-- The 64 squares of a board, row by row. -/
def squares (chb : Board) : List ch_template :=
  (List.finRange 8).flatMap (fun row => (List.finRange 8).map (fun col => chb row col))

/-- The number of squares of a board that bear a piece of the given kind and colour. -/
def pieceCount (chb : Board) (kind : Char) (color : Int) : Nat :=
  (squares chb).countP (fun sq => sq.current = kind ∧ sq.c = color)

/-- The material of one colour: pawn 100, queen 900, rook 500, bishop 325, knight 300. -/
def materialBalance (chb : Board) (color : Int) : Int :=
  100 * (pieceCount chb PAWN color : Int) + 900 * (pieceCount chb QUEEN color : Int)
    + 500 * (pieceCount chb ROOK color : Int) + 325 * (pieceCount chb BISHOP color : Int)
    + 300 * (pieceCount chb KNIGHT color : Int)

/-- A board whose only piece is a king on a1 that carries the colour `EMPTY`. -/
def strayKingBoard : Board := fun row col =>
  if row = 0 ∧ col = 0 then ⟨KING, ('a', '1'), true, EMPTY⟩ else demoEmpty

/-! ## Reading a built tree -/

/-- The node held by slot `i` of a node, `none` when the slot holds none (or was not written). -/
def MoveTreeNode.childAt (t : MoveTreeNode) (i : Nat) : Option MoveTreeNode :=
  t.child.getD i none

/-- The other side: `(color == BLACK) ? WHITE : BLACK`. -/
def opposite (color : Int) : Int := if color = BLACK then WHITE else BLACK

mutual
/-- Every node below `t` has as `parent` the block of the node whose slot holds it, and as
`depth` the value `next` of that node's `depth`. -/
def MoveTreeNode.LinkedBy (next : Nat → Nat) : MoveTreeNode → Prop
  | .mk p _ _ _ _ d ch _ => slotsLinkedBy next p d ch
/-- The nodes in the slots of a node with block `pself` and depth `pdepth`, and all nodes
below them, are linked as `MoveTreeNode.LinkedBy` says. -/
def slotsLinkedBy (next : Nat → Nat) (pself pdepth : Nat) : List (Option MoveTreeNode) → Prop
  | [] => True
  | none :: rest => slotsLinkedBy next pself pdepth rest
  | some c :: rest =>
    c.parent = some pself ∧ c.depth = next pdepth ∧ c.LinkedBy next
      ∧ slotsLinkedBy next pself pdepth rest
end

mutual
/-- The node `t`, which lies at ply `ply` below a parent of colour `parentColor`, and every
node below it carry the colours of a search for `c`: `c` at ply 1 and 2, and from ply 3 on
the opposite of the parent's colour. -/
def MoveTreeNode.ColoredFor (c : Int) (ply : Nat) (parentColor : Option Int) :
    MoveTreeNode → Prop
  | .mk _ _ _ col _ _ ch _ =>
    col = (if ply ≤ 2 then some c else parentColor.map opposite)
      ∧ slotsColoredFor c (ply + 1) col ch
/-- The nodes in a list of slots at ply `ply`, below a parent of colour `parentColor`. -/
def slotsColoredFor (c : Int) (ply : Nat) (parentColor : Option Int) :
    List (Option MoveTreeNode) → Prop
  | [] => True
  | none :: rest => slotsColoredFor c ply parentColor rest
  | some t :: rest => t.ColoredFor c ply parentColor ∧ slotsColoredFor c ply parentColor rest
end

/-! ## The candidates of a node -/

/-- The array `temp_moves` of a call, as it is filled after `getAllMoves`. -/
def tempMoves (E : Env) (chb : Board) (color : Int) : List (List MoveNode) :=
  List.ofFn (fun i : Fin 6 =>
    if color = BLACK then (E.getAllMoves chb color).2.1 i else (E.getAllMoves chb color).2.2 i)

/-- The six move lists one after the other in class order (pawn, king, queen, rook, knight,
bishop), each in its list order. -/
def candidates (E : Env) (chb : Board) (color : Int) : List MoveNode :=
  (tempMoves E chb color).flatten

/-- The first `n` candidates of a list, each as `some`, followed by `none` up to length `n`:
what the `n` slots of a node are filled from. -/
def candidateSlots (n : Nat) (l : List MoveNode) : List (Option MoveNode) :=
  (l.map some ++ List.replicate n none).take n

/-- The round-robin interleaving of the spec, with `n` rounds left: one entry of each list
that still has one, by class index, then the next round on the tails. -/
def roundRobinAux : Nat → List (List MoveNode) → List MoveNode
  | 0, _ => []
  | n + 1, ls => ls.filterMap List.head? ++ roundRobinAux n (ls.map List.tail)

/-- The round-robin interleaving of the spec ("consuming entries round-robin by piece-class
index ..., honoring each class's original list order"). -/
def roundRobin (ls : List (List MoveNode)) : List MoveNode :=
  roundRobinAux (ls.map List.length).sum ls

/-- How slot `i` relates to candidate `i` of a node expanded for `color` on board `chb`:
without a candidate the slot is empty; a candidate is written to the slot, or, when `color`
is not `cpu`, it is pruned (its evaluation exceeds `score`) and the slot is empty. -/
def SlotFrom (E : Env) (color cpu : Int) (score : Option Int) (chb : Board) :
    Option MoveNode → Option MoveTreeNode → Prop
  | none, slot => slot = none
  | some m, none =>
    color ≠ cpu ∧ ∃ sc, score = some sc
      ∧ (_evaluateNext E chb (opposite color) m.start m.end_).2 > sc
  | some m, some c =>
    c.start = m.start ∧ c.end_ = some m.end_
      ∧ (color ≠ cpu → ∃ sc, score = some sc
          ∧ (_evaluateNext E chb (opposite color) m.start m.end_).2 ≤ sc)

/-- The indices at which one run of the loop `while (!temp_moves[move_list_count])` reads
`temp_moves`, run on the part of the array from `move_list_count` on: every exhausted list
it steps over, then the index at which it stops, which lies past the array when that part
is used up. -/
def skipNullReads : List (List MoveNode) → Nat → List Nat
  | [] :: rest, move_list_count => move_list_count :: skipNullReads rest (move_list_count + 1)
  | _, move_list_count => [move_list_count]

/-- The indices at which the `while` loop reads `temp_moves` during `n` iterations of the
slot-filling loop.  The cursor moves as in `fillSlot`: to the index where the scan stops,
and, when that index is at most 5, the list there loses its first entry. -/
def whileReads : Nat → List (List MoveNode) → Nat → List Nat
  | 0, _, _ => []
  | n + 1, temp_moves, move_list_count =>
    let stop := skipNull (temp_moves.drop move_list_count) move_list_count
    skipNullReads (temp_moves.drop move_list_count) move_list_count
      ++ whileReads n
          (if stop > 5 then temp_moves else temp_moves.set stop (temp_moves.getD stop []).tail)
          stop

/-! ## More stand-ins for concrete runs -/

/-- White king e1, white pawns a2 and b2, black king e8, black pawn a7. -/
def demoBoard2 : Board := fun row col =>
  if row = 0 ∧ col = 4 then ⟨KING, ('e', '1'), true, WHITE⟩
  else if row = 1 ∧ col = 0 then ⟨PAWN, ('a', '2'), true, WHITE⟩
  else if row = 1 ∧ col = 1 then ⟨PAWN, ('b', '2'), true, WHITE⟩
  else if row = 7 ∧ col = 4 then ⟨KING, ('e', '8'), true, BLACK⟩
  else if row = 6 ∧ col = 0 then ⟨PAWN, ('a', '7'), true, BLACK⟩
  else demoEmpty

/-- A move generator that lists the same moves on every board: the pawn moves a2a3, b2b3 and
the king move e1d1 for White, the king move e8d8 for Black.  It leaves the board alone. -/
def demoMoves2 (chb : Board) (_c_flag : Int) :
    Board × (Fin 6 → List MoveNode) × (Fin 6 → List MoveNode) :=
  (chb,
   fun i => if i = 1 then [⟨('e', '8'), ('d', '8')⟩] else [],
   fun i => if i = 0 then [⟨('a', '2'), ('a', '3')⟩, ⟨('b', '2'), ('b', '3')⟩]
     else if i = 1 then [⟨('e', '1'), ('d', '1')⟩] else [])

def demoEnv2 : Env := ⟨demoMoves2, demoMakeMove⟩

/-- A move generator that lists the single move a2a3 for either side on every board and
leaves the board alone. -/
def chainMoves (chb : Board) (_c_flag : Int) :
    Board × (Fin 6 → List MoveNode) × (Fin 6 → List MoveNode) :=
  (chb,
   fun i => if i = 0 then [⟨('a', '2'), ('a', '3')⟩] else [],
   fun i => if i = 0 then [⟨('a', '2'), ('a', '3')⟩] else [])

/-- A move application that leaves the board as it is. -/
def chainMakeMove (chb : Board) (_st _en : Char × Char) (_color : Int) (_ListCheck : Bool) :
    Board × Bool :=
  (chb, true)

/-- With `chainEnv` every node has exactly one candidate and no candidate is pruned: the tree
is a single path. -/
def chainEnv : Env := ⟨chainMoves, chainMakeMove⟩

/-- White queen d1 and white pawns a2 to g2; no other piece. -/
def queenPawnsBoard : Board := fun row col =>
  if row = 0 ∧ col = 3 then ⟨QUEEN, ('d', '1'), true, WHITE⟩
  else if row = 1 ∧ col.val < 7 then ⟨PAWN, (Char.ofNat (97 + col.val), '2'), true, WHITE⟩
  else demoEmpty

/-- The board `queenPawnsBoard` with a white king on e1 added. -/
def queenPawnsKingBoard : Board := fun row col =>
  if row = 0 ∧ col = 4 then ⟨KING, ('e', '1'), true, WHITE⟩ else queenPawnsBoard row col

/-- The board `queenPawnsBoard` with a black king on e8 added: White has material but no
king. -/
def queenPawnsBlackKingBoard : Board := fun row col =>
  if row = 7 ∧ col = 4 then ⟨KING, ('e', '8'), true, BLACK⟩ else queenPawnsBoard row col

/-- The board `queenPawnsKingBoard` with a pawn on h3 added whose colour field is `EMPTY`. -/
def strayPawnBoard : Board := fun row col =>
  if row = 2 ∧ col = 7 then ⟨PAWN, ('h', '3'), true, EMPTY⟩ else queenPawnsKingBoard row col

/-! ## Properties of all nodes of a tree -/

mutual
/-- Every node below `t` (in a slot of `t`, or in a slot of a node below `t`) has the
property `P`. -/
def MoveTreeNode.AllBelow (P : MoveTreeNode → Prop) : MoveTreeNode → Prop
  | .mk _ _ _ _ _ _ ch _ => slotsAll P ch
/-- Every node in the slots `l`, and every node below one of them, has the property `P`. -/
def slotsAll (P : MoveTreeNode → Prop) : List (Option MoveTreeNode) → Prop
  | [] => True
  | none :: rest => slotsAll P rest
  | some c :: rest => P c ∧ c.AllBelow P ∧ slotsAll P rest
end

/-- The start and end square of the node in a slot. -/
def slotMove (slot : Option MoveTreeNode) : Option ((Char × Char) × Option (Char × Char)) :=
  slot.map (fun c => (c.start, c.end_))

/-- The number of slots of a node that hold a node: its children. -/
def MoveTreeNode.childCount (t : MoveTreeNode) : Nat :=
  (t.child.filter Option.isSome).length

/-- The pruning test of one iteration of the slot-filling loop reads a score that was never
assigned: a candidate is left (`move_list_count` is at most 5 after the scan), the side to
move is not `CPU_PLAYER`, and `(*curr_leaf)->score` has not been written. -/
def unassignedRead (color : Int) (curr_leaf : MoveTreeNode) (s : AIState)
    (temp_moves : List (List MoveNode)) (move_list_count : Nat) : Prop :=
  skipNull (temp_moves.drop move_list_count) move_list_count ≤ 5
    ∧ color ≠ s.CPU_PLAYER ∧ curr_leaf.score = none

/-- A recursive call that is made only on a node whose score is assigned and, from ply 0,
only for the colour of the calling expansion; otherwise it gives no result. -/
def onScored
    (recur : AIState → MoveTreeNode → Board → Int → Nat → Option (AIState × MoveTreeNode × Board))
    (color : Int) (depth_count : Nat) :
    AIState → MoveTreeNode → Board → Int → Nat → Option (AIState × MoveTreeNode × Board) :=
  fun s c b col d =>
    if c.score.isSome ∧ (depth_count = 0 → col = color) then recur s c b col d else none

/-- A node at ply 1 whose score is not assigned. -/
def unscoredNode : MoveTreeNode :=
  MoveTreeNode.mk 4 ('a', '2') (some ('a', '3')) (some WHITE) none 1 [] (some 2)

/-- A move generator that lists 30 pawn moves and 30 queen moves for either side on every
board (60 candidates, more than a node has slots) and leaves the board alone.  Move `k` of
a list goes from file `a`+`k % 8`, rank `1`+`k / 8` to the same file on rank 5 (pawn list) or
rank 6 (queen list). -/
def crowdedMoves (chb : Board) (_c_flag : Int) :
    Board × (Fin 6 → List MoveNode) × (Fin 6 → List MoveNode) :=
  let pawns : List MoveNode := (List.range 30).map (fun k =>
    ⟨(Char.ofNat (97 + k % 8), Char.ofNat (49 + k / 8)), (Char.ofNat (97 + k % 8), '5')⟩)
  let queens : List MoveNode := (List.range 30).map (fun k =>
    ⟨(Char.ofNat (97 + k % 8), Char.ofNat (49 + k / 8)), (Char.ofNat (97 + k % 8), '6')⟩)
  (chb,
   fun i => if i = 0 then pawns else if i = 2 then queens else [],
   fun i => if i = 0 then pawns else if i = 2 then queens else [])

/-- With `crowdedEnv` every expansion has 60 candidates. -/
def crowdedEnv : Env := ⟨crowdedMoves, chainMakeMove⟩

/-! # Theorems -/

set_option maxRecDepth 100000

/-! ## The evaluator -/

theorem foldl_rows_cols {α β γ κ : Type} (f : κ → γ → κ) (g : α → β → γ) (cols : List β) :
    ∀ (rows : List α) (k : κ),
      rows.foldl (fun k row => cols.foldl (fun k col => f k (g row col)) k) k
        = (rows.flatMap (fun row => cols.map (fun col => g row col))).foldl f k := by
  intro rows
  induction rows with
  | nil => intro k; rfl
  | cons row rows ih =>
    intro k
    simp only [List.foldl_cons, List.flatMap_cons, List.foldl_append, List.foldl_map]
    exact ih _

theorem evaluateCounts_eq (chb : Board) :
    evaluateCounts chb = (squares chb).foldl evaluateSquare PieceCounts.zero := by
  unfold evaluateCounts squares
  exact foldl_rows_cols evaluateSquare (fun row col => chb row col) _ _ _

/-- A counter that `evaluateSquare` raises by one exactly on the squares satisfying `P`
ends the loop at its start value plus the number of such squares. -/
theorem foldl_counter (f : PieceCounts → Nat) (P : ch_template → Bool)
    (h : ∀ k sq, f (evaluateSquare k sq) = f k + if P sq then 1 else 0) :
    ∀ (l : List ch_template) (k : PieceCounts),
      f (l.foldl evaluateSquare k) = f k + l.countP P := by
  intro l
  induction l with
  | nil => intro k; simp
  | cons sq l ih =>
    intro k
    rw [List.foldl_cons, ih, h, List.countP_cons]
    split_ifs <;> omega

theorem evaluateSquare_pawn (k : PieceCounts) (sq : ch_template) (h : sq.current = PAWN) :
    evaluateSquare k sq = if sq.c = BLACK then { k with b_pawn_count := k.b_pawn_count + 1 }
      else { k with w_pawn_count := k.w_pawn_count + 1 } := by
  unfold evaluateSquare
  simp [h, PAWN, QUEEN, KING, BISHOP, ROOK, KNIGHT]

theorem evaluateSquare_queen (k : PieceCounts) (sq : ch_template) (h : sq.current = QUEEN) :
    evaluateSquare k sq = if sq.c = BLACK then { k with b_queen_count := k.b_queen_count + 1 }
      else { k with w_queen_count := k.w_queen_count + 1 } := by
  unfold evaluateSquare
  simp [h, PAWN, QUEEN, KING, BISHOP, ROOK, KNIGHT]

theorem evaluateSquare_king (k : PieceCounts) (sq : ch_template) (h : sq.current = KING) :
    evaluateSquare k sq = if sq.c = BLACK then { k with b_king_count := k.b_king_count + 1 }
      else { k with w_king_count := k.w_king_count + 1 } := by
  unfold evaluateSquare
  simp [h, PAWN, QUEEN, KING, BISHOP, ROOK, KNIGHT]

theorem evaluateSquare_bishop (k : PieceCounts) (sq : ch_template) (h : sq.current = BISHOP) :
    evaluateSquare k sq = if sq.c = BLACK then { k with b_bishop_count := k.b_bishop_count + 1 }
      else { k with w_bishop_count := k.w_bishop_count + 1 } := by
  unfold evaluateSquare
  simp [h, PAWN, QUEEN, KING, BISHOP, ROOK, KNIGHT]

theorem evaluateSquare_rook (k : PieceCounts) (sq : ch_template) (h : sq.current = ROOK) :
    evaluateSquare k sq = if sq.c = BLACK then { k with b_rook_count := k.b_rook_count + 1 }
      else { k with w_rook_count := k.w_rook_count + 1 } := by
  unfold evaluateSquare
  simp [h, PAWN, QUEEN, KING, BISHOP, ROOK, KNIGHT]

theorem evaluateSquare_knight (k : PieceCounts) (sq : ch_template) (h : sq.current = KNIGHT) :
    evaluateSquare k sq = if sq.c = BLACK then { k with b_knight_count := k.b_knight_count + 1 }
      else { k with w_knight_count := k.w_knight_count + 1 } := by
  unfold evaluateSquare
  simp [h, PAWN, QUEEN, KING, BISHOP, ROOK, KNIGHT]

theorem evaluateSquare_other (k : PieceCounts) (sq : ch_template)
    (h1 : sq.current ≠ PAWN) (h2 : sq.current ≠ QUEEN) (h3 : sq.current ≠ KING)
    (h4 : sq.current ≠ BISHOP) (h5 : sq.current ≠ ROOK) (h6 : sq.current ≠ KNIGHT) :
    evaluateSquare k sq = k := by
  unfold evaluateSquare
  simp [h1, h2, h3, h4, h5, h6]

theorem step_b_pawn_count (k : PieceCounts) (sq : ch_template) :
    (evaluateSquare k sq).b_pawn_count
      = k.b_pawn_count + if decide (sq.current = PAWN ∧ sq.c = BLACK) then 1 else 0 := by
  by_cases h1 : sq.current = PAWN
  · rw [evaluateSquare_pawn k sq h1]
    by_cases hc : sq.c = BLACK <;> simp [h1, hc, PAWN, QUEEN, KING, BISHOP, ROOK, KNIGHT]
  by_cases h2 : sq.current = QUEEN
  · rw [evaluateSquare_queen k sq h2]
    by_cases hc : sq.c = BLACK <;> simp [h2, hc, PAWN, QUEEN, KING, BISHOP, ROOK, KNIGHT]
  by_cases h3 : sq.current = KING
  · rw [evaluateSquare_king k sq h3]
    by_cases hc : sq.c = BLACK <;> simp [h3, hc, PAWN, QUEEN, KING, BISHOP, ROOK, KNIGHT]
  by_cases h4 : sq.current = BISHOP
  · rw [evaluateSquare_bishop k sq h4]
    by_cases hc : sq.c = BLACK <;> simp [h4, hc, PAWN, QUEEN, KING, BISHOP, ROOK, KNIGHT]
  by_cases h5 : sq.current = ROOK
  · rw [evaluateSquare_rook k sq h5]
    by_cases hc : sq.c = BLACK <;> simp [h5, hc, PAWN, QUEEN, KING, BISHOP, ROOK, KNIGHT]
  by_cases h6 : sq.current = KNIGHT
  · rw [evaluateSquare_knight k sq h6]
    by_cases hc : sq.c = BLACK <;> simp [h6, hc, PAWN, QUEEN, KING, BISHOP, ROOK, KNIGHT]
  rw [evaluateSquare_other k sq h1 h2 h3 h4 h5 h6]
  simp [h1, h2, h3, h4, h5, h6]

theorem step_b_queen_count (k : PieceCounts) (sq : ch_template) :
    (evaluateSquare k sq).b_queen_count
      = k.b_queen_count + if decide (sq.current = QUEEN ∧ sq.c = BLACK) then 1 else 0 := by
  by_cases h1 : sq.current = PAWN
  · rw [evaluateSquare_pawn k sq h1]
    by_cases hc : sq.c = BLACK <;> simp [h1, hc, PAWN, QUEEN, KING, BISHOP, ROOK, KNIGHT]
  by_cases h2 : sq.current = QUEEN
  · rw [evaluateSquare_queen k sq h2]
    by_cases hc : sq.c = BLACK <;> simp [h2, hc, PAWN, QUEEN, KING, BISHOP, ROOK, KNIGHT]
  by_cases h3 : sq.current = KING
  · rw [evaluateSquare_king k sq h3]
    by_cases hc : sq.c = BLACK <;> simp [h3, hc, PAWN, QUEEN, KING, BISHOP, ROOK, KNIGHT]
  by_cases h4 : sq.current = BISHOP
  · rw [evaluateSquare_bishop k sq h4]
    by_cases hc : sq.c = BLACK <;> simp [h4, hc, PAWN, QUEEN, KING, BISHOP, ROOK, KNIGHT]
  by_cases h5 : sq.current = ROOK
  · rw [evaluateSquare_rook k sq h5]
    by_cases hc : sq.c = BLACK <;> simp [h5, hc, PAWN, QUEEN, KING, BISHOP, ROOK, KNIGHT]
  by_cases h6 : sq.current = KNIGHT
  · rw [evaluateSquare_knight k sq h6]
    by_cases hc : sq.c = BLACK <;> simp [h6, hc, PAWN, QUEEN, KING, BISHOP, ROOK, KNIGHT]
  rw [evaluateSquare_other k sq h1 h2 h3 h4 h5 h6]
  simp [h1, h2, h3, h4, h5, h6]

theorem step_b_king_count (k : PieceCounts) (sq : ch_template) :
    (evaluateSquare k sq).b_king_count
      = k.b_king_count + if decide (sq.current = KING ∧ sq.c = BLACK) then 1 else 0 := by
  by_cases h1 : sq.current = PAWN
  · rw [evaluateSquare_pawn k sq h1]
    by_cases hc : sq.c = BLACK <;> simp [h1, hc, PAWN, QUEEN, KING, BISHOP, ROOK, KNIGHT]
  by_cases h2 : sq.current = QUEEN
  · rw [evaluateSquare_queen k sq h2]
    by_cases hc : sq.c = BLACK <;> simp [h2, hc, PAWN, QUEEN, KING, BISHOP, ROOK, KNIGHT]
  by_cases h3 : sq.current = KING
  · rw [evaluateSquare_king k sq h3]
    by_cases hc : sq.c = BLACK <;> simp [h3, hc, PAWN, QUEEN, KING, BISHOP, ROOK, KNIGHT]
  by_cases h4 : sq.current = BISHOP
  · rw [evaluateSquare_bishop k sq h4]
    by_cases hc : sq.c = BLACK <;> simp [h4, hc, PAWN, QUEEN, KING, BISHOP, ROOK, KNIGHT]
  by_cases h5 : sq.current = ROOK
  · rw [evaluateSquare_rook k sq h5]
    by_cases hc : sq.c = BLACK <;> simp [h5, hc, PAWN, QUEEN, KING, BISHOP, ROOK, KNIGHT]
  by_cases h6 : sq.current = KNIGHT
  · rw [evaluateSquare_knight k sq h6]
    by_cases hc : sq.c = BLACK <;> simp [h6, hc, PAWN, QUEEN, KING, BISHOP, ROOK, KNIGHT]
  rw [evaluateSquare_other k sq h1 h2 h3 h4 h5 h6]
  simp [h1, h2, h3, h4, h5, h6]

theorem step_b_bishop_count (k : PieceCounts) (sq : ch_template) :
    (evaluateSquare k sq).b_bishop_count
      = k.b_bishop_count + if decide (sq.current = BISHOP ∧ sq.c = BLACK) then 1 else 0 := by
  by_cases h1 : sq.current = PAWN
  · rw [evaluateSquare_pawn k sq h1]
    by_cases hc : sq.c = BLACK <;> simp [h1, hc, PAWN, QUEEN, KING, BISHOP, ROOK, KNIGHT]
  by_cases h2 : sq.current = QUEEN
  · rw [evaluateSquare_queen k sq h2]
    by_cases hc : sq.c = BLACK <;> simp [h2, hc, PAWN, QUEEN, KING, BISHOP, ROOK, KNIGHT]
  by_cases h3 : sq.current = KING
  · rw [evaluateSquare_king k sq h3]
    by_cases hc : sq.c = BLACK <;> simp [h3, hc, PAWN, QUEEN, KING, BISHOP, ROOK, KNIGHT]
  by_cases h4 : sq.current = BISHOP
  · rw [evaluateSquare_bishop k sq h4]
    by_cases hc : sq.c = BLACK <;> simp [h4, hc, PAWN, QUEEN, KING, BISHOP, ROOK, KNIGHT]
  by_cases h5 : sq.current = ROOK
  · rw [evaluateSquare_rook k sq h5]
    by_cases hc : sq.c = BLACK <;> simp [h5, hc, PAWN, QUEEN, KING, BISHOP, ROOK, KNIGHT]
  by_cases h6 : sq.current = KNIGHT
  · rw [evaluateSquare_knight k sq h6]
    by_cases hc : sq.c = BLACK <;> simp [h6, hc, PAWN, QUEEN, KING, BISHOP, ROOK, KNIGHT]
  rw [evaluateSquare_other k sq h1 h2 h3 h4 h5 h6]
  simp [h1, h2, h3, h4, h5, h6]

theorem step_b_rook_count (k : PieceCounts) (sq : ch_template) :
    (evaluateSquare k sq).b_rook_count
      = k.b_rook_count + if decide (sq.current = ROOK ∧ sq.c = BLACK) then 1 else 0 := by
  by_cases h1 : sq.current = PAWN
  · rw [evaluateSquare_pawn k sq h1]
    by_cases hc : sq.c = BLACK <;> simp [h1, hc, PAWN, QUEEN, KING, BISHOP, ROOK, KNIGHT]
  by_cases h2 : sq.current = QUEEN
  · rw [evaluateSquare_queen k sq h2]
    by_cases hc : sq.c = BLACK <;> simp [h2, hc, PAWN, QUEEN, KING, BISHOP, ROOK, KNIGHT]
  by_cases h3 : sq.current = KING
  · rw [evaluateSquare_king k sq h3]
    by_cases hc : sq.c = BLACK <;> simp [h3, hc, PAWN, QUEEN, KING, BISHOP, ROOK, KNIGHT]
  by_cases h4 : sq.current = BISHOP
  · rw [evaluateSquare_bishop k sq h4]
    by_cases hc : sq.c = BLACK <;> simp [h4, hc, PAWN, QUEEN, KING, BISHOP, ROOK, KNIGHT]
  by_cases h5 : sq.current = ROOK
  · rw [evaluateSquare_rook k sq h5]
    by_cases hc : sq.c = BLACK <;> simp [h5, hc, PAWN, QUEEN, KING, BISHOP, ROOK, KNIGHT]
  by_cases h6 : sq.current = KNIGHT
  · rw [evaluateSquare_knight k sq h6]
    by_cases hc : sq.c = BLACK <;> simp [h6, hc, PAWN, QUEEN, KING, BISHOP, ROOK, KNIGHT]
  rw [evaluateSquare_other k sq h1 h2 h3 h4 h5 h6]
  simp [h1, h2, h3, h4, h5, h6]

theorem step_b_knight_count (k : PieceCounts) (sq : ch_template) :
    (evaluateSquare k sq).b_knight_count
      = k.b_knight_count + if decide (sq.current = KNIGHT ∧ sq.c = BLACK) then 1 else 0 := by
  by_cases h1 : sq.current = PAWN
  · rw [evaluateSquare_pawn k sq h1]
    by_cases hc : sq.c = BLACK <;> simp [h1, hc, PAWN, QUEEN, KING, BISHOP, ROOK, KNIGHT]
  by_cases h2 : sq.current = QUEEN
  · rw [evaluateSquare_queen k sq h2]
    by_cases hc : sq.c = BLACK <;> simp [h2, hc, PAWN, QUEEN, KING, BISHOP, ROOK, KNIGHT]
  by_cases h3 : sq.current = KING
  · rw [evaluateSquare_king k sq h3]
    by_cases hc : sq.c = BLACK <;> simp [h3, hc, PAWN, QUEEN, KING, BISHOP, ROOK, KNIGHT]
  by_cases h4 : sq.current = BISHOP
  · rw [evaluateSquare_bishop k sq h4]
    by_cases hc : sq.c = BLACK <;> simp [h4, hc, PAWN, QUEEN, KING, BISHOP, ROOK, KNIGHT]
  by_cases h5 : sq.current = ROOK
  · rw [evaluateSquare_rook k sq h5]
    by_cases hc : sq.c = BLACK <;> simp [h5, hc, PAWN, QUEEN, KING, BISHOP, ROOK, KNIGHT]
  by_cases h6 : sq.current = KNIGHT
  · rw [evaluateSquare_knight k sq h6]
    by_cases hc : sq.c = BLACK <;> simp [h6, hc, PAWN, QUEEN, KING, BISHOP, ROOK, KNIGHT]
  rw [evaluateSquare_other k sq h1 h2 h3 h4 h5 h6]
  simp [h1, h2, h3, h4, h5, h6]

theorem step_w_pawn_count (k : PieceCounts) (sq : ch_template) :
    (evaluateSquare k sq).w_pawn_count
      = k.w_pawn_count + if decide (sq.current = PAWN ∧ sq.c ≠ BLACK) then 1 else 0 := by
  by_cases h1 : sq.current = PAWN
  · rw [evaluateSquare_pawn k sq h1]
    by_cases hc : sq.c = BLACK <;> simp [h1, hc, PAWN, QUEEN, KING, BISHOP, ROOK, KNIGHT]
  by_cases h2 : sq.current = QUEEN
  · rw [evaluateSquare_queen k sq h2]
    by_cases hc : sq.c = BLACK <;> simp [h2, hc, PAWN, QUEEN, KING, BISHOP, ROOK, KNIGHT]
  by_cases h3 : sq.current = KING
  · rw [evaluateSquare_king k sq h3]
    by_cases hc : sq.c = BLACK <;> simp [h3, hc, PAWN, QUEEN, KING, BISHOP, ROOK, KNIGHT]
  by_cases h4 : sq.current = BISHOP
  · rw [evaluateSquare_bishop k sq h4]
    by_cases hc : sq.c = BLACK <;> simp [h4, hc, PAWN, QUEEN, KING, BISHOP, ROOK, KNIGHT]
  by_cases h5 : sq.current = ROOK
  · rw [evaluateSquare_rook k sq h5]
    by_cases hc : sq.c = BLACK <;> simp [h5, hc, PAWN, QUEEN, KING, BISHOP, ROOK, KNIGHT]
  by_cases h6 : sq.current = KNIGHT
  · rw [evaluateSquare_knight k sq h6]
    by_cases hc : sq.c = BLACK <;> simp [h6, hc, PAWN, QUEEN, KING, BISHOP, ROOK, KNIGHT]
  rw [evaluateSquare_other k sq h1 h2 h3 h4 h5 h6]
  simp [h1, h2, h3, h4, h5, h6]

theorem step_w_queen_count (k : PieceCounts) (sq : ch_template) :
    (evaluateSquare k sq).w_queen_count
      = k.w_queen_count + if decide (sq.current = QUEEN ∧ sq.c ≠ BLACK) then 1 else 0 := by
  by_cases h1 : sq.current = PAWN
  · rw [evaluateSquare_pawn k sq h1]
    by_cases hc : sq.c = BLACK <;> simp [h1, hc, PAWN, QUEEN, KING, BISHOP, ROOK, KNIGHT]
  by_cases h2 : sq.current = QUEEN
  · rw [evaluateSquare_queen k sq h2]
    by_cases hc : sq.c = BLACK <;> simp [h2, hc, PAWN, QUEEN, KING, BISHOP, ROOK, KNIGHT]
  by_cases h3 : sq.current = KING
  · rw [evaluateSquare_king k sq h3]
    by_cases hc : sq.c = BLACK <;> simp [h3, hc, PAWN, QUEEN, KING, BISHOP, ROOK, KNIGHT]
  by_cases h4 : sq.current = BISHOP
  · rw [evaluateSquare_bishop k sq h4]
    by_cases hc : sq.c = BLACK <;> simp [h4, hc, PAWN, QUEEN, KING, BISHOP, ROOK, KNIGHT]
  by_cases h5 : sq.current = ROOK
  · rw [evaluateSquare_rook k sq h5]
    by_cases hc : sq.c = BLACK <;> simp [h5, hc, PAWN, QUEEN, KING, BISHOP, ROOK, KNIGHT]
  by_cases h6 : sq.current = KNIGHT
  · rw [evaluateSquare_knight k sq h6]
    by_cases hc : sq.c = BLACK <;> simp [h6, hc, PAWN, QUEEN, KING, BISHOP, ROOK, KNIGHT]
  rw [evaluateSquare_other k sq h1 h2 h3 h4 h5 h6]
  simp [h1, h2, h3, h4, h5, h6]

theorem step_w_king_count (k : PieceCounts) (sq : ch_template) :
    (evaluateSquare k sq).w_king_count
      = k.w_king_count + if decide (sq.current = KING ∧ sq.c ≠ BLACK) then 1 else 0 := by
  by_cases h1 : sq.current = PAWN
  · rw [evaluateSquare_pawn k sq h1]
    by_cases hc : sq.c = BLACK <;> simp [h1, hc, PAWN, QUEEN, KING, BISHOP, ROOK, KNIGHT]
  by_cases h2 : sq.current = QUEEN
  · rw [evaluateSquare_queen k sq h2]
    by_cases hc : sq.c = BLACK <;> simp [h2, hc, PAWN, QUEEN, KING, BISHOP, ROOK, KNIGHT]
  by_cases h3 : sq.current = KING
  · rw [evaluateSquare_king k sq h3]
    by_cases hc : sq.c = BLACK <;> simp [h3, hc, PAWN, QUEEN, KING, BISHOP, ROOK, KNIGHT]
  by_cases h4 : sq.current = BISHOP
  · rw [evaluateSquare_bishop k sq h4]
    by_cases hc : sq.c = BLACK <;> simp [h4, hc, PAWN, QUEEN, KING, BISHOP, ROOK, KNIGHT]
  by_cases h5 : sq.current = ROOK
  · rw [evaluateSquare_rook k sq h5]
    by_cases hc : sq.c = BLACK <;> simp [h5, hc, PAWN, QUEEN, KING, BISHOP, ROOK, KNIGHT]
  by_cases h6 : sq.current = KNIGHT
  · rw [evaluateSquare_knight k sq h6]
    by_cases hc : sq.c = BLACK <;> simp [h6, hc, PAWN, QUEEN, KING, BISHOP, ROOK, KNIGHT]
  rw [evaluateSquare_other k sq h1 h2 h3 h4 h5 h6]
  simp [h1, h2, h3, h4, h5, h6]

theorem step_w_bishop_count (k : PieceCounts) (sq : ch_template) :
    (evaluateSquare k sq).w_bishop_count
      = k.w_bishop_count + if decide (sq.current = BISHOP ∧ sq.c ≠ BLACK) then 1 else 0 := by
  by_cases h1 : sq.current = PAWN
  · rw [evaluateSquare_pawn k sq h1]
    by_cases hc : sq.c = BLACK <;> simp [h1, hc, PAWN, QUEEN, KING, BISHOP, ROOK, KNIGHT]
  by_cases h2 : sq.current = QUEEN
  · rw [evaluateSquare_queen k sq h2]
    by_cases hc : sq.c = BLACK <;> simp [h2, hc, PAWN, QUEEN, KING, BISHOP, ROOK, KNIGHT]
  by_cases h3 : sq.current = KING
  · rw [evaluateSquare_king k sq h3]
    by_cases hc : sq.c = BLACK <;> simp [h3, hc, PAWN, QUEEN, KING, BISHOP, ROOK, KNIGHT]
  by_cases h4 : sq.current = BISHOP
  · rw [evaluateSquare_bishop k sq h4]
    by_cases hc : sq.c = BLACK <;> simp [h4, hc, PAWN, QUEEN, KING, BISHOP, ROOK, KNIGHT]
  by_cases h5 : sq.current = ROOK
  · rw [evaluateSquare_rook k sq h5]
    by_cases hc : sq.c = BLACK <;> simp [h5, hc, PAWN, QUEEN, KING, BISHOP, ROOK, KNIGHT]
  by_cases h6 : sq.current = KNIGHT
  · rw [evaluateSquare_knight k sq h6]
    by_cases hc : sq.c = BLACK <;> simp [h6, hc, PAWN, QUEEN, KING, BISHOP, ROOK, KNIGHT]
  rw [evaluateSquare_other k sq h1 h2 h3 h4 h5 h6]
  simp [h1, h2, h3, h4, h5, h6]

theorem step_w_rook_count (k : PieceCounts) (sq : ch_template) :
    (evaluateSquare k sq).w_rook_count
      = k.w_rook_count + if decide (sq.current = ROOK ∧ sq.c ≠ BLACK) then 1 else 0 := by
  by_cases h1 : sq.current = PAWN
  · rw [evaluateSquare_pawn k sq h1]
    by_cases hc : sq.c = BLACK <;> simp [h1, hc, PAWN, QUEEN, KING, BISHOP, ROOK, KNIGHT]
  by_cases h2 : sq.current = QUEEN
  · rw [evaluateSquare_queen k sq h2]
    by_cases hc : sq.c = BLACK <;> simp [h2, hc, PAWN, QUEEN, KING, BISHOP, ROOK, KNIGHT]
  by_cases h3 : sq.current = KING
  · rw [evaluateSquare_king k sq h3]
    by_cases hc : sq.c = BLACK <;> simp [h3, hc, PAWN, QUEEN, KING, BISHOP, ROOK, KNIGHT]
  by_cases h4 : sq.current = BISHOP
  · rw [evaluateSquare_bishop k sq h4]
    by_cases hc : sq.c = BLACK <;> simp [h4, hc, PAWN, QUEEN, KING, BISHOP, ROOK, KNIGHT]
  by_cases h5 : sq.current = ROOK
  · rw [evaluateSquare_rook k sq h5]
    by_cases hc : sq.c = BLACK <;> simp [h5, hc, PAWN, QUEEN, KING, BISHOP, ROOK, KNIGHT]
  by_cases h6 : sq.current = KNIGHT
  · rw [evaluateSquare_knight k sq h6]
    by_cases hc : sq.c = BLACK <;> simp [h6, hc, PAWN, QUEEN, KING, BISHOP, ROOK, KNIGHT]
  rw [evaluateSquare_other k sq h1 h2 h3 h4 h5 h6]
  simp [h1, h2, h3, h4, h5, h6]

theorem step_w_knight_count (k : PieceCounts) (sq : ch_template) :
    (evaluateSquare k sq).w_knight_count
      = k.w_knight_count + if decide (sq.current = KNIGHT ∧ sq.c ≠ BLACK) then 1 else 0 := by
  by_cases h1 : sq.current = PAWN
  · rw [evaluateSquare_pawn k sq h1]
    by_cases hc : sq.c = BLACK <;> simp [h1, hc, PAWN, QUEEN, KING, BISHOP, ROOK, KNIGHT]
  by_cases h2 : sq.current = QUEEN
  · rw [evaluateSquare_queen k sq h2]
    by_cases hc : sq.c = BLACK <;> simp [h2, hc, PAWN, QUEEN, KING, BISHOP, ROOK, KNIGHT]
  by_cases h3 : sq.current = KING
  · rw [evaluateSquare_king k sq h3]
    by_cases hc : sq.c = BLACK <;> simp [h3, hc, PAWN, QUEEN, KING, BISHOP, ROOK, KNIGHT]
  by_cases h4 : sq.current = BISHOP
  · rw [evaluateSquare_bishop k sq h4]
    by_cases hc : sq.c = BLACK <;> simp [h4, hc, PAWN, QUEEN, KING, BISHOP, ROOK, KNIGHT]
  by_cases h5 : sq.current = ROOK
  · rw [evaluateSquare_rook k sq h5]
    by_cases hc : sq.c = BLACK <;> simp [h5, hc, PAWN, QUEEN, KING, BISHOP, ROOK, KNIGHT]
  by_cases h6 : sq.current = KNIGHT
  · rw [evaluateSquare_knight k sq h6]
    by_cases hc : sq.c = BLACK <;> simp [h6, hc, PAWN, QUEEN, KING, BISHOP, ROOK, KNIGHT]
  rw [evaluateSquare_other k sq h1 h2 h3 h4 h5 h6]
  simp [h1, h2, h3, h4, h5, h6]

theorem mem_squares (chb : Board) (sq : ch_template) :
    sq ∈ squares chb ↔ ∃ row col, chb row col = sq := by
  simp [squares, List.mem_flatMap, List.mem_map, List.mem_finRange]

theorem white_ne_black : WHITE ≠ BLACK := by decide

/-- The black counters of `_Evaluate` are the numbers of black pieces of each kind. -/
theorem evaluateCounts_black (chb : Board) :
    (evaluateCounts chb).b_pawn_count = pieceCount chb PAWN BLACK
    ∧ (evaluateCounts chb).b_queen_count = pieceCount chb QUEEN BLACK
    ∧ (evaluateCounts chb).b_king_count = pieceCount chb KING BLACK
    ∧ (evaluateCounts chb).b_bishop_count = pieceCount chb BISHOP BLACK
    ∧ (evaluateCounts chb).b_rook_count = pieceCount chb ROOK BLACK
    ∧ (evaluateCounts chb).b_knight_count = pieceCount chb KNIGHT BLACK := by
  rw [evaluateCounts_eq]
  refine ⟨?_, ?_, ?_, ?_, ?_, ?_⟩
  · rw [foldl_counter _ _ step_b_pawn_count]; simp [pieceCount, PieceCounts.zero]
  · rw [foldl_counter _ _ step_b_queen_count]; simp [pieceCount, PieceCounts.zero]
  · rw [foldl_counter _ _ step_b_king_count]; simp [pieceCount, PieceCounts.zero]
  · rw [foldl_counter _ _ step_b_bishop_count]; simp [pieceCount, PieceCounts.zero]
  · rw [foldl_counter _ _ step_b_rook_count]; simp [pieceCount, PieceCounts.zero]
  · rw [foldl_counter _ _ step_b_knight_count]; simp [pieceCount, PieceCounts.zero]

/-- Every piece that is not black goes to a white counter: on a board where the squares
with letter `kind` are white or black, the count of the non-black ones is the count of the
white ones. -/
theorem countP_not_black (chb : Board) (kind : Char)
    (h : ∀ row col, (chb row col).current = kind →
      (chb row col).c = WHITE ∨ (chb row col).c = BLACK) :
    (squares chb).countP (fun sq => decide (sq.current = kind ∧ sq.c ≠ BLACK))
      = pieceCount chb kind WHITE := by
  unfold pieceCount
  apply List.countP_congr
  intro sq hsq
  obtain ⟨row, col, rfl⟩ := (mem_squares chb sq).1 hsq
  have hwb := white_ne_black
  constructor
  · intro hp
    simp only [decide_eq_true_eq] at hp ⊢
    rcases h row col hp.1 with hw | hb
    · exact ⟨hp.1, hw⟩
    · exact absurd hb hp.2
  · intro hp
    simp only [decide_eq_true_eq] at hp ⊢
    exact ⟨hp.1, by rw [hp.2]; exact hwb⟩

theorem evaluateCounts_white_raw (chb : Board) :
    (evaluateCounts chb).w_pawn_count
        = (squares chb).countP (fun sq => decide (sq.current = PAWN ∧ sq.c ≠ BLACK))
    ∧ (evaluateCounts chb).w_queen_count
        = (squares chb).countP (fun sq => decide (sq.current = QUEEN ∧ sq.c ≠ BLACK))
    ∧ (evaluateCounts chb).w_king_count
        = (squares chb).countP (fun sq => decide (sq.current = KING ∧ sq.c ≠ BLACK))
    ∧ (evaluateCounts chb).w_bishop_count
        = (squares chb).countP (fun sq => decide (sq.current = BISHOP ∧ sq.c ≠ BLACK))
    ∧ (evaluateCounts chb).w_rook_count
        = (squares chb).countP (fun sq => decide (sq.current = ROOK ∧ sq.c ≠ BLACK))
    ∧ (evaluateCounts chb).w_knight_count
        = (squares chb).countP (fun sq => decide (sq.current = KNIGHT ∧ sq.c ≠ BLACK)) := by
  rw [evaluateCounts_eq]
  refine ⟨?_, ?_, ?_, ?_, ?_, ?_⟩
  · rw [foldl_counter _ _ step_w_pawn_count]; simp [PieceCounts.zero]
  · rw [foldl_counter _ _ step_w_queen_count]; simp [PieceCounts.zero]
  · rw [foldl_counter _ _ step_w_king_count]; simp [PieceCounts.zero]
  · rw [foldl_counter _ _ step_w_bishop_count]; simp [PieceCounts.zero]
  · rw [foldl_counter _ _ step_w_rook_count]; simp [PieceCounts.zero]
  · rw [foldl_counter _ _ step_w_knight_count]; simp [PieceCounts.zero]

theorem pieceCount_pos (chb : Board) (kind : Char) (color : Int)
    (h : ∃ row col, (chb row col).current = kind ∧ (chb row col).c = color) :
    0 < pieceCount chb kind color := by
  obtain ⟨row, col, hk, hc⟩ := h
  unfold pieceCount
  rw [List.countP_pos_iff]
  exact ⟨chb row col, (mem_squares chb _).2 ⟨row, col, rfl⟩, by simp [hk, hc]⟩

theorem pieceCount_zero (chb : Board) (kind : Char) (color : Int)
    (h : ∀ row col, ¬ ((chb row col).current = kind ∧ (chb row col).c = color)) :
    pieceCount chb kind color = 0 := by
  unfold pieceCount
  rw [List.countP_eq_zero]
  intro sq hsq
  obtain ⟨row, col, rfl⟩ := (mem_squares chb sq).1 hsq
  simpa using h row col

/-- The value of `_Evaluate` for Black: `-1` without a black king, else Black's material. -/
theorem _Evaluate_black (chb : Board) :
    _Evaluate chb BLACK
      = if pieceCount chb KING BLACK = 0 then -1 else materialBalance chb BLACK := by
  obtain ⟨h1, h2, h3, h4, h5, h6⟩ := evaluateCounts_black chb
  unfold _Evaluate materialBalance
  simp only [h1, h2, h3, h4, h5, h6]
  have hwb : BLACK ≠ WHITE := by decide
  simp only [hwb, and_false, false_or, and_true, if_true]
  split_ifs <;> first | rfl | (push_cast; ring)

/-- The value of `_Evaluate` for White on a board whose piece-bearing squares are white or
black: `-1` without a white king, else White's material. -/
theorem _Evaluate_white (chb : Board)
    (hcol : ∀ row col, (chb row col).current ∈ [PAWN, KING, QUEEN, ROOK, KNIGHT, BISHOP] →
      (chb row col).c = WHITE ∨ (chb row col).c = BLACK) :
    _Evaluate chb WHITE
      = if pieceCount chb KING WHITE = 0 then -1 else materialBalance chb WHITE := by
  obtain ⟨h1, h2, h3, h4, h5, h6⟩ := evaluateCounts_white_raw chb
  rw [countP_not_black chb PAWN (fun r c h => hcol r c (by simp [h]))] at h1
  rw [countP_not_black chb QUEEN (fun r c h => hcol r c (by simp [h]))] at h2
  rw [countP_not_black chb KING (fun r c h => hcol r c (by simp [h]))] at h3
  rw [countP_not_black chb BISHOP (fun r c h => hcol r c (by simp [h]))] at h4
  rw [countP_not_black chb ROOK (fun r c h => hcol r c (by simp [h]))] at h5
  rw [countP_not_black chb KNIGHT (fun r c h => hcol r c (by simp [h]))] at h6
  unfold _Evaluate materialBalance
  simp only [h1, h2, h3, h4, h5, h6]
  have hwb : WHITE ≠ BLACK := by decide
  simp only [hwb, and_false, or_false, and_true, if_false]
  split_ifs <;> first | rfl | (push_cast; ring)

/-- C3: on a board whose piece-bearing squares (those whose letter is one of the six piece
letters) are coloured White or Black, for a colour White or Black whose king is on the
board, `_Evaluate` returns 100·pawns + 900·queens + 500·rooks + 325·bishops + 300·knights
counted over the pieces of that colour only. -/
theorem C3_evaluate_is_own_material (chb : Board) (color : Int)
    (hcol : ∀ row col, (chb row col).current ∈ [PAWN, KING, QUEEN, ROOK, KNIGHT, BISHOP] →
      (chb row col).c = WHITE ∨ (chb row col).c = BLACK)
    (hc : color = WHITE ∨ color = BLACK)
    (hking : ∃ row col, (chb row col).current = KING ∧ (chb row col).c = color) :
    _Evaluate chb color
      = 100 * (pieceCount chb PAWN color : Int) + 900 * (pieceCount chb QUEEN color : Int)
        + 500 * (pieceCount chb ROOK color : Int) + 325 * (pieceCount chb BISHOP color : Int)
        + 300 * (pieceCount chb KNIGHT color : Int) := by
  have hpos := pieceCount_pos chb KING color hking
  rcases hc with rfl | rfl
  · rw [_Evaluate_white chb hcol, if_neg (by omega)]; rfl
  · rw [_Evaluate_black chb, if_neg (by omega)]; rfl

theorem C3_evaluate_is_own_material_witness :
    _Evaluate demoBoard WHITE
      = 100 * (pieceCount demoBoard PAWN WHITE : Int) + 900 * (pieceCount demoBoard QUEEN WHITE : Int)
        + 500 * (pieceCount demoBoard ROOK WHITE : Int) + 325 * (pieceCount demoBoard BISHOP WHITE : Int)
        + 300 * (pieceCount demoBoard KNIGHT WHITE : Int) :=
  C3_evaluate_is_own_material demoBoard WHITE (by decide) (Or.inl rfl) ⟨0, 4, by decide⟩

/-- C4, as stated, fails: the board with a single king that carries the colour `EMPTY` has no
white king, yet `_Evaluate` for White returns 0, not -1. -/
theorem C4_stray_king_counterexample :
    (∀ row col, ¬ ((strayKingBoard row col).current = KING ∧ (strayKingBoard row col).c = WHITE))
      ∧ _Evaluate strayKingBoard WHITE = 0 ∧ _Evaluate strayKingBoard WHITE ≠ -1 := by
  decide

/-- C4, amended: for a colour White or Black of which no king is on the board, `_Evaluate`
returns -1, whatever the material of either side; for Black on every board, for White on
every board whose kings are coloured White or Black (`_Evaluate` counts a king of any other
colour as a white king). -/
theorem C4_evaluate_without_king (chb : Board) (color : Int)
    (hc : color = WHITE ∨ color = BLACK)
    (hno : ∀ row col, ¬ ((chb row col).current = KING ∧ (chb row col).c = color))
    (hkings : color = WHITE → ∀ row col, (chb row col).current = KING →
      (chb row col).c = WHITE ∨ (chb row col).c = BLACK) :
    _Evaluate chb color = -1 := by
  have hzero := pieceCount_zero chb KING color hno
  rcases hc with rfl | rfl
  · have h3 := (evaluateCounts_white_raw chb).2.2.1
    rw [countP_not_black chb KING (hkings rfl), hzero] at h3
    unfold _Evaluate
    simp [h3]
  · rw [_Evaluate_black chb, if_pos hzero]

theorem C4_evaluate_without_king_witness :
    (pieceCount queenPawnsBlackKingBoard KING BLACK = 1
        ∧ materialBalance queenPawnsBlackKingBoard WHITE = 1600
        ∧ _Evaluate queenPawnsBlackKingBoard WHITE = -1)
      ∧ _Evaluate strayKingBoard BLACK = -1 :=
  ⟨⟨by decide, by decide,
      C4_evaluate_without_king queenPawnsBlackKingBoard WHITE (Or.inl rfl) (by decide)
        (fun _ => by decide)⟩,
    C4_evaluate_without_king strayKingBoard BLACK (Or.inr rfl) (by decide)
      (fun h => absurd h (by decide))⟩

/-! ## The allocation registry -/

/-- What the loop of `_deleteAIHeap` does on a list of entries: it empties the registry and
appends to the trace, for each entry from head to tail, the tracked block and then the
entry; nothing else changes. -/
theorem deleteAIHeapLoop_eq (l : List HeapListNode) (s : AIState) :
    deleteAIHeapLoop l s
      = { s with AIHeap := [], freed := s.freed ++ l.flatMap (fun e => [e.alloc_mem, e.self]) } := by
  induction l generalizing s with
  | nil => simp [deleteAIHeapLoop]
  | cons e curr ih =>
    rw [deleteAIHeapLoop, ih]
    simp [free, List.append_assoc]

theorem length_flatMap_frees (l : List HeapListNode) :
    (l.flatMap (fun e => [e.alloc_mem, e.self])).length = 2 * l.length := by
  induction l with
  | nil => rfl
  | cons e l ih => simp only [List.flatMap_cons, List.length_append, ih, List.length_cons,
      List.length_nil]; omega

theorem _deleteAIHeap_eq (s : AIState) :
    _deleteAIHeap s
      = { s with AIHeap := [], freed := s.freed ++ s.AIHeap.flatMap (fun e => [e.alloc_mem, e.self]) } := by
  unfold _deleteAIHeap
  exact deleteAIHeapLoop_eq _ _

/-- C6: for every registry state, `_deleteAIHeap` walks the list once from head to tail and
calls `free` exactly once per entry on the tracked block and once on the entry node, in that
order; it leaves the registry empty and the other globals as they were. -/
theorem C6_deleteAIHeap_releases_all (s : AIState) :
    (_deleteAIHeap s).AIHeap = []
      ∧ (_deleteAIHeap s).freed = s.freed ++ s.AIHeap.flatMap (fun e => [e.alloc_mem, e.self])
      ∧ (∀ e ∈ s.AIHeap, e.alloc_mem ∈ (_deleteAIHeap s).freed ∧ e.self ∈ (_deleteAIHeap s).freed)
      ∧ (_deleteAIHeap s).freed.length = s.freed.length + 2 * s.AIHeap.length
      ∧ (_deleteAIHeap s).max_depth = s.max_depth
      ∧ (_deleteAIHeap s).CPU_PLAYER = s.CPU_PLAYER
      ∧ (_deleteAIHeap s).nextBlock = s.nextBlock := by
  rw [_deleteAIHeap_eq]
  refine ⟨rfl, rfl, ?_, ?_, rfl, rfl, rfl⟩
  · intro e he
    constructor
    · exact List.mem_append_right _ (List.mem_flatMap.2 ⟨e, he, by simp⟩)
    · exact List.mem_append_right _ (List.mem_flatMap.2 ⟨e, he, by simp⟩)
  · simp only [List.length_append, length_flatMap_frees]

/-- C7: a second `_deleteAIHeap` with no `_addToAIHeap` in between changes nothing: it
releases nothing and the registry stays empty. -/
theorem C7_deleteAIHeap_twice (s : AIState) :
    _deleteAIHeap (_deleteAIHeap s) = _deleteAIHeap s
      ∧ (_deleteAIHeap (_deleteAIHeap s)).freed = (_deleteAIHeap s).freed
      ∧ (_deleteAIHeap (_deleteAIHeap s)).AIHeap = [] := by
  have h : _deleteAIHeap (_deleteAIHeap s) = _deleteAIHeap s := by
    simp [_deleteAIHeap_eq]
  exact ⟨h, by rw [h], by rw [h, _deleteAIHeap_eq]⟩

/-! ## The entry point on invalid input -/

/-- C9: when `depth` is 0 or `color` is neither White nor Black, `getAImove` returns `NULL`,
builds no tree, and leaves the globals, the allocator and the board as they were. -/
theorem C9_getAImove_invalid_input (E : Env) (s : AIState) (chb : Board) (color : Int)
    (depth : Nat) (h : depth = 0 ∨ (color ≠ BLACK ∧ color ≠ WHITE)) :
    getAImove E s chb color depth = some ⟨none, none, s, chb⟩ := by
  unfold getAImove
  rw [if_pos h]

theorem C9_getAImove_invalid_input_witness :
    getAImove demoEnv demoState demoBoard EMPTY 3 = some ⟨none, none, demoState, demoBoard⟩ :=
  C9_getAImove_invalid_input demoEnv demoState demoBoard EMPTY 3 (Or.inr (by decide))

/-! ## The tree builder: one slot of the first loop -/

theorem _evaluateNext_board (E : Env) (chb : Board) (color : Int) (st en : Char × Char) :
    (_evaluateNext E chb color st en).1 = chb := rfl

/-- What one iteration of the slot-filling loop does. -/
theorem fillSlot_spec (E : Env) (color : Int) (dc : Nat) (node : MoveTreeNode)
    (s : AIState) (chb : Board) (tm : List (List MoveNode)) (mlc : Nat)
    (s1 : AIState) (chb1 : Board) (tm1 : List (List MoveNode)) (mlc1 : Nat)
    (slot : Option MoveTreeNode)
    (h : fillSlot E color dc node s chb tm mlc = some (s1, chb1, tm1, mlc1, slot)) :
    chb1 = chb ∧
    match slot with
    | none => s1 = s
    | some c =>
      s1 = { s with nextBlock := s.nextBlock + 2,
                    AIHeap := ⟨s.nextBlock + 1, s.nextBlock⟩ :: s.AIHeap }
      ∧ c.self = s.nextBlock ∧ c.color = some color ∧ (∃ en, c.end_ = some en)
      ∧ c.score = none ∧ c.child = [] ∧ c.depth = (dc + 1) % 65536
      ∧ c.parent = some node.self
      ∧ (color ≠ s.CPU_PLAYER → ∃ sc en, node.score = some sc ∧ c.end_ = some en
          ∧ (_evaluateNext E chb (if color = BLACK then WHITE else BLACK) c.start en).2 ≤ sc) := by
  unfold fillSlot at h
  simp only [] at h
  split at h
  · simp only [Option.some.injEq, Prod.mk.injEq] at h
    obtain ⟨rfl, rfl, -, -, rfl⟩ := h
    exact ⟨rfl, rfl⟩
  · split at h
    · rename_i m nxt hm
      by_cases hcpu : color = s.CPU_PLAYER
      · simp only [hcpu, ne_eq, not_true_eq_false, if_false] at h
        simp only [Option.some.injEq, Prod.mk.injEq] at h
        obtain ⟨rfl, rfl, -, -, rfl⟩ := h
        refine ⟨rfl, ?_⟩
        simp [MoveTreeNode.self, MoveTreeNode.color, MoveTreeNode.end_, MoveTreeNode.score,
          MoveTreeNode.child, MoveTreeNode.depth, MoveTreeNode.parent, _addToAIHeap, malloc, hcpu]
      · simp only [ne_eq, hcpu, not_false_eq_true, if_true] at h
        cases hsc : node.score with
        | none => simp [hsc] at h
        | some sc =>
          simp only [hsc, _evaluateNext_board] at h
          by_cases hgt : (_evaluateNext E chb (if color = BLACK then WHITE else BLACK) m.start m.end_).2 > sc
          · simp only [hgt, decide_True, Option.some.injEq, Prod.mk.injEq] at h
            obtain ⟨rfl, rfl, -, -, rfl⟩ := h
            exact ⟨rfl, rfl⟩
          · simp only [hgt, decide_False, Option.some.injEq, Prod.mk.injEq] at h
            obtain ⟨rfl, rfl, -, -, rfl⟩ := h
            refine ⟨rfl, ?_⟩
            simp [MoveTreeNode.self, MoveTreeNode.color, MoveTreeNode.end_, MoveTreeNode.score,
              MoveTreeNode.child, MoveTreeNode.depth, MoveTreeNode.parent, MoveTreeNode.start,
              _addToAIHeap, malloc]
            intro _
            exact not_lt.1 hgt
    · simp at h

theorem slotBlocks_some (c : MoveTreeNode) (rest : List (Option MoveTreeNode)) :
    slotBlocks (some c :: rest) = c.self :: slotBlocks rest := by
  simp only [slotBlocks]

theorem belowBlocks_some (c : MoveTreeNode) (rest : List (Option MoveTreeNode)) :
    belowBlocks (some c :: rest)
      = (slotBlocks c.child ++ belowBlocks c.child) ++ belowBlocks rest := by
  cases c; simp only [belowBlocks, MoveTreeNode.descendants, MoveTreeNode.child]

theorem blocks_eq (c : MoveTreeNode) :
    c.blocks = c.self :: (slotBlocks c.child ++ belowBlocks c.child) := by
  cases c; simp only [MoveTreeNode.blocks, MoveTreeNode.descendants, MoveTreeNode.child]

theorem RegistryOK_add (s : AIState) (h : RegistryOK s) :
    RegistryOK { s with nextBlock := s.nextBlock + 2,
                        AIHeap := ⟨s.nextBlock + 1, s.nextBlock⟩ :: s.AIHeap } := by
  obtain ⟨h1, h2⟩ := h
  constructor
  · simp only [List.map_cons, List.pairwise_cons]
    exact ⟨fun a ha => h2 a ha, h1⟩
  · intro a ha
    simp only [List.map_cons, List.mem_cons] at ha
    rcases ha with rfl | ha
    · simp
    · have := h2 a ha
      simp only
      omega

/-- What the slot-filling loop does. -/
theorem fillSlots_spec (E : Env) (color : Int) (dc : Nat) (node : MoveTreeNode) :
    ∀ (n : Nat) (s : AIState) (chb : Board) (tm : List (List MoveNode)) (mlc : Nat)
      (s1 : AIState) (chb1 : Board) (slots : List (Option MoveTreeNode)),
    fillSlots E color dc node n s chb tm mlc = some (s1, chb1, slots) →
    chb1 = chb ∧ s1.max_depth = s.max_depth ∧ s1.CPU_PLAYER = s.CPU_PLAYER
      ∧ s1.freed = s.freed ∧ slots.length = n
      ∧ s1.AIHeap.map (fun e => e.alloc_mem)
          = (slotBlocks slots).reverse ++ s.AIHeap.map (fun e => e.alloc_mem)
      ∧ (RegistryOK s → RegistryOK s1)
      ∧ ∀ c, some c ∈ slots →
          c.color = some color ∧ (∃ en, c.end_ = some en) ∧ c.score = none ∧ c.child = []
          ∧ c.depth = (dc + 1) % 65536 ∧ c.parent = some node.self
          ∧ (color ≠ s.CPU_PLAYER → ∃ sc en, node.score = some sc ∧ c.end_ = some en
              ∧ (_evaluateNext E chb (if color = BLACK then WHITE else BLACK) c.start en).2 ≤ sc) := by
  intro n
  induction n with
  | zero =>
    intro s chb tm mlc s1 chb1 slots h
    simp only [fillSlots, Option.some.injEq, Prod.mk.injEq] at h
    obtain ⟨rfl, rfl, rfl⟩ := h
    simp [slotBlocks]
  | succ n ih =>
    intro s chb tm mlc s1 chb1 slots h
    rw [fillSlots] at h
    cases hstep : fillSlot E color dc node s chb tm mlc with
    | none => simp [hstep] at h
    | some r =>
      obtain ⟨s2, chb2, tm2, mlc2, slot⟩ := r
      simp only [hstep] at h
      cases hrest : fillSlots E color dc node n s2 chb2 tm2 mlc2 with
      | none => simp [hrest] at h
      | some r2 =>
        obtain ⟨s3, chb3, slots3⟩ := r2
        simp only [hrest, Option.map_some', Option.some.injEq, Prod.mk.injEq] at h
        obtain ⟨rfl, rfl, rfl⟩ := h
        obtain ⟨hb, hslot⟩ := fillSlot_spec E color dc node s chb tm mlc s2 chb2 tm2 mlc2 slot hstep
        obtain ⟨hb3, hmd, hcpu, hfr, hlen, hreg, hok, hch⟩ := ih s2 chb2 tm2 mlc2 s3 chb3 slots3 hrest
        subst hb
        subst hb3
        cases slot with
        | none =>
          simp only at hslot
          subst hslot
          refine ⟨rfl, hmd, hcpu, hfr, by simp [hlen], ?_, hok, ?_⟩
          · simpa [slotBlocks] using hreg
          · intro c hc
            simp only [List.mem_cons, reduceCtorEq, false_or] at hc
            exact hch c hc
        | some c0 =>
          simp only at hslot
          obtain ⟨hs2, hself, hcol, hen, hsc, hchild, hdep, hpar, hprune⟩ := hslot
          subst hs2
          refine ⟨rfl, hmd, hcpu, hfr, by simp [hlen], ?_, ?_, ?_⟩
          · rw [hreg, slotBlocks_some, hself]
            simp
          · intro h0
            exact hok (RegistryOK_add s h0)
          · intro c hc
            simp only [List.mem_cons, Option.some.injEq] at hc
            rcases hc with rfl | hc
            · exact ⟨hcol, hen, hsc, hchild, hdep, hpar, hprune⟩
            · exact hch c hc

/-! ## The tree builder: the second loop -/

theorem setScore_fields (c : MoveTreeNode) (v : Int) :
    (c.setScore v).self = c.self ∧ (c.setScore v).start = c.start
      ∧ (c.setScore v).end_ = c.end_ ∧ (c.setScore v).color = c.color
      ∧ (c.setScore v).score = some v ∧ (c.setScore v).depth = c.depth
      ∧ (c.setScore v).child = c.child ∧ (c.setScore v).parent = c.parent := by
  cases c
  simp [MoveTreeNode.setScore, MoveTreeNode.self, MoveTreeNode.start, MoveTreeNode.end_,
    MoveTreeNode.color, MoveTreeNode.score, MoveTreeNode.depth, MoveTreeNode.child,
    MoveTreeNode.parent]

theorem setChild_fields (c : MoveTreeNode) (ch : List (Option MoveTreeNode)) :
    (c.setChild ch).self = c.self ∧ (c.setChild ch).start = c.start
      ∧ (c.setChild ch).end_ = c.end_ ∧ (c.setChild ch).color = c.color
      ∧ (c.setChild ch).score = c.score ∧ (c.setChild ch).depth = c.depth
      ∧ (c.setChild ch).child = ch ∧ (c.setChild ch).parent = c.parent := by
  cases c
  simp [MoveTreeNode.setChild, MoveTreeNode.self, MoveTreeNode.start, MoveTreeNode.end_,
    MoveTreeNode.color, MoveTreeNode.score, MoveTreeNode.depth, MoveTreeNode.child,
    MoveTreeNode.parent]

theorem setChild_child (c : MoveTreeNode) : c.setChild c.child = c := by
  cases c
  simp [MoveTreeNode.setChild, MoveTreeNode.child]

theorem SameNode.refl (c : MoveTreeNode) : SameNode c c :=
  ⟨rfl, rfl, rfl, rfl, rfl, rfl⟩

/-- What one iteration of the scoring loop does on a slot holding a node without children. -/
theorem scoreSlot_spec (E : Env)
    (recur : AIState → MoveTreeNode → Board → Int → Nat → Option (AIState × MoveTreeNode × Board))
    (hrec : RecurOK recur) (color : Int) (dc : Nat) (c : MoveTreeNode) (s : AIState)
    (chb : Board) (s1 : AIState) (chb1 : Board) (c1 : MoveTreeNode)
    (hmax : s.max_depth < 65535) (hleaf : c.child = [])
    (h : scoreSlot E recur color dc c s chb = some (s1, chb1, c1)) :
    chb1 = chb ∧ s1.max_depth = s.max_depth ∧ s1.CPU_PLAYER = s.CPU_PLAYER
      ∧ s1.freed = s.freed ∧ SameNode c c1
      ∧ (∃ c_color c_end, c.color = some c_color ∧ c.end_ = some c_end
          ∧ c1.score = some (_Evaluate (E._makeMove chb c.start c_end c_color false).1 color))
      ∧ s1.AIHeap.map (fun e => e.alloc_mem)
          = (slotBlocks c1.child ++ belowBlocks c1.child).reverse
              ++ s.AIHeap.map (fun e => e.alloc_mem)
      ∧ (RegistryOK s → RegistryOK s1) := by
  unfold scoreSlot at h
  simp only [_copyBoard] at h
  cases hcol : c.color with
  | none => simp [hcol] at h
  | some c_color =>
    cases hen : c.end_ with
    | none => simp [hcol, hen] at h
    | some c_end =>
      simp only [hcol, hen] at h
      obtain ⟨f1, f2, f3, f4, f5, f6, f7, f8⟩ :=
        setScore_fields c (_Evaluate (E._makeMove chb c.start c_end c_color false).1 color)
      have fromRec : ∀ (col : Int) (d : Nat), d ≠ 0 →
          Option.map (fun r : AIState × MoveTreeNode × Board => (r.1, chb, r.2.1))
            (recur s (c.setScore (_Evaluate (E._makeMove chb c.start c_end c_color false).1 color))
              (E._makeMove chb c.start c_end c_color false).1 col d) = some (s1, chb1, c1) →
          chb1 = chb ∧ s1.max_depth = s.max_depth ∧ s1.CPU_PLAYER = s.CPU_PLAYER
            ∧ s1.freed = s.freed ∧ SameNode c c1
            ∧ (∃ c_color' c_end', some c_color = some c_color' ∧ some c_end = some c_end'
                ∧ c1.score = some (_Evaluate (E._makeMove chb c.start c_end' c_color' false).1 color))
            ∧ s1.AIHeap.map (fun e => e.alloc_mem)
                = (slotBlocks c1.child ++ belowBlocks c1.child).reverse
                    ++ s.AIHeap.map (fun e => e.alloc_mem)
            ∧ (RegistryOK s → RegistryOK s1) := by
        intro col d hd hr
        cases hcall : recur s (c.setScore (_Evaluate (E._makeMove chb c.start c_end c_color false).1 color))
            (E._makeMove chb c.start c_end c_color false).1 col d with
        | none => simp [hcall] at hr
        | some r =>
          obtain ⟨s2, c2, b2⟩ := r
          simp only [hcall, Option.map_some', Option.some.injEq, Prod.mk.injEq] at hr
          obtain ⟨rfl, rfl, rfl⟩ := hr
          obtain ⟨g1, g2, g3, g4, g5, g6⟩ := hrec _ _ _ _ _ _ _ _ hcall hd hmax
          obtain ⟨k1, k2, k3, k4, k5, k6, k7, k8⟩ :=
            setChild_fields (c.setScore (_Evaluate (E._makeMove chb c.start c_end c_color false).1 color))
              c2.child
          rw [← g4] at k1 k2 k3 k4 k5 k6 k8
          refine ⟨rfl, g1, g2, g3, ⟨?_, ?_, ?_, ?_, ?_, ?_⟩, ⟨c_color, c_end, rfl, rfl, ?_⟩, g5, g6⟩
          · rw [k1, f1]
          · rw [k2, f2]
          · rw [k3, f3]
          · rw [k4, f4]
          · rw [k6, f6]
          · rw [k8, f8]
          · rw [k5, f5]
      by_cases h0 : dc = 0
      · simp only [h0, if_true] at h
        exact fromRec color _ (by decide) h
      · simp only [h0, if_false] at h
        by_cases hle : dc ≤ s.max_depth
        · simp only [hle, if_true] at h
          have hd : (dc + 1) % 65536 ≠ 0 := by omega
          exact fromRec _ _ hd h
        · simp only [hle, if_false, Option.map_some', Option.some.injEq, Prod.mk.injEq] at h
          obtain ⟨rfl, rfl, rfl⟩ := h
          refine ⟨rfl, rfl, rfl, rfl, ⟨f1, f2, f3, f4, f6, f8⟩, ⟨c_color, c_end, rfl, rfl, f5⟩, ?_, id⟩
          rw [f7, hleaf]
          simp [slotBlocks, belowBlocks]

theorem belowBlocks_leaves :
    ∀ (slots : List (Option MoveTreeNode)), (∀ c, some c ∈ slots → c.child = []) →
      belowBlocks slots = []
  | [], _ => by simp [belowBlocks]
  | none :: rest, h => by
    simp only [belowBlocks]
    exact belowBlocks_leaves rest (fun c hc => h c (List.mem_cons_of_mem _ hc))
  | some c :: rest, h => by
    rw [belowBlocks_some, h c (List.mem_cons_self _ _),
      belowBlocks_leaves rest (fun c hc => h c (List.mem_cons_of_mem _ hc))]
    simp [slotBlocks, belowBlocks]

theorem sameSlot_refl : ∀ (slots : List (Option MoveTreeNode)), List.Forall₂ SameSlot slots slots
  | [] => List.Forall₂.nil
  | none :: rest => List.Forall₂.cons trivial (sameSlot_refl rest)
  | some c :: rest => List.Forall₂.cons (SameNode.refl c) (sameSlot_refl rest)

theorem slotBlocks_sameSlot :
    ∀ (l1 l2 : List (Option MoveTreeNode)), List.Forall₂ SameSlot l1 l2 →
      slotBlocks l2 = slotBlocks l1 := by
  intro l1
  induction l1 with
  | nil => intro l2 h; cases h; rfl
  | cons a l1 ih =>
    intro l2 h
    cases h with
    | cons hab hrest =>
      rename_i b l2
      cases a with
      | none =>
        cases b with
        | none => simpa [slotBlocks] using ih _ hrest
        | some c2 => exact absurd hab (by simp [SameSlot])
      | some c1 =>
        cases b with
        | none => exact absurd hab (by simp [SameSlot])
        | some c2 =>
          rw [slotBlocks_some, slotBlocks_some, ih _ hrest]
          have : c2.self = c1.self := hab.1
          rw [this]

theorem mem_of_sameSlot :
    ∀ (l1 l2 : List (Option MoveTreeNode)), List.Forall₂ SameSlot l1 l2 →
      ∀ c2, some c2 ∈ l2 → ∃ c1, some c1 ∈ l1 ∧ SameNode c1 c2 := by
  intro l1
  induction l1 with
  | nil => intro l2 h; cases h; intro c2 hc; simp at hc
  | cons a l1 ih =>
    intro l2 h
    cases h with
    | cons hab hrest =>
      rename_i b l2
      intro c2 hc
      simp only [List.mem_cons] at hc
      rcases hc with hc | hc
      · subst hc
        cases a with
        | none => exact absurd hab (by simp [SameSlot])
        | some c1 => exact ⟨c1, List.mem_cons_self _ _, hab⟩
      · obtain ⟨c1, h1, h2⟩ := ih _ hrest c2 hc
        exact ⟨c1, List.mem_cons_of_mem _ h1, h2⟩

/-- What the scoring loop does on slots whose nodes have no children yet. -/
theorem scoreSlots_spec (E : Env)
    (recur : AIState → MoveTreeNode → Board → Int → Nat → Option (AIState × MoveTreeNode × Board))
    (hrec : RecurOK recur) (color : Int) (dc : Nat) :
    ∀ (slots : List (Option MoveTreeNode)) (s : AIState) (chb : Board)
      (s1 : AIState) (chb1 : Board) (slots1 : List (Option MoveTreeNode)),
    s.max_depth < 65535 → (∀ c, some c ∈ slots → c.child = []) →
    scoreSlots E recur color dc slots s chb = some (s1, chb1, slots1) →
    chb1 = chb ∧ s1.max_depth = s.max_depth ∧ s1.CPU_PLAYER = s.CPU_PLAYER
      ∧ s1.freed = s.freed ∧ List.Forall₂ SameSlot slots slots1
      ∧ s1.AIHeap.map (fun e => e.alloc_mem)
          = (belowBlocks slots1).reverse ++ s.AIHeap.map (fun e => e.alloc_mem)
      ∧ (RegistryOK s → RegistryOK s1) := by
  intro slots
  induction slots with
  | nil =>
    intro s chb s1 chb1 slots1 _ _ h
    simp only [scoreSlots, Option.some.injEq, Prod.mk.injEq] at h
    obtain ⟨rfl, rfl, rfl⟩ := h
    exact ⟨rfl, rfl, rfl, rfl, List.Forall₂.nil, by simp [belowBlocks], id⟩
  | cons slot rest ih =>
    intro s chb s1 chb1 slots1 hmax hleaf h
    cases slot with
    | none =>
      simp only [scoreSlots, Option.some.injEq, Prod.mk.injEq] at h
      obtain ⟨rfl, rfl, rfl⟩ := h
      refine ⟨rfl, rfl, rfl, rfl, sameSlot_refl _, ?_, id⟩
      rw [belowBlocks_leaves _ hleaf]
      simp
    | some c =>
      rw [scoreSlots] at h
      cases hstep : scoreSlot E recur color dc c s chb with
      | none => simp [hstep] at h
      | some r =>
        obtain ⟨s2, chb2, c2⟩ := r
        simp only [hstep] at h
        cases hrest : scoreSlots E recur color dc rest s2 chb2 with
        | none => simp [hrest] at h
        | some r2 =>
          obtain ⟨s3, chb3, slots3⟩ := r2
          simp only [hrest, Option.map_some', Option.some.injEq, Prod.mk.injEq] at h
          obtain ⟨rfl, rfl, rfl⟩ := h
          obtain ⟨hb, hmd, hcpu, hfr, hsame, -, hreg, hok⟩ :=
            scoreSlot_spec E recur hrec color dc c s chb s2 chb2 c2 hmax
              (hleaf c (List.mem_cons_self _ _)) hstep
          obtain ⟨hb3, hmd3, hcpu3, hfr3, hsame3, hreg3, hok3⟩ :=
            ih s2 chb2 s3 chb3 slots3 (by omega)
              (fun c hc => hleaf c (List.mem_cons_of_mem _ hc)) hrest
          refine ⟨by rw [hb3, hb], by rw [hmd3, hmd], by rw [hcpu3, hcpu], by rw [hfr3, hfr],
            List.Forall₂.cons hsame hsame3, ?_, fun h0 => hok3 (hok h0)⟩
          rw [hreg3, hreg, belowBlocks_some]
          simp

/-! ## The tree builder: one call -/

/-- Without fuel the model of the builder gives no result. -/
theorem create_zero (E : Env) (s : AIState) (curr : Option MoveTreeNode) (chb : Board)
    (color : Int) (dc : Nat) : _createAIMoveTree E 0 s curr chb color dc = none := rfl

/-- A call that returns went through the two loops: the decomposition of its result. -/
theorem create_unfold (E : Env) (fuel : Nat) (s : AIState) (curr : Option MoveTreeNode)
    (chb : Board) (color : Int) (dc : Nat) (s1 : AIState) (node1 : MoveTreeNode) (chb1 : Board)
    (h : _createAIMoveTree E (fuel + 1) s curr chb color dc = some (s1, node1, chb1)) :
    ∃ (s0 : AIState) (node0 : MoveTreeNode) (sF : AIState) (chbF : Board)
      (slots0 slots1 : List (Option MoveTreeNode)),
      (if dc = 0 then
          some (_addToAIHeap (malloc s).1 (malloc s).2,
            MoveTreeNode.mk (malloc s).1 ('T', Char.ofNat 0) none none none 0 [] none)
        else curr.map (fun node => (s, node))) = some (s0, node0)
      ∧ fillSlots E color dc node0 MOVE_COUNT s0 (E.getAllMoves chb color).1
          (List.ofFn (fun i : Fin 6 =>
            if color = BLACK then (E.getAllMoves chb color).2.1 i
            else (E.getAllMoves chb color).2.2 i)) 0 = some (sF, chbF, slots0)
      ∧ scoreSlots E (fun s c b col d => _createAIMoveTree E fuel s (some c) b col d)
          color dc slots0 sF chbF = some (s1, chb1, slots1)
      ∧ node1 = node0.setChild slots1 := by
  rw [_createAIMoveTree] at h
  simp only [] at h
  split at h
  · rename_i s0 node0 hinit
    split at h
    · rename_i sF chbF slots0 hfill
      split at h
      · rename_i s2 chb2 slots1 hscore
        simp only [Option.some.injEq, Prod.mk.injEq] at h
        obtain ⟨rfl, rfl, rfl⟩ := h
        exact ⟨s0, node0, sF, chbF, slots0, slots1, hinit, hfill, hscore, rfl⟩
      · simp at h
    · simp at h
  · simp at h

/-- What a call of `_createAIMoveTree` that returns has done, when `max_depth` is below
65535 (`getAImove` sets it to `depth - 1`). -/
theorem create_spec (E : Env) :
    ∀ (fuel : Nat) (s : AIState) (curr : Option MoveTreeNode) (chb : Board) (color : Int)
      (dc : Nat) (s1 : AIState) (node1 : MoveTreeNode) (chb1 : Board),
    s.max_depth < 65535 →
    _createAIMoveTree E fuel s curr chb color dc = some (s1, node1, chb1) →
    chb1 = (E.getAllMoves chb color).1 ∧ s1.max_depth = s.max_depth
      ∧ s1.CPU_PLAYER = s.CPU_PLAYER ∧ s1.freed = s.freed
      ∧ (RegistryOK s → RegistryOK s1)
      ∧ (dc ≠ 0 → ∃ node, curr = some node ∧ node1 = node.setChild node1.child
          ∧ s1.AIHeap.map (fun e => e.alloc_mem)
              = (slotBlocks node1.child ++ belowBlocks node1.child).reverse
                  ++ s.AIHeap.map (fun e => e.alloc_mem))
      ∧ (dc = 0 → node1.self = s.nextBlock ∧ node1.depth = 0 ∧ node1.parent = none
          ∧ node1.score = none ∧ node1.start = ('T', Char.ofNat 0)
          ∧ s1.AIHeap.map (fun e => e.alloc_mem)
              = node1.blocks.reverse ++ s.AIHeap.map (fun e => e.alloc_mem)) := by
  intro fuel
  induction fuel with
  | zero => intro s curr chb color dc s1 node1 chb1 _ h; simp [create_zero] at h
  | succ fuel ih =>
    intro s curr chb color dc s1 node1 chb1 hmax h
    have hrec : RecurOK (fun s c b col d => _createAIMoveTree E fuel s (some c) b col d) := by
      intro s c b col d s1 c1 b1 hcall hd hm
      obtain ⟨-, g1, g2, g3, g4, g5, -⟩ := ih s (some c) b col d s1 c1 b1 hm hcall
      obtain ⟨node, hnode, hset, hreg⟩ := g5 hd
      simp only [Option.some.injEq] at hnode
      subst hnode
      exact ⟨g1, g2, g3, hset, hreg, g4⟩
    obtain ⟨s0, node0, sF, chbF, slots0, slots1, hinit, hfill, hscore, hnode⟩ :=
      create_unfold E fuel s curr chb color dc s1 node1 chb1 h
    obtain ⟨hbF, hmdF, hcpuF, hfrF, -, hregF, hokF, hchF⟩ :=
      fillSlots_spec E color dc node0 _ _ _ _ _ _ _ _ hfill
    have hinit_md : s0.max_depth = s.max_depth ∧ s0.CPU_PLAYER = s.CPU_PLAYER
        ∧ s0.freed = s.freed := by
      by_cases h0 : dc = 0
      · simp only [h0, if_true, Option.some.injEq, Prod.mk.injEq] at hinit
        obtain ⟨rfl, -⟩ := hinit
        simp [_addToAIHeap, malloc]
      · simp only [h0, if_false] at hinit
        cases curr with
        | none => simp at hinit
        | some node =>
          simp only [Option.map_some', Option.some.injEq, Prod.mk.injEq] at hinit
          obtain ⟨rfl, -⟩ := hinit
          exact ⟨rfl, rfl, rfl⟩
    obtain ⟨hb1, hmd1, hcpu1, hfr1, hsame, hreg1, hok1⟩ :=
      scoreSlots_spec E _ hrec color dc slots0 sF chbF s1 chb1 slots1 (by omega)
        (fun c hc => (hchF c hc).2.2.2.1) hscore
    obtain ⟨k1, k2, k3, k4, k5, k6, k7, k8⟩ := setChild_fields node0 slots1
    have hchild : node1.child = slots1 := by rw [hnode]; exact k7
    refine ⟨by rw [hb1, hbF], by omega, by rw [hcpu1, hcpuF, hinit_md.2.1],
      by rw [hfr1, hfrF, hinit_md.2.2], ?_, ?_, ?_⟩
    · intro hs
      apply hok1
      apply hokF
      by_cases h0 : dc = 0
      · simp only [h0, if_true, Option.some.injEq, Prod.mk.injEq] at hinit
        obtain ⟨rfl, -⟩ := hinit
        exact RegistryOK_add s hs
      · simp only [h0, if_false] at hinit
        cases curr with
        | none => simp at hinit
        | some node =>
          simp only [Option.map_some', Option.some.injEq, Prod.mk.injEq] at hinit
          obtain ⟨rfl, -⟩ := hinit
          exact hs
    · intro h0
      simp only [h0, if_false] at hinit
      cases curr with
      | none => simp at hinit
      | some node =>
        simp only [Option.map_some', Option.some.injEq, Prod.mk.injEq] at hinit
        obtain ⟨rfl, rfl⟩ := hinit
        refine ⟨node, rfl, by rw [hchild]; exact hnode, ?_⟩
        rw [hreg1, hregF, hchild, slotBlocks_sameSlot _ _ hsame]
        simp
    · intro h0
      simp only [h0, if_true, Option.some.injEq, Prod.mk.injEq] at hinit
      obtain ⟨rfl, rfl⟩ := hinit
      rw [hnode]
      refine ⟨by rw [k1]; rfl, by rw [k6]; rfl, by rw [k8]; rfl, by rw [k5]; rfl, by rw [k2]; rfl, ?_⟩
      rw [blocks_eq, k1, k7, hreg1, hregF, slotBlocks_sameSlot _ _ hsame]
      simp [_addToAIHeap, malloc, MoveTreeNode.self]

/-! ## The tree builder returns -/

/-- The scan over exhausted lists stops inside the array at a list that still has a move, or
at the first index past the array. -/
theorem skipNull_spec :
    ∀ (l : List (List MoveNode)) (k : Nat),
      k ≤ skipNull l k ∧ skipNull l k ≤ k + l.length
        ∧ (skipNull l k < k + l.length → ∃ m nxt, l[skipNull l k - k]? = some (m :: nxt)) := by
  intro l
  induction l with
  | nil => intro k; simp [skipNull]
  | cons x l ih =>
    intro k
    cases x with
    | nil =>
      obtain ⟨h1, h2, h3⟩ := ih (k + 1)
      simp only [skipNull, List.length_cons]
      refine ⟨by omega, by omega, ?_⟩
      intro hlt
      obtain ⟨m, nxt, hm⟩ := h3 (by omega)
      refine ⟨m, nxt, ?_⟩
      have : skipNull l (k + 1) - k = (skipNull l (k + 1) - (k + 1)) + 1 := by omega
      rw [this, List.getElem?_cons_succ]
      exact hm
    | cons m nxt =>
      simp only [skipNull, List.length_cons]
      refine ⟨le_refl _, by omega, ?_⟩
      intro _
      exact ⟨m, nxt, by simp⟩

/-- One iteration of the slot-filling loop returns, when `temp_moves` has its six lists and
the score of the expanded node is assigned in case the pruning test reads it. -/
theorem fillSlot_total (E : Env) (color : Int) (dc : Nat) (node : MoveTreeNode)
    (s : AIState) (chb : Board) (tm : List (List MoveNode)) (mlc : Nat)
    (hlen : tm.length = 6) (hmlc : mlc ≤ 6)
    (hscore : color ≠ s.CPU_PLAYER → ∃ sc, node.score = some sc) :
    ∃ s1 chb1 tm1 mlc1 slot,
      fillSlot E color dc node s chb tm mlc = some (s1, chb1, tm1, mlc1, slot)
        ∧ tm1.length = 6 ∧ mlc1 ≤ 6 := by
  obtain ⟨h1, h2, h3⟩ := skipNull_spec (tm.drop mlc) mlc
  have hdl : (tm.drop mlc).length = 6 - mlc := by simp [hlen]
  rw [hdl] at h2 h3
  unfold fillSlot
  simp only []
  by_cases hgt : skipNull (tm.drop mlc) mlc > 5
  · rw [if_pos hgt]
    exact ⟨_, _, _, _, _, rfl, hlen, by omega⟩
  · rw [if_neg hgt]
    obtain ⟨m, nxt, hm⟩ := h3 (by omega)
    rw [List.getElem?_drop] at hm
    have hidx : mlc + (skipNull (tm.drop mlc) mlc - mlc) = skipNull (tm.drop mlc) mlc := by omega
    rw [hidx] at hm
    simp only [hm]
    by_cases hcpu : color = s.CPU_PLAYER
    · simp only [hcpu, ne_eq, not_true_eq_false, if_false]
      exact ⟨_, _, _, _, _, rfl, by simp [hlen], by omega⟩
    · obtain ⟨sc, hsc⟩ := hscore hcpu
      simp only [ne_eq, hcpu, not_false_eq_true, if_true, hsc]
      by_cases hp : (_evaluateNext E chb (if color = BLACK then WHITE else BLACK) m.start m.end_).2 > sc
      · simp only [hp, decide_True]
        exact ⟨_, _, _, _, _, rfl, by simp [hlen], by omega⟩
      · simp only [hp, decide_False]
        exact ⟨_, _, _, _, _, rfl, by simp [hlen], by omega⟩

/-- The recursive call of `_createAIMoveTree` is as the slot loops need it. -/
theorem create_recurOK (E : Env) (fuel : Nat) :
    RecurOK (fun s c b col d => _createAIMoveTree E fuel s (some c) b col d) := by
  intro s c b col d s1 c1 b1 hcall hd hm
  obtain ⟨-, g1, g2, g3, g4, g5, -⟩ := create_spec E fuel s (some c) b col d s1 c1 b1 hm hcall
  obtain ⟨node, hnode, hset, hreg⟩ := g5 hd
  simp only [Option.some.injEq] at hnode
  subst hnode
  exact ⟨g1, g2, g3, hset, hreg, g4⟩

/-- The slot-filling loop returns under the same conditions. -/
theorem fillSlots_total (E : Env) (color : Int) (dc : Nat) (node : MoveTreeNode) :
    ∀ (n : Nat) (s : AIState) (chb : Board) (tm : List (List MoveNode)) (mlc : Nat),
    tm.length = 6 → mlc ≤ 6 → (color ≠ s.CPU_PLAYER → ∃ sc, node.score = some sc) →
    ∃ r, fillSlots E color dc node n s chb tm mlc = some r := by
  intro n
  induction n with
  | zero => intro s chb tm mlc _ _ _; exact ⟨_, rfl⟩
  | succ n ih =>
    intro s chb tm mlc hlen hmlc hscore
    obtain ⟨s1, chb1, tm1, mlc1, slot, hstep, hlen1, hmlc1⟩ :=
      fillSlot_total E color dc node s chb tm mlc hlen hmlc hscore
    have hcpu : s1.CPU_PLAYER = s.CPU_PLAYER := by
      have hs := (fillSlot_spec E color dc node s chb tm mlc s1 chb1 tm1 mlc1 slot hstep).2
      cases slot with
      | none => simp only at hs; rw [hs]
      | some c => simp only at hs; rw [hs.1]
    obtain ⟨r, hr⟩ := ih s1 chb1 tm1 mlc1 hlen1 hmlc1 (by rw [hcpu]; exact hscore)
    rw [fillSlots]
    simp only [hstep, hr, Option.map_some']
    exact ⟨_, rfl⟩

/-- One iteration of the scoring loop returns, when the colour and end square of the node are
assigned and the recursive call, where the loop makes it, returns. -/
theorem scoreSlot_total (E : Env)
    (recur : AIState → MoveTreeNode → Board → Int → Nat → Option (AIState × MoveTreeNode × Board))
    (color : Int) (dc : Nat) (c : MoveTreeNode) (s : AIState) (chb : Board)
    (hcol : ∃ c_color, c.color = some c_color) (hen : ∃ c_end, c.end_ = some c_end)
    (hrecT : (dc = 0 ∨ dc ≤ s.max_depth) → ∀ (c1 : MoveTreeNode) (b : Board) (col : Int),
      (∃ v, c1.score = some v) → ∃ r, recur s c1 b col ((dc + 1) % 65536) = some r) :
    ∃ r, scoreSlot E recur color dc c s chb = some r := by
  obtain ⟨c_color, hcol⟩ := hcol
  obtain ⟨c_end, hen⟩ := hen
  unfold scoreSlot
  simp only [hcol, hen]
  have hsc : ∃ v, (c.setScore (_Evaluate
      (E._makeMove (_copyBoard chb).1 c.start c_end c_color false).1 color)).score = some v :=
    ⟨_, (setScore_fields c _).2.2.2.2.1⟩
  by_cases h0 : dc = 0
  · obtain ⟨r, hr⟩ := hrecT (Or.inl h0) _ (E._makeMove (_copyBoard chb).1 c.start c_end c_color false).1
      color hsc
    simp only [h0, if_true] at hr ⊢
    rw [hr]
    exact ⟨_, rfl⟩
  · by_cases hle : dc ≤ s.max_depth
    · obtain ⟨r, hr⟩ := hrecT (Or.inr hle) _
        (E._makeMove (_copyBoard chb).1 c.start c_end c_color false).1
        (if color = BLACK then WHITE else BLACK) hsc
      simp only [h0, hle, if_true, if_false]
      rw [hr]
      exact ⟨_, rfl⟩
    · simp only [h0, hle, if_false]
      exact ⟨_, rfl⟩

/-- The scoring loop returns, run on the slots that the slot-filling loop has written. -/
theorem scoreSlots_total (E : Env)
    (recur : AIState → MoveTreeNode → Board → Int → Nat → Option (AIState × MoveTreeNode × Board))
    (hrec : RecurOK recur) (color : Int) (dc : Nat) (M : Nat) (hM : M < 65535)
    (hrecT : (dc = 0 ∨ dc ≤ M) → ∀ (s : AIState) (c1 : MoveTreeNode) (b : Board) (col : Int),
      s.max_depth = M → (∃ v, c1.score = some v) →
      ∃ r, recur s c1 b col ((dc + 1) % 65536) = some r) :
    ∀ (slots : List (Option MoveTreeNode)) (s : AIState) (chb : Board),
    s.max_depth = M →
    (∀ c, some c ∈ slots →
      (∃ c_color, c.color = some c_color) ∧ (∃ c_end, c.end_ = some c_end) ∧ c.child = []) →
    ∃ r, scoreSlots E recur color dc slots s chb = some r := by
  intro slots
  induction slots with
  | nil => intro s chb _ _; exact ⟨_, rfl⟩
  | cons slot rest ih =>
    intro s chb hs hslots
    cases slot with
    | none => exact ⟨_, rfl⟩
    | some c =>
      obtain ⟨hcol, hen, hleaf⟩ := hslots c (List.mem_cons_self _ _)
      obtain ⟨r, hr⟩ := scoreSlot_total E recur color dc c s chb hcol hen
        (fun hd c1 b col hv => hrecT (by rw [hs] at hd; exact hd) s c1 b col hs hv)
      obtain ⟨s1, chb1, c1⟩ := r
      have hmd := (scoreSlot_spec E recur hrec color dc c s chb s1 chb1 c1 (by omega) hleaf hr).2.1
      obtain ⟨r2, hr2⟩ := ih s1 chb1 (by rw [hmd, hs])
        (fun c hc => hslots c (List.mem_cons_of_mem _ hc))
      rw [scoreSlots]
      simp only [hr, hr2, Option.map_some']
      exact ⟨_, rfl⟩

/-- A call of `_createAIMoveTree` returns, given fuel for the plies that remain: at ply 0 the
side to move is `CPU_PLAYER`, and at a deeper ply the node to expand exists and has its
score assigned. -/
theorem create_total (E : Env) :
    ∀ (fuel : Nat) (s : AIState) (curr : Option MoveTreeNode) (chb : Board) (color : Int)
      (dc : Nat),
    s.max_depth < 65535 → dc ≤ s.max_depth + 1 → s.max_depth + 2 ≤ fuel + dc →
    (dc = 0 → color = s.CPU_PLAYER) →
    (dc ≠ 0 → ∃ node v, curr = some node ∧ node.score = some v) →
    ∃ r, _createAIMoveTree E fuel s curr chb color dc = some r := by
  intro fuel
  induction fuel with
  | zero => intro s curr chb color dc _ h1 h2 _ _; omega
  | succ fuel ih =>
    intro s curr chb color dc hmax hdc hfuel hroot hnode
    have hrec := create_recurOK E fuel
    -- the node to expand and the state before the loops
    have hinit : ∃ s0 node0,
        (if dc = 0 then
          some (_addToAIHeap (malloc s).1 (malloc s).2,
            MoveTreeNode.mk (malloc s).1 ('T', Char.ofNat 0) none none none 0 [] none)
        else curr.map (fun node => (s, node))) = some (s0, node0)
        ∧ s0.max_depth = s.max_depth ∧ s0.CPU_PLAYER = s.CPU_PLAYER
        ∧ (dc ≠ 0 → ∃ v, node0.score = some v) := by
      by_cases h0 : dc = 0
      · simp only [h0, if_true]
        exact ⟨_, _, rfl, rfl, rfl, fun h => absurd rfl h⟩
      · obtain ⟨node, v, hc, hv⟩ := hnode h0
        simp only [h0, if_false, hc, Option.map_some']
        exact ⟨_, _, rfl, rfl, rfl, fun _ => ⟨v, hv⟩⟩
    obtain ⟨s0, node0, hinit, hmd0, hcpu0, hsc0⟩ := hinit
    obtain ⟨rF, hfill⟩ := fillSlots_total E color dc node0 MOVE_COUNT s0 (E.getAllMoves chb color).1
      (List.ofFn (fun i : Fin 6 =>
        if color = BLACK then (E.getAllMoves chb color).2.1 i
        else (E.getAllMoves chb color).2.2 i)) 0 (by simp) (by omega)
      (by
        intro hne
        by_cases h0 : dc = 0
        · exact absurd (by rw [hcpu0]; exact hroot h0) hne
        · exact hsc0 h0)
    obtain ⟨sF, chbF, slots0⟩ := rF
    obtain ⟨-, hmdF, -, -, -, -, -, hchF⟩ := fillSlots_spec E color dc node0 _ _ _ _ _ _ _ _ hfill
    obtain ⟨rS, hscore⟩ := scoreSlots_total E
      (fun s c b col d => _createAIMoveTree E fuel s (some c) b col d) hrec color dc
      s.max_depth hmax
      (by
        intro hd s2 c1 b col hs2 hv
        have hmod : (dc + 1) % 65536 = dc + 1 := by
          apply Nat.mod_eq_of_lt
          rcases hd with hd | hd <;> omega
        rw [hmod]
        apply ih s2 (some c1) b col (dc + 1) (by omega) (by rcases hd with hd | hd <;> omega)
          (by omega) (by omega)
        intro _
        obtain ⟨v, hv⟩ := hv
        exact ⟨c1, v, rfl, hv⟩)
      slots0 sF chbF (by rw [hmdF, hmd0])
      (fun c hc => ⟨⟨color, (hchF c hc).1⟩, (hchF c hc).2.1, (hchF c hc).2.2.2.1⟩)
    obtain ⟨s1, chb1, slots1⟩ := rS
    rw [_createAIMoveTree]
    simp only [hinit, hfill, hscore]
    exact ⟨_, rfl⟩

/-! ## Counting the nodes of a tree -/

mutual
theorem descendants_length : ∀ (t : MoveTreeNode), t.descendants.length + 1 = t.size
  | .mk _ _ _ _ _ _ ch _ => by
    have h := slots_length ch
    simp only [MoveTreeNode.descendants, MoveTreeNode.size] at h ⊢
    omega
theorem slots_length :
    ∀ (l : List (Option MoveTreeNode)), (slotBlocks l ++ belowBlocks l).length = slotsSize l
  | [] => by simp [slotBlocks, belowBlocks, slotsSize]
  | none :: rest => by
    have h := slots_length rest
    simpa [slotBlocks, belowBlocks, slotsSize] using h
  | some c :: rest => by
    have h1 := descendants_length c
    have h2 := slots_length rest
    simp only [slotBlocks, belowBlocks, slotsSize, List.length_cons, List.length_append] at h1 h2 ⊢
    omega
end

theorem blocks_length (t : MoveTreeNode) : t.blocks.length = t.size := by
  have h := descendants_length t
  simp only [MoveTreeNode.blocks, List.length_cons]
  exact h

/-! ## The entry point on valid input -/

theorem RegistryOK_nodup (s : AIState) (h : RegistryOK s) :
    (s.AIHeap.map (fun e => e.alloc_mem)).Nodup := by
  apply List.Pairwise.imp _ h.1
  intro a b hab
  omega

/-- On valid input `getAImove` runs the builder from ply 0 with an empty registry,
`CPU_PLAYER = color` and `max_depth = depth - 1`; the builder returns, and `getAImove`
returns `NULL` after releasing the registry and resetting `max_depth`. -/
theorem getAImove_valid (E : Env) (s : AIState) (chb : Board) (color : Int) (depth : Nat)
    (hd : depth ≠ 0) (hlt : depth < 65536) (hc : color = BLACK ∨ color = WHITE) :
    ∃ s1 top chb1,
      _createAIMoveTree E (depth + 1) ⟨depth - 1, color, [], s.nextBlock, s.freed⟩ none chb color 0
          = some (s1, top, chb1)
        ∧ getAImove E s chb color depth
          = some ⟨none, some top, { _deleteAIHeap s1 with max_depth := 0 }, chb1⟩ := by
  have hmod : (depth - 1) % 65536 = depth - 1 := Nat.mod_eq_of_lt (by omega)
  obtain ⟨r, hr⟩ := create_total E (depth + 1) ⟨depth - 1, color, [], s.nextBlock, s.freed⟩ none
    chb color 0 (by simp only; omega) (by omega) (by simp only; omega) (fun _ => rfl)
    (fun h => absurd rfl h)
  obtain ⟨s1, top, chb1⟩ := r
  refine ⟨s1, top, chb1, hr, ?_⟩
  unfold getAImove
  have hcond : ¬ (depth = 0 ∨ (color ≠ BLACK ∧ color ≠ WHITE)) := by
    rintro (h | ⟨h1, h2⟩)
    · exact hd h
    · rcases hc with h | h
      · exact h1 h
      · exact h2 h
  rw [if_neg hcond]
  simp only [hmod, hr]

/-! ## The caller's board -/

theorem scoreSlot_board (E : Env)
    (recur : AIState → MoveTreeNode → Board → Int → Nat → Option (AIState × MoveTreeNode × Board))
    (color : Int) (dc : Nat) (c : MoveTreeNode) (s : AIState) (chb : Board)
    (s1 : AIState) (chb1 : Board) (c1 : MoveTreeNode)
    (h : scoreSlot E recur color dc c s chb = some (s1, chb1, c1)) : chb1 = chb := by
  unfold scoreSlot at h
  simp only [_copyBoard] at h
  split at h
  · simp only [Option.map_eq_some', Prod.mk.injEq] at h
    obtain ⟨_, _, _, rfl, _⟩ := h
    rfl
  · simp at h

theorem scoreSlots_board (E : Env)
    (recur : AIState → MoveTreeNode → Board → Int → Nat → Option (AIState × MoveTreeNode × Board))
    (color : Int) (dc : Nat) :
    ∀ (slots : List (Option MoveTreeNode)) (s : AIState) (chb : Board)
      (s1 : AIState) (chb1 : Board) (slots1 : List (Option MoveTreeNode)),
    scoreSlots E recur color dc slots s chb = some (s1, chb1, slots1) → chb1 = chb := by
  intro slots
  induction slots with
  | nil =>
    intro s chb s1 chb1 slots1 h
    simp only [scoreSlots, Option.some.injEq, Prod.mk.injEq] at h
    exact h.2.1.symm
  | cons slot rest ih =>
    intro s chb s1 chb1 slots1 h
    cases slot with
    | none =>
      simp only [scoreSlots, Option.some.injEq, Prod.mk.injEq] at h
      exact h.2.1.symm
    | some c =>
      rw [scoreSlots] at h
      cases hstep : scoreSlot E recur color dc c s chb with
      | none => simp [hstep] at h
      | some r =>
        obtain ⟨s2, chb2, c2⟩ := r
        simp only [hstep] at h
        cases hrest : scoreSlots E recur color dc rest s2 chb2 with
        | none => simp [hrest] at h
        | some r2 =>
          obtain ⟨s3, chb3, slots3⟩ := r2
          simp only [hrest, Option.map_some', Option.some.injEq, Prod.mk.injEq] at h
          obtain ⟨-, rfl, -⟩ := h
          rw [ih s2 chb2 s3 chb3 slots3 hrest]
          exact scoreSlot_board E recur color dc c s chb s2 chb2 c2 hstep

/-- The board that a call of `_createAIMoveTree` leaves behind is the board that its call of
`getAllMoves` left: the two loops write to copies only. -/
theorem create_board (E : Env) (fuel : Nat) (s : AIState) (curr : Option MoveTreeNode)
    (chb : Board) (color : Int) (dc : Nat) (s1 : AIState) (node1 : MoveTreeNode) (chb1 : Board)
    (h : _createAIMoveTree E fuel s curr chb color dc = some (s1, node1, chb1)) :
    chb1 = (E.getAllMoves chb color).1 := by
  cases fuel with
  | zero => simp [create_zero] at h
  | succ fuel =>
    obtain ⟨s0, node0, sF, chbF, slots0, slots1, -, hfill, hscore, -⟩ :=
      create_unfold E fuel s curr chb color dc s1 node1 chb1 h
    rw [scoreSlots_board E _ color dc slots0 sF chbF s1 chb1 slots1 hscore]
    exact (fillSlots_spec E color dc node0 _ _ _ _ _ _ _ _ hfill).1

/-- C8: when `getAllMoves` does not change the board, the board passed to `getAImove`, to
`_createAIMoveTree` and to `_evaluateNext` is the same after the call as before it. -/
theorem C8_search_leaves_board_unchanged (E : Env)
    (hgen : ∀ (b : Board) (c : Int), (E.getAllMoves b c).1 = b) :
    (∀ (s : AIState) (chb : Board) (color : Int) (depth : Nat), depth < 65536 →
        ∃ r, getAImove E s chb color depth = some r ∧ r.chb = chb)
      ∧ (∀ (fuel : Nat) (s : AIState) (curr : Option MoveTreeNode) (chb : Board) (color : Int)
          (dc : Nat) (s1 : AIState) (node1 : MoveTreeNode) (chb1 : Board),
          _createAIMoveTree E fuel s curr chb color dc = some (s1, node1, chb1) → chb1 = chb)
      ∧ (∀ (chb : Board) (color : Int) (st en : Char × Char),
          (_evaluateNext E chb color st en).1 = chb) := by
  refine ⟨?_, ?_, fun _ _ _ _ => rfl⟩
  · intro s chb color depth hlt
    by_cases hbad : depth = 0 ∨ (color ≠ BLACK ∧ color ≠ WHITE)
    · refine ⟨⟨none, none, s, chb⟩, ?_, rfl⟩
      unfold getAImove
      rw [if_pos hbad]
    · have hd : depth ≠ 0 := fun h => hbad (Or.inl h)
      have hc : color = BLACK ∨ color = WHITE := by
        by_contra hn
        exact hbad (Or.inr ⟨fun h => hn (Or.inl h), fun h => hn (Or.inr h)⟩)
      obtain ⟨s1, top, chb1, hcall, hget⟩ := getAImove_valid E s chb color depth hd hlt hc
      refine ⟨_, hget, ?_⟩
      show chb1 = chb
      rw [create_board E _ _ _ _ _ _ _ _ _ hcall, hgen]
  · intro fuel s curr chb color dc s1 node1 chb1 h
    rw [create_board E _ _ _ _ _ _ _ _ _ h, hgen]

theorem C8_search_leaves_board_unchanged_witness :
    ∃ r, getAImove demoEnv demoState demoBoard WHITE 2 = some r ∧ r.chb = demoBoard :=
  (C8_search_leaves_board_unchanged demoEnv (fun _ _ => rfl)).1 demoState demoBoard WHITE 2
    (by decide)

/-! ## The entry point returns no move -/

/-- C10: for a valid colour and a nonzero depth, `getAImove` builds the tree (the local `top`
holds its root) and returns `NULL`: no first-ply child is selected. -/
theorem C10_getAImove_returns_no_move (E : Env) (s : AIState) (chb : Board) (color : Int)
    (depth : Nat) (hd : depth ≠ 0) (hlt : depth < 65536)
    (hc : color = BLACK ∨ color = WHITE) :
    ∃ r top, getAImove E s chb color depth = some r ∧ r.retvalue = none
      ∧ r.top = some top ∧ top.depth = 0 ∧ top.parent = none := by
  obtain ⟨s1, top, chb1, hcall, hget⟩ := getAImove_valid E s chb color depth hd hlt hc
  obtain ⟨-, -, -, -, -, -, hroot⟩ :=
    create_spec E _ _ _ _ _ _ _ _ _ (by simp only; omega) hcall
  exact ⟨_, top, hget, rfl, rfl, (hroot rfl).2.1, (hroot rfl).2.2.1⟩

theorem C10_getAImove_returns_no_move_witness :
    ∃ r top, getAImove demoEnv demoState demoBoard WHITE 3 = some r ∧ r.retvalue = none
      ∧ r.top = some top ∧ top.depth = 0 ∧ top.parent = none :=
  C10_getAImove_returns_no_move demoEnv demoState demoBoard WHITE 3 (by decide) (by decide)
    (Or.inr rfl)

/-! ## Pruning -/

/-- The pruning property of a call that returns: when the side to move is not `CPU_PLAYER`
(both being White or Black), the score of the expanded node is assigned and every node in
a slot has an evaluation for `CPU_PLAYER` that does not exceed it. -/
theorem create_pruned (E : Env) (fuel : Nat) (s : AIState) (curr : Option MoveTreeNode)
    (chb : Board) (color : Int) (dc : Nat) (s1 : AIState) (node1 : MoveTreeNode) (chb1 : Board)
    (hmax : s.max_depth < 65535)
    (hne : color ≠ s.CPU_PLAYER) (hcolor : color = WHITE ∨ color = BLACK)
    (hcpu : s.CPU_PLAYER = WHITE ∨ s.CPU_PLAYER = BLACK)
    (h : _createAIMoveTree E fuel s curr chb color dc = some (s1, node1, chb1)) :
    ∀ c, some c ∈ node1.child → ∃ sc en, node1.score = some sc ∧ c.end_ = some en
      ∧ (_evaluateNext E (E.getAllMoves chb color).1 s.CPU_PLAYER c.start en).2 ≤ sc := by
  cases fuel with
  | zero => simp [create_zero] at h
  | succ fuel =>
    obtain ⟨s0, node0, sF, chbF, slots0, slots1, hinit, hfill, hscore, hnode⟩ :=
      create_unfold E fuel s curr chb color dc s1 node1 chb1 h
    have hs0 : s0.max_depth = s.max_depth ∧ s0.CPU_PLAYER = s.CPU_PLAYER := by
      by_cases h0 : dc = 0
      · simp only [h0, if_true, Option.some.injEq, Prod.mk.injEq] at hinit
        obtain ⟨rfl, -⟩ := hinit
        exact ⟨rfl, rfl⟩
      · simp only [h0, if_false] at hinit
        cases curr with
        | none => simp at hinit
        | some node =>
          simp only [Option.map_some', Option.some.injEq, Prod.mk.injEq] at hinit
          obtain ⟨rfl, -⟩ := hinit
          exact ⟨rfl, rfl⟩
    obtain ⟨-, hmdF, -, -, -, -, -, hchF⟩ := fillSlots_spec E color dc node0 _ _ _ _ _ _ _ _ hfill
    obtain ⟨-, -, -, -, hsame, -, -⟩ :=
      scoreSlots_spec E _ (create_recurOK E fuel) color dc slots0 sF chbF s1 chb1 slots1
        (by omega) (fun c hc => (hchF c hc).2.2.2.1) hscore
    obtain ⟨-, -, -, -, k5, -, k7, -⟩ := setChild_fields node0 slots1
    have hflip : (if color = BLACK then WHITE else BLACK) = s.CPU_PLAYER := by
      rcases hcolor with rfl | rfl
      · rcases hcpu with h | h
        · exact absurd h.symm hne
        · rw [h]; decide
      · rcases hcpu with h | h
        · rw [h]; decide
        · exact absurd h.symm hne
    intro c hc
    rw [hnode, k7] at hc
    obtain ⟨c0, hc0, -, hst, hen, -⟩ := mem_of_sameSlot _ _ hsame c hc
    obtain ⟨sc, en, hsc, hen0, hle⟩ := (hchF c0 hc0).2.2.2.2.2.2 (by rw [hs0.2]; exact hne)
    refine ⟨sc, en, by rw [hnode, k5]; exact hsc, by rw [hen]; exact hen0, ?_⟩
    rw [hst, ← hflip]
    exact hle

/-- C2: a call of `_createAIMoveTree` that expands a node for the side that is not
`CPU_PLAYER` returns, and every child that it keeps in a slot has an evaluation
`_evaluateNext(board, CPU_PLAYER, child.start, child.end)` that does not exceed the score
recorded in the expanded node. -/
theorem C2_retained_children_do_not_exceed_score (E : Env) (fuel : Nat) (s : AIState)
    (node : MoveTreeNode) (chb : Board) (color : Int) (dc : Nat) (sc : Int)
    (hmax : s.max_depth < 65535) (hdc0 : dc ≠ 0) (hdc : dc ≤ s.max_depth + 1)
    (hfuel : s.max_depth + 2 ≤ fuel + dc)
    (hne : color ≠ s.CPU_PLAYER) (hcolor : color = WHITE ∨ color = BLACK)
    (hcpu : s.CPU_PLAYER = WHITE ∨ s.CPU_PLAYER = BLACK)
    (hscore : node.score = some sc) :
    ∃ s1 node1 chb1,
      _createAIMoveTree E fuel s (some node) chb color dc = some (s1, node1, chb1)
        ∧ node1.score = some sc
        ∧ ∀ c, some c ∈ node1.child → ∃ en, c.end_ = some en
            ∧ (_evaluateNext E (E.getAllMoves chb color).1 s.CPU_PLAYER c.start en).2 ≤ sc := by
  obtain ⟨r, hr⟩ := create_total E fuel s (some node) chb color dc hmax hdc hfuel
    (fun h => absurd h hdc0) (fun _ => ⟨node, sc, rfl, hscore⟩)
  obtain ⟨s1, node1, chb1⟩ := r
  obtain ⟨-, -, -, -, -, hnode, -⟩ := create_spec E fuel s (some node) chb color dc s1 node1 chb1 hmax hr
  obtain ⟨node', hn, hset, -⟩ := hnode hdc0
  simp only [Option.some.injEq] at hn
  subst hn
  have hsc1 : node1.score = some sc := by
    rw [hset, (setChild_fields node node1.child).2.2.2.2.1]
    exact hscore
  refine ⟨s1, node1, chb1, hr, hsc1, ?_⟩
  intro c hc
  obtain ⟨sc', en, h1, h2, h3⟩ :=
    create_pruned E fuel s (some node) chb color dc s1 node1 chb1 hmax hne hcolor hcpu hr c hc
  rw [hsc1] at h1
  simp only [Option.some.injEq] at h1
  subst h1
  exact ⟨en, h2, h3⟩

theorem C2_retained_children_do_not_exceed_score_witness :
    ∃ s1 node1 chb1,
      _createAIMoveTree demoEnv 1 ⟨1, WHITE, [], 6, []⟩ (some demoNode) demoBoard BLACK 2
          = some (s1, node1, chb1)
        ∧ node1.score = some 100
        ∧ ∀ c, some c ∈ node1.child → ∃ en, c.end_ = some en
            ∧ (_evaluateNext demoEnv (demoEnv.getAllMoves demoBoard BLACK).1 WHITE c.start en).2
                ≤ 100 :=
  C2_retained_children_do_not_exceed_score demoEnv 1 ⟨1, WHITE, [], 6, []⟩ demoNode demoBoard
    BLACK 2 100 (by decide) (by decide) (by decide) (by decide) (by decide) (Or.inr rfl)
    (Or.inl rfl) rfl

/-- The run of the witness of C2 prunes a7a6 (slot 0 stays empty) and keeps e8d8 in slot 1. -/
theorem pruning_demo :
    (_createAIMoveTree demoEnv 1 ⟨1, WHITE, [], 6, []⟩ (some demoNode) demoBoard BLACK 2).map
        (fun r => (r.2.1.child.take 3).map (fun slot => slot.map (fun c => (c.start, c.end_))))
      = some [none, some (('e', '8'), some ('d', '8')), none] := by
  decide

/-! ## The registry after a search -/

/-- C5: a call of `_createAIMoveTree` from ply 0 that starts with an empty registry returns
with a tree `top` of `n = top.size` nodes and a registry of exactly `n` entries: read from
its tail to its head, the tracked blocks are the blocks of the nodes of `top` in the order
of their allocation, each once.  `_deleteAIHeap` then calls `free` on each of these `n`
blocks (and on each of the `n` entries), and empties the registry. -/
theorem C5_registry_tracks_every_node (E : Env) (fuel : Nat) (s : AIState)
    (curr : Option MoveTreeNode) (chb : Board) (color : Int)
    (hmax : s.max_depth < 65535) (hfuel : s.max_depth + 2 ≤ fuel)
    (hcpu : color = s.CPU_PLAYER) (hempty : s.AIHeap = []) :
    ∃ s1 top chb1,
      _createAIMoveTree E fuel s curr chb color 0 = some (s1, top, chb1)
        ∧ (s1.AIHeap.map (fun e => e.alloc_mem)).reverse = top.blocks
        ∧ s1.AIHeap.length = top.size
        ∧ (s1.AIHeap.map (fun e => e.alloc_mem)).Nodup
        ∧ (_deleteAIHeap s1).freed
            = s.freed ++ s1.AIHeap.flatMap (fun e => [e.alloc_mem, e.self])
        ∧ (_deleteAIHeap s1).freed.length = s.freed.length + 2 * top.size
        ∧ (_deleteAIHeap s1).AIHeap = [] := by
  obtain ⟨r, hr⟩ := create_total E fuel s curr chb color 0 hmax (by omega) (by omega)
    (fun _ => hcpu) (fun h => absurd rfl h)
  obtain ⟨s1, top, chb1⟩ := r
  obtain ⟨-, -, -, hfr, hok, -, hroot⟩ := create_spec E fuel s curr chb color 0 s1 top chb1 hmax hr
  obtain ⟨-, -, -, -, -, hreg⟩ := hroot rfl
  rw [hempty] at hreg
  simp only [List.map_nil, List.append_nil] at hreg
  have hlen : s1.AIHeap.length = top.size := by
    rw [← blocks_length, ← List.length_reverse top.blocks, ← hreg, List.length_map]
  have hs : RegistryOK s := by
    constructor
    · rw [hempty]; exact List.Pairwise.nil
    · intro a ha; rw [hempty] at ha; simp at ha
  refine ⟨s1, top, chb1, hr, ?_, hlen, RegistryOK_nodup s1 (hok hs), ?_, ?_, ?_⟩
  · rw [hreg, List.reverse_reverse]
  · rw [_deleteAIHeap_eq, hfr]
  · rw [_deleteAIHeap_eq]
    simp only [List.length_append, length_flatMap_frees, hfr, hlen]
  · rw [_deleteAIHeap_eq]

theorem C5_registry_tracks_every_node_witness :
    ∃ s1 top chb1,
      _createAIMoveTree demoEnv 3 ⟨1, WHITE, [], 0, []⟩ none demoBoard WHITE 0
          = some (s1, top, chb1)
        ∧ (s1.AIHeap.map (fun e => e.alloc_mem)).reverse = top.blocks
        ∧ s1.AIHeap.length = top.size
        ∧ (s1.AIHeap.map (fun e => e.alloc_mem)).Nodup
        ∧ (_deleteAIHeap s1).freed
            = [] ++ s1.AIHeap.flatMap (fun e => [e.alloc_mem, e.self])
        ∧ (_deleteAIHeap s1).freed.length = 0 + 2 * top.size
        ∧ (_deleteAIHeap s1).AIHeap = [] :=
  C5_registry_tracks_every_node demoEnv 3 ⟨1, WHITE, [], 0, []⟩ none demoBoard WHITE
    (by decide) (by decide) rfl rfl

/-- The run of the witness of C5: four nodes, blocks 0, 2, 4, 6, and a registry that lists
them newest first. -/
theorem registry_demo :
    (_createAIMoveTree demoEnv 3 ⟨1, WHITE, [], 0, []⟩ none demoBoard WHITE 0).map
        (fun r => (r.2.1.size, r.2.1.blocks, r.1.AIHeap.map (fun e => e.alloc_mem)))
      = some (4, [0, 2, 4, 6], [6, 4, 2, 0]) := by
  decide

/-! ## The depth of the tree -/

/-- C1 fails on the code: with `depth = 1` the tree that `getAImove` builds has a node whose
`depth` field is 2 and a path of 2 edges from the root to a leaf.  The root call (ply 0)
always recurses into its children, and the call at ply 1 creates their children before the
test `depth_count <= max_depth` is reached. -/
theorem C1_depth_one_builds_ply_two :
    (getAImove demoEnv demoState demoBoard WHITE 1).bind
        (fun r => r.top.map (fun top => (top.maxPly, top.height)))
      = some (2, 2) := by
  decide

/-! ## The registry across a call of the entry point -/

/-- C11: a call of `getAImove` that starts with an empty registry returns with an empty
registry, on the early exit for invalid input as well as after a search; after a search every
block of a node of the tree has been passed to `free`. -/
theorem C11_getAImove_keeps_registry_empty (E : Env) (s : AIState) (chb : Board) (color : Int)
    (depth : Nat) (hlt : depth < 65536) (hempty : s.AIHeap = []) :
    ∃ r, getAImove E s chb color depth = some r ∧ r.state.AIHeap = []
      ∧ ∀ top, r.top = some top → ∀ b ∈ top.blocks, b ∈ r.state.freed := by
  by_cases hbad : depth = 0 ∨ (color ≠ BLACK ∧ color ≠ WHITE)
  · refine ⟨⟨none, none, s, chb⟩, ?_, hempty, ?_⟩
    · unfold getAImove
      rw [if_pos hbad]
    · intro top htop
      simp at htop
  · have hd : depth ≠ 0 := fun h => hbad (Or.inl h)
    have hc : color = BLACK ∨ color = WHITE := by
      by_contra hn
      exact hbad (Or.inr ⟨fun h => hn (Or.inl h), fun h => hn (Or.inr h)⟩)
    obtain ⟨s1, top, chb1, hcall, hget⟩ := getAImove_valid E s chb color depth hd hlt hc
    obtain ⟨-, -, -, -, -, -, hroot⟩ :=
      create_spec E _ _ _ _ _ _ _ _ _ (by simp only; omega) hcall
    obtain ⟨-, -, -, -, -, hreg⟩ := hroot rfl
    simp only [List.map_nil, List.append_nil] at hreg
    refine ⟨_, hget, ?_, ?_⟩
    · show (_deleteAIHeap s1).AIHeap = []
      rw [_deleteAIHeap_eq]
    · intro top' htop b hb
      simp only [Option.some.injEq] at htop
      subst htop
      show b ∈ (_deleteAIHeap s1).freed
      rw [_deleteAIHeap_eq]
      have hb' : b ∈ s1.AIHeap.map (fun e => e.alloc_mem) := by
        rw [hreg]
        exact List.mem_reverse.2 hb
      obtain ⟨e, he, rfl⟩ := List.mem_map.1 hb'
      exact List.mem_append_right _ (List.mem_flatMap.2 ⟨e, he, by simp⟩)

theorem C11_getAImove_keeps_registry_empty_witness :
    ∃ r, getAImove demoEnv demoState demoBoard WHITE 2 = some r ∧ r.state.AIHeap = []
      ∧ ∀ top, r.top = some top → ∀ b ∈ top.blocks, b ∈ r.state.freed :=
  C11_getAImove_keeps_registry_empty demoEnv demoState demoBoard WHITE 2 (by decide) rfl

/-! ## The material scoring check -/

/-- C12, as stated, fails: on the board with one white queen, seven white pawns and no other
piece, `_Evaluate` for White returns -1, not 1600, because no white king is on the board. -/
theorem C12_queen_and_pawns_counterexample :
    pieceCount queenPawnsBoard QUEEN WHITE = 1 ∧ pieceCount queenPawnsBoard PAWN WHITE = 7
      ∧ (∀ row col, (queenPawnsBoard row col).c = WHITE →
          (queenPawnsBoard row col).current = QUEEN ∨ (queenPawnsBoard row col).current = PAWN)
      ∧ _Evaluate queenPawnsBoard WHITE = -1 ∧ _Evaluate queenPawnsBoard WHITE ≠ 1600 := by
  decide

/-- Why the amended check names the colours of the squares: a pawn whose colour field is
`EMPTY` is not a white piece, yet `_Evaluate` counts it for White.  The board holds exactly
one white queen, seven white pawns, a white king and no other white piece, and `_Evaluate`
for White returns 1700. -/
theorem stray_pawn_counts_for_white :
    pieceCount strayPawnBoard QUEEN WHITE = 1 ∧ pieceCount strayPawnBoard PAWN WHITE = 7
      ∧ pieceCount strayPawnBoard KING WHITE = 1
      ∧ (∀ row col, (strayPawnBoard row col).c = WHITE →
          (strayPawnBoard row col).current = QUEEN ∨ (strayPawnBoard row col).current = PAWN
            ∨ (strayPawnBoard row col).current = KING)
      ∧ _Evaluate strayPawnBoard WHITE = 1700 := by
  decide

/-- C12, amended: on a board whose piece-bearing squares (those whose letter is one of the
six piece letters) are coloured White or Black and that holds exactly one white queen, seven
white pawns, a white king and no other white piece, `_Evaluate` for White returns
900 + 700 = 1600. -/
theorem C12_material_check_with_king (chb : Board)
    (hcol : ∀ row col, (chb row col).current ∈ [PAWN, KING, QUEEN, ROOK, KNIGHT, BISHOP] →
      (chb row col).c = WHITE ∨ (chb row col).c = BLACK)
    (hqueen : pieceCount chb QUEEN WHITE = 1) (hpawn : pieceCount chb PAWN WHITE = 7)
    (hrook : pieceCount chb ROOK WHITE = 0) (hbishop : pieceCount chb BISHOP WHITE = 0)
    (hknight : pieceCount chb KNIGHT WHITE = 0)
    (hking : ∃ row col, (chb row col).current = KING ∧ (chb row col).c = WHITE) :
    _Evaluate chb WHITE = 1600 := by
  have hpos := pieceCount_pos chb KING WHITE hking
  rw [_Evaluate_white chb hcol, if_neg (by omega)]
  unfold materialBalance
  rw [hqueen, hpawn, hrook, hbishop, hknight]
  norm_num

theorem C12_material_check_with_king_witness : _Evaluate queenPawnsKingBoard WHITE = 1600 :=
  C12_material_check_with_king queenPawnsKingBoard (by decide) (by decide) (by decide)
    (by decide) (by decide) (by decide) ⟨0, 4, by decide⟩

/-! ## The candidates behind the slots -/

/-- A list cut at an index that holds `x` is `x` followed by the rest. -/
theorem drop_of_getElem? {α : Type} (l : List α) (n : Nat) (x : α) (h : l[n]? = some x) :
    l.drop n = x :: l.drop (n + 1) := by
  induction l generalizing n with
  | nil => simp at h
  | cons a l ih =>
    cases n with
    | zero => simp at h; simp [h]
    | succ n => simp at h; simpa using ih n h

theorem drop_set_self {α : Type} (l : List α) (n : Nat) (x y : α) (h : l[n]? = some x) :
    (l.set n y).drop n = y :: l.drop (n + 1) := by
  induction l generalizing n with
  | nil => simp at h
  | cons a l ih =>
    cases n with
    | zero => simp
    | succ n => simp at h; simpa using ih n h

/-- Stepping over exhausted lists loses no candidate. -/
theorem skipNull_flatten :
    ∀ (l : List (List MoveNode)) (k : Nat), (l.drop (skipNull l k - k)).flatten = l.flatten := by
  intro l
  induction l with
  | nil => intro k; simp [skipNull]
  | cons x l ih =>
    intro k
    cases x with
    | nil =>
      have h1 := (skipNull_spec l (k + 1)).1
      have h := ih (k + 1)
      simp only [skipNull]
      have : skipNull l (k + 1) - k = (skipNull l (k + 1) - (k + 1)) + 1 := by omega
      rw [this, List.drop_succ_cons, h]
      simp
    | cons m nxt => simp [skipNull]

/-- Where one iteration of the slot-filling loop leaves the cursor. -/
theorem fillSlot_cursor (E : Env) (color : Int) (dc : Nat) (node : MoveTreeNode)
    (s : AIState) (chb : Board) (tm : List (List MoveNode)) (mlc : Nat)
    (s1 : AIState) (chb1 : Board) (tm1 : List (List MoveNode)) (mlc1 : Nat)
    (slot : Option MoveTreeNode)
    (h : fillSlot E color dc node s chb tm mlc = some (s1, chb1, tm1, mlc1, slot)) :
    mlc1 = skipNull (tm.drop mlc) mlc
      ∧ tm1 = (if mlc1 > 5 then tm else tm.set mlc1 (tm.getD mlc1 []).tail) := by
  unfold fillSlot at h
  simp only [] at h
  split at h
  · rename_i hgt
    simp only [Option.some.injEq, Prod.mk.injEq] at h
    obtain ⟨-, -, rfl, rfl, -⟩ := h
    exact ⟨rfl, by rw [if_pos hgt]⟩
  · rename_i hgt
    split at h
    · rename_i m nxt hm
      have hD : tm.getD (skipNull (tm.drop mlc) mlc) [] = m :: nxt := by
        rw [List.getD_eq_getElem?_getD, hm]; rfl
      have key : ∀ (x : AIState) (b : Board) (sl : Option MoveTreeNode),
          (x, b, tm.set (skipNull (tm.drop mlc) mlc) nxt, skipNull (tm.drop mlc) mlc, sl)
            = (s1, chb1, tm1, mlc1, slot) →
          mlc1 = skipNull (tm.drop mlc) mlc
            ∧ tm1 = (if mlc1 > 5 then tm else tm.set mlc1 (tm.getD mlc1 []).tail) := by
        intro x b sl hx
        simp only [Prod.mk.injEq] at hx
        obtain ⟨-, -, rfl, rfl, -⟩ := hx
        exact ⟨rfl, by rw [if_neg hgt, hD]; rfl⟩
      split at h
      · simp only [Option.some.injEq] at h; exact key _ _ _ h
      · simp only [Option.some.injEq] at h; exact key _ _ _ h
      · simp at h
    · simp at h

/-- One iteration of the slot-filling loop takes the first candidate that is left, if any,
and fills the slot from it or prunes it. -/
theorem fillSlot_candidate (E : Env) (color : Int) (dc : Nat) (node : MoveTreeNode)
    (s : AIState) (chb : Board) (tm : List (List MoveNode)) (mlc : Nat)
    (s1 : AIState) (chb1 : Board) (tm1 : List (List MoveNode)) (mlc1 : Nat)
    (slot : Option MoveTreeNode) (hlen : tm.length = 6) (hmlc : mlc ≤ 6)
    (h : fillSlot E color dc node s chb tm mlc = some (s1, chb1, tm1, mlc1, slot)) :
    SlotFrom E color s.CPU_PLAYER node.score chb (tm.drop mlc).flatten.head? slot
      ∧ (tm1.drop mlc1).flatten = (tm.drop mlc).flatten.tail
      ∧ tm1.length = 6 ∧ mlc1 ≤ 6 := by
  obtain ⟨h1, h2, h3⟩ := skipNull_spec (tm.drop mlc) mlc
  have hdl : (tm.drop mlc).length = 6 - mlc := by simp [hlen]
  rw [hdl] at h2 h3
  have hfl := skipNull_flatten (tm.drop mlc) mlc
  rw [List.drop_drop] at hfl
  have hidx : mlc + (skipNull (tm.drop mlc) mlc - mlc) = skipNull (tm.drop mlc) mlc := by omega
  rw [hidx] at hfl
  unfold fillSlot at h
  simp only [] at h
  split at h
  · rename_i hgt
    simp only [Option.some.injEq, Prod.mk.injEq] at h
    obtain ⟨-, -, rfl, rfl, rfl⟩ := h
    have hnil : (tm.drop (skipNull (tm.drop mlc) mlc)).flatten = [] := by
      rw [List.drop_of_length_le (by omega)]; rfl
    rw [← hfl, hnil]
    exact ⟨rfl, rfl, hlen, by omega⟩
  · rename_i hgt
    obtain ⟨m, nxt, hm⟩ := h3 (by omega)
    rw [List.getElem?_drop, hidx] at hm
    have hcands : (tm.drop mlc).flatten
        = m :: (nxt ++ (tm.drop (skipNull (tm.drop mlc) mlc + 1)).flatten) := by
      rw [← hfl, drop_of_getElem? tm _ _ hm]; simp
    have hrest : ((tm.set (skipNull (tm.drop mlc) mlc) nxt).drop
        (skipNull (tm.drop mlc) mlc)).flatten
        = nxt ++ (tm.drop (skipNull (tm.drop mlc) mlc + 1)).flatten := by
      rw [drop_set_self tm _ _ nxt hm]; simp
    rw [hcands]
    simp only [hm] at h
    by_cases hcpu : color = s.CPU_PLAYER
    · simp only [hcpu, ne_eq, not_true_eq_false, if_false, Option.some.injEq,
        Prod.mk.injEq] at h
      obtain ⟨-, -, rfl, rfl, rfl⟩ := h
      refine ⟨?_, by rw [hrest]; rfl, by simp [hlen], by omega⟩
      simp [SlotFrom, MoveTreeNode.start, MoveTreeNode.end_, hcpu]
    · simp only [ne_eq, hcpu, not_false_eq_true, if_true] at h
      cases hsc : node.score with
      | none => simp [hsc] at h
      | some sc =>
        simp only [hsc, _evaluateNext_board] at h
        by_cases hgt2 : (_evaluateNext E chb (if color = BLACK then WHITE else BLACK)
            m.start m.end_).2 > sc
        · simp only [hgt2, decide_True, Option.some.injEq, Prod.mk.injEq] at h
          obtain ⟨-, -, rfl, rfl, rfl⟩ := h
          refine ⟨?_, by rw [hrest]; rfl, by simp [hlen], by omega⟩
          exact ⟨hcpu, sc, rfl, hgt2⟩
        · simp only [hgt2, decide_False, Option.some.injEq, Prod.mk.injEq] at h
          obtain ⟨-, -, rfl, rfl, rfl⟩ := h
          refine ⟨?_, by rw [hrest]; rfl, by simp [hlen], by omega⟩
          exact ⟨rfl, rfl, fun _ => ⟨sc, rfl, not_lt.1 hgt2⟩⟩

theorem candidateSlots_succ (n : Nat) (l : List MoveNode) :
    candidateSlots (n + 1) l = l.head? :: candidateSlots n l.tail := by
  unfold candidateSlots
  cases l with
  | nil =>
    simp only [List.map_nil, List.nil_append, List.head?_nil, List.tail_nil]
    rw [List.replicate_succ, List.take_succ_cons]
  | cons m l =>
    simp only [List.map_cons, List.cons_append, List.take_succ_cons, List.head?_cons,
      List.tail_cons, List.cons.injEq, true_and]
    rw [List.take_append_eq_append_take, List.take_append_eq_append_take]
    simp only [List.take_replicate, List.length_map]
    congr 2
    omega

/-- The slots that the slot-filling loop writes are filled, one by one, from the candidates
that are left: the lists from `move_list_count` on, one after the other. -/
theorem fillSlots_candidates (E : Env) (color : Int) (dc : Nat) (node : MoveTreeNode) :
    ∀ (n : Nat) (s : AIState) (chb : Board) (tm : List (List MoveNode)) (mlc : Nat)
      (s1 : AIState) (chb1 : Board) (slots : List (Option MoveTreeNode)),
    tm.length = 6 → mlc ≤ 6 →
    fillSlots E color dc node n s chb tm mlc = some (s1, chb1, slots) →
    List.Forall₂ (SlotFrom E color s.CPU_PLAYER node.score chb)
      (candidateSlots n (tm.drop mlc).flatten) slots := by
  intro n
  induction n with
  | zero =>
    intro s chb tm mlc s1 chb1 slots _ _ h
    simp only [fillSlots, Option.some.injEq, Prod.mk.injEq] at h
    obtain ⟨-, -, rfl⟩ := h
    simp [candidateSlots]
  | succ n ih =>
    intro s chb tm mlc s1 chb1 slots hlen hmlc h
    rw [fillSlots] at h
    cases hstep : fillSlot E color dc node s chb tm mlc with
    | none => simp [hstep] at h
    | some r =>
      obtain ⟨s2, chb2, tm2, mlc2, slot⟩ := r
      simp only [hstep] at h
      cases hrest : fillSlots E color dc node n s2 chb2 tm2 mlc2 with
      | none => simp [hrest] at h
      | some r2 =>
        obtain ⟨s3, chb3, slots3⟩ := r2
        simp only [hrest, Option.map_some', Option.some.injEq, Prod.mk.injEq] at h
        obtain ⟨-, -, rfl⟩ := h
        obtain ⟨hslot, hfl, hlen2, hmlc2⟩ :=
          fillSlot_candidate E color dc node s chb tm mlc s2 chb2 tm2 mlc2 slot hlen hmlc hstep
        obtain ⟨hb, hstate⟩ := fillSlot_spec E color dc node s chb tm mlc s2 chb2 tm2 mlc2 slot hstep
        have hcpu : s2.CPU_PLAYER = s.CPU_PLAYER := by
          cases slot with
          | none => simp only at hstate; rw [hstate]
          | some c => simp only at hstate; rw [hstate.1]
        have := ih s2 chb2 tm2 mlc2 s3 chb3 slots3 hlen2 hmlc2 hrest
        rw [hfl, hcpu, hb] at this
        rw [candidateSlots_succ]
        exact List.Forall₂.cons hslot this

theorem slotFrom_sameSlot (E : Env) (color cpu : Int) (score : Option Int) (chb : Board)
    (m : Option MoveNode) (a b : Option MoveTreeNode)
    (h : SlotFrom E color cpu score chb m a) (hab : SameSlot a b) :
    SlotFrom E color cpu score chb m b := by
  cases a with
  | none =>
    cases b with
    | none => exact h
    | some c2 => exact absurd hab (by simp [SameSlot])
  | some c1 =>
    cases b with
    | none => exact absurd hab (by simp [SameSlot])
    | some c2 =>
      obtain ⟨-, hst, hen, -⟩ := hab
      cases m with
      | none => simp [SlotFrom] at h
      | some m =>
        obtain ⟨h1, h2, h3⟩ := h
        exact ⟨by rw [hst, h1], by rw [hen, h2], h3⟩

theorem forall₂_slotFrom_sameSlot (E : Env) (color cpu : Int) (score : Option Int)
    (chb : Board) :
    ∀ (ms : List (Option MoveNode)) (l1 l2 : List (Option MoveTreeNode)),
      List.Forall₂ (SlotFrom E color cpu score chb) ms l1 → List.Forall₂ SameSlot l1 l2 →
      List.Forall₂ (SlotFrom E color cpu score chb) ms l2 := by
  intro ms
  induction ms with
  | nil => intro l1 l2 h1 h2; cases h1; cases h2; exact List.Forall₂.nil
  | cons m ms ih =>
    intro l1 l2 h1 h2
    cases h1 with
    | cons ha hrest =>
      cases h2 with
      | cons hb hrest2 =>
        exact List.Forall₂.cons (slotFrom_sameSlot E color cpu score chb m _ _ ha hb)
          (ih _ _ hrest hrest2)

/-- The state and node with which a call enters its two loops. -/
theorem create_init (s : AIState) (curr : Option MoveTreeNode) (dc : Nat) (s0 : AIState)
    (node0 : MoveTreeNode)
    (hinit : (if dc = 0 then
          some (_addToAIHeap (malloc s).1 (malloc s).2,
            MoveTreeNode.mk (malloc s).1 ('T', Char.ofNat 0) none none none 0 [] none)
        else curr.map (fun node => (s, node))) = some (s0, node0)) :
    s0.max_depth = s.max_depth ∧ s0.CPU_PLAYER = s.CPU_PLAYER
      ∧ (dc = 0 → node0 = MoveTreeNode.mk s.nextBlock ('T', Char.ofNat 0) none none none 0 [] none)
      ∧ (dc ≠ 0 → curr = some node0 ∧ s0 = s) := by
  by_cases h0 : dc = 0
  · simp only [h0, if_true, Option.some.injEq, Prod.mk.injEq] at hinit
    obtain ⟨rfl, rfl⟩ := hinit
    exact ⟨rfl, rfl, fun _ => rfl, fun h => absurd h0 h⟩
  · simp only [h0, if_false] at hinit
    cases curr with
    | none => simp at hinit
    | some node =>
      simp only [Option.map_some', Option.some.injEq, Prod.mk.injEq] at hinit
      obtain ⟨rfl, rfl⟩ := hinit
      exact ⟨rfl, rfl, fun h => absurd h h0, fun _ => ⟨rfl, rfl⟩⟩

/-- The slots of a node after a call that returns are filled from the candidates of the
call: the six lists one after the other. -/
theorem create_candidates (E : Env) (fuel : Nat) (s : AIState) (curr : Option MoveTreeNode)
    (chb : Board) (color : Int) (dc : Nat) (s1 : AIState) (node1 : MoveTreeNode) (chb1 : Board)
    (hmax : s.max_depth < 65535)
    (h : _createAIMoveTree E fuel s curr chb color dc = some (s1, node1, chb1)) :
    List.Forall₂
      (SlotFrom E color s.CPU_PLAYER node1.score (E.getAllMoves chb color).1)
      (candidateSlots MOVE_COUNT (candidates E chb color)) node1.child := by
  cases fuel with
  | zero => simp [create_zero] at h
  | succ fuel =>
    obtain ⟨s0, node0, sF, chbF, slots0, slots1, hinit, hfill, hscore, hnode⟩ :=
      create_unfold E fuel s curr chb color dc s1 node1 chb1 h
    obtain ⟨hmd0, hcpu0, -, -⟩ := create_init s curr dc s0 node0 hinit
    have hcand := fillSlots_candidates E color dc node0 MOVE_COUNT s0 _ _ 0 sF chbF slots0
      (by simp) (by omega) hfill
    obtain ⟨-, hmdF, -, -, -, -, -, hchF⟩ := fillSlots_spec E color dc node0 _ _ _ _ _ _ _ _ hfill
    obtain ⟨-, -, -, -, hsame, -, -⟩ :=
      scoreSlots_spec E _ (create_recurOK E fuel) color dc slots0 sF chbF s1 chb1 slots1
        (by omega) (fun c hc => (hchF c hc).2.2.2.1) hscore
    obtain ⟨-, -, -, -, k5, -, k7, -⟩ := setChild_fields node0 slots1
    rw [hnode, k5, k7]
    rw [hcpu0] at hcand
    simp only [List.drop_zero] at hcand
    exact forall₂_slotFrom_sameSlot E color _ _ _ _ _ _ hcand hsame

/-- C17, as stated, fails: for the lists a2a3, b2b3 (pawns) and e1d1 (king) the slots of the
root are filled in the order a2a3, b2b3, e1d1, while the round-robin interleaving of the
lists is a2a3, e1d1, b2b3. -/
theorem C17_round_robin_counterexample :
    ((getAImove demoEnv2 demoState demoBoard2 WHITE 2).bind (fun r => r.top)).map
        (fun top => (top.child.take 4).map (fun slot => slot.map (fun c => (c.start, c.end_))))
      = some [some (('a', '2'), some ('a', '3')), some (('b', '2'), some ('b', '3')),
              some (('e', '1'), some ('d', '1')), none]
    ∧ roundRobin (tempMoves demoEnv2 demoBoard2 WHITE)
      = [⟨('a', '2'), ('a', '3')⟩, ⟨('e', '1'), ('d', '1')⟩, ⟨('b', '2'), ('b', '3')⟩]
    ∧ roundRobin (tempMoves demoEnv2 demoBoard2 WHITE) ≠ candidates demoEnv2 demoBoard2 WHITE := by
  decide

/-- C17, amended: the candidate sequence from which a call of `_createAIMoveTree` fills the
slots of a node is the six per-class move lists of the side to move one after the other in
class order (pawn, king, queen, rook, knight, bishop), each in its list order: the call
returns, and slot `i` is filled from candidate `i` of that sequence, or is empty because the
candidate was pruned or there is no candidate `i`. -/
theorem C17_candidates_are_concatenated (E : Env) (fuel : Nat) (s : AIState)
    (curr : Option MoveTreeNode) (chb : Board) (color : Int) (dc : Nat)
    (hmax : s.max_depth < 65535) (hdc : dc ≤ s.max_depth + 1)
    (hfuel : s.max_depth + 2 ≤ fuel + dc) (hroot : dc = 0 → color = s.CPU_PLAYER)
    (hnode : dc ≠ 0 → ∃ node v, curr = some node ∧ node.score = some v) :
    ∃ s1 node1 chb1,
      _createAIMoveTree E fuel s curr chb color dc = some (s1, node1, chb1)
        ∧ List.Forall₂
            (SlotFrom E color s.CPU_PLAYER node1.score (E.getAllMoves chb color).1)
            (candidateSlots MOVE_COUNT (candidates E chb color)) node1.child := by
  obtain ⟨r, hr⟩ := create_total E fuel s curr chb color dc hmax hdc hfuel hroot hnode
  obtain ⟨s1, node1, chb1⟩ := r
  exact ⟨s1, node1, chb1, hr, create_candidates E fuel s curr chb color dc s1 node1 chb1 hmax hr⟩

theorem C17_candidates_are_concatenated_witness :
    ∃ s1 node1 chb1,
      _createAIMoveTree demoEnv2 3 ⟨1, WHITE, [], 0, []⟩ none demoBoard2 WHITE 0
          = some (s1, node1, chb1)
        ∧ List.Forall₂
            (SlotFrom demoEnv2 WHITE WHITE node1.score (demoEnv2.getAllMoves demoBoard2 WHITE).1)
            (candidateSlots MOVE_COUNT (candidates demoEnv2 demoBoard2 WHITE)) node1.child :=
  C17_candidates_are_concatenated demoEnv2 3 ⟨1, WHITE, [], 0, []⟩ none demoBoard2 WHITE 0
    (by decide) (by decide) (by decide) (fun _ => rfl) (fun h => absurd rfl h)

/-! ## The reads of the move-list array -/

/-- The index at which the scan stops is among the indices it reads. -/
theorem skipNull_mem_reads :
    ∀ (l : List (List MoveNode)) (k : Nat), skipNull l k ∈ skipNullReads l k := by
  intro l
  induction l with
  | nil => intro k; simp [skipNull, skipNullReads]
  | cons x l ih =>
    intro k
    cases x with
    | nil =>
      simp only [skipNull, skipNullReads]
      exact List.mem_cons_of_mem _ (ih (k + 1))
    | cons m nxt => simp [skipNull, skipNullReads]

/-- When the candidates that are left are fewer than the iterations that are left, the scan
of the slot-filling loop reads index 6 of `temp_moves`, an array of six lists. -/
theorem whileReads_past_array :
    ∀ (n : Nat) (tm : List (List MoveNode)) (mlc : Nat),
      tm.length = 6 → mlc ≤ 6 → (tm.drop mlc).flatten.length < n →
      6 ∈ whileReads n tm mlc := by
  intro n
  induction n with
  | zero => intro tm mlc _ _ h; omega
  | succ n ih =>
    intro tm mlc hlen hmlc hfew
    obtain ⟨h1, h2, h3⟩ := skipNull_spec (tm.drop mlc) mlc
    have hdl : (tm.drop mlc).length = 6 - mlc := by simp [hlen]
    rw [hdl] at h2 h3
    have hfl := skipNull_flatten (tm.drop mlc) mlc
    rw [List.drop_drop] at hfl
    have hidx : mlc + (skipNull (tm.drop mlc) mlc - mlc) = skipNull (tm.drop mlc) mlc := by omega
    rw [hidx] at hfl
    rw [whileReads]
    apply List.mem_append.2
    by_cases hgt : skipNull (tm.drop mlc) mlc > 5
    · left
      have h6 : skipNull (tm.drop mlc) mlc = 6 := by omega
      have := skipNull_mem_reads (tm.drop mlc) mlc
      rw [h6] at this
      exact this
    · right
      rw [if_neg hgt]
      obtain ⟨m, nxt, hm⟩ := h3 (by omega)
      rw [List.getElem?_drop, hidx] at hm
      have hD : tm.getD (skipNull (tm.drop mlc) mlc) [] = m :: nxt := by
        rw [List.getD_eq_getElem?_getD, hm]; rfl
      rw [hD]
      apply ih _ _ (by simp [hlen]) (by omega)
      rw [List.tail_cons, drop_set_self tm _ _ nxt hm]
      rw [← hfl, drop_of_getElem? tm _ _ hm] at hfew
      simp only [List.flatten_cons, List.length_append, List.length_cons] at hfew ⊢
      omega

/-- C18 fails on the code: at a node whose six move lists hold fewer than 50 candidates, the
scan `while (!temp_moves[move_list_count]) move_list_count++;` of the slot-filling loop
reads `temp_moves[6]`, the seventh entry of an array of six. -/
theorem C18_scan_reads_seventh_list (E : Env) (chb : Board) (color : Int)
    (hfew : (candidates E chb color).length < MOVE_COUNT) :
    6 ∈ whileReads MOVE_COUNT (tempMoves E chb color) 0 := by
  apply whileReads_past_array MOVE_COUNT (tempMoves E chb color) 0
  · simp [tempMoves]
  · omega
  · simpa [candidates] using hfew

theorem C18_scan_reads_seventh_list_witness :
    6 ∈ whileReads MOVE_COUNT (tempMoves demoEnv demoBoard WHITE) 0 :=
  C18_scan_reads_seventh_list demoEnv demoBoard WHITE (by decide)

/-! ## Slots behind a pruned slot -/

/-- C14 fails on the code: in the tree of `getAImove` with `depth = 2`, the node at ply 2
(expanded for Black while White is `CPU_PLAYER`) has slot 0 empty, because a7a6 was pruned,
and holds in slot 1 the node of e8d8, whose score is left unassigned: the scoring loop
returns at the first empty slot. -/
theorem C14_child_behind_pruned_slot_unscored :
    ((((getAImove demoEnv demoState demoBoard WHITE 2).bind (fun r => r.top)).bind
        (fun top => top.childAt 0)).bind (fun c => c.childAt 0)).map
        (fun n => (n.child.take 3).map (fun slot => slot.map (fun c => (c.start, c.score))))
      = some [none, some (('e', '8'), none), none] := by
  decide

/-- C16 fails on the code: in the same tree the slots of the node at ply 2 are empty at
index 0, filled at index 1 and empty from index 2 on: an empty slot is followed by a filled
one. -/
theorem C16_filled_slot_after_empty_slot :
    ((((getAImove demoEnv demoState demoBoard WHITE 2).bind (fun r => r.top)).bind
        (fun top => top.childAt 0)).bind (fun c => c.childAt 0)).map
        (fun n => (n.child.map (fun slot => slot.isSome), n.child.length))
      = some (false :: true :: List.replicate 48 false, 50) := by
  decide

/-! ## The scores that the scoring loop stores -/

/-- After the scoring loop, run on slots whose nodes have no score yet, a node in a slot has
no score still, or has as score the evaluation, for the colour of the call, of the board
copy on which its move was made. -/
theorem scoreSlots_scored (E : Env)
    (recur : AIState → MoveTreeNode → Board → Int → Nat → Option (AIState × MoveTreeNode × Board))
    (hrec : RecurOK recur) (color : Int) (dc : Nat) :
    ∀ (slots : List (Option MoveTreeNode)) (s : AIState) (chb : Board)
      (s1 : AIState) (chb1 : Board) (slots1 : List (Option MoveTreeNode)),
    s.max_depth < 65535 → (∀ c, some c ∈ slots → c.child = [] ∧ c.score = none) →
    scoreSlots E recur color dc slots s chb = some (s1, chb1, slots1) →
    ∀ c1, some c1 ∈ slots1 → c1.score = none
      ∨ ∃ c_color c_end, c1.color = some c_color ∧ c1.end_ = some c_end
          ∧ c1.score = some (_Evaluate (E._makeMove chb c1.start c_end c_color false).1 color) := by
  intro slots
  induction slots with
  | nil =>
    intro s chb s1 chb1 slots1 _ _ h
    simp only [scoreSlots, Option.some.injEq, Prod.mk.injEq] at h
    obtain ⟨-, -, rfl⟩ := h
    intro c1 hc1
    simp at hc1
  | cons slot rest ih =>
    intro s chb s1 chb1 slots1 hmax hin h
    cases slot with
    | none =>
      simp only [scoreSlots, Option.some.injEq, Prod.mk.injEq] at h
      obtain ⟨-, -, rfl⟩ := h
      intro c1 hc1
      exact Or.inl (hin c1 hc1).2
    | some c =>
      rw [scoreSlots] at h
      cases hstep : scoreSlot E recur color dc c s chb with
      | none => simp [hstep] at h
      | some r =>
        obtain ⟨s2, chb2, c2⟩ := r
        simp only [hstep] at h
        cases hrest : scoreSlots E recur color dc rest s2 chb2 with
        | none => simp [hrest] at h
        | some r2 =>
          obtain ⟨s3, chb3, slots3⟩ := r2
          simp only [hrest, Option.map_some', Option.some.injEq, Prod.mk.injEq] at h
          obtain ⟨-, -, rfl⟩ := h
          obtain ⟨hb, hmd, -, -, hsame, ⟨c_color, c_end, hcol, hen, hsc⟩, -, -⟩ :=
            scoreSlot_spec E recur hrec color dc c s chb s2 chb2 c2 hmax
              (hin c (List.mem_cons_self _ _)).1 hstep
          intro c1 hc1
          simp only [List.mem_cons, Option.some.injEq] at hc1
          rcases hc1 with rfl | hc1
          · right
            obtain ⟨-, hst, hen2, hcol2, -⟩ := hsame
            exact ⟨c_color, c_end, by rw [hcol2, hcol], by rw [hen2, hen], by rw [hst]; exact hsc⟩
          · have := ih s2 chb2 s3 chb3 slots3 (by omega)
              (fun c hc => hin c (List.mem_cons_of_mem _ hc)) hrest c1 hc1
            rw [hb] at this
            exact this

/-- The scores in the slots of a node after a call that returns. -/
theorem create_scored (E : Env) (fuel : Nat) (s : AIState) (curr : Option MoveTreeNode)
    (chb : Board) (color : Int) (dc : Nat) (s1 : AIState) (node1 : MoveTreeNode) (chb1 : Board)
    (hmax : s.max_depth < 65535)
    (h : _createAIMoveTree E fuel s curr chb color dc = some (s1, node1, chb1)) :
    ∀ c1, some c1 ∈ node1.child → ∀ v, c1.score = some v →
      ∃ c_end, c1.color = some color ∧ c1.end_ = some c_end
        ∧ v = _Evaluate (E._makeMove (E.getAllMoves chb color).1 c1.start c_end color false).1
            color := by
  cases fuel with
  | zero => simp [create_zero] at h
  | succ fuel =>
    obtain ⟨s0, node0, sF, chbF, slots0, slots1, hinit, hfill, hscore, hnode⟩ :=
      create_unfold E fuel s curr chb color dc s1 node1 chb1 h
    obtain ⟨hmd0, -, -, -⟩ := create_init s curr dc s0 node0 hinit
    obtain ⟨hbF, hmdF, -, -, -, -, -, hchF⟩ :=
      fillSlots_spec E color dc node0 _ _ _ _ _ _ _ _ hfill
    have hsc := scoreSlots_scored E _ (create_recurOK E fuel) color dc slots0 sF chbF s1 chb1
      slots1 (by omega) (fun c hc => ⟨(hchF c hc).2.2.2.1, (hchF c hc).2.2.1⟩) hscore
    obtain ⟨-, -, -, -, hsame, -, -⟩ :=
      scoreSlots_spec E _ (create_recurOK E fuel) color dc slots0 sF chbF s1 chb1 slots1
        (by omega) (fun c hc => (hchF c hc).2.2.2.1) hscore
    obtain ⟨-, -, -, -, -, -, k7, -⟩ := setChild_fields node0 slots1
    intro c1 hc1 v hv
    rw [hnode, k7] at hc1
    obtain ⟨c0, hc0, -, -, -, hcol0, -⟩ := mem_of_sameSlot _ _ hsame c1 hc1
    have hcolor : c1.color = some color := by rw [hcol0]; exact (hchF c0 hc0).1
    rcases hsc c1 hc1 with hnone | ⟨c_color, c_end, hcol, hen, hval⟩
    · rw [hnone] at hv; simp at hv
    · rw [hcolor] at hcol
      simp only [Option.some.injEq] at hcol
      subst hcol
      rw [hv] at hval
      simp only [Option.some.injEq] at hval
      rw [hbF] at hval
      exact ⟨c_end, hcolor, hen, hval⟩

/-- C15, as stated, fails: in the tree of `getAImove` for White with `depth = 2`, the node
e8d8 at ply 3 (below a2a3 and b2b3) has the stored score 100, Black's material, while the
evaluation of the same board for White, the `CPU_PLAYER`, is 200. -/
theorem C15_score_for_side_to_move_counterexample :
    (((((getAImove demoEnv2 demoState demoBoard2 WHITE 2).bind (fun r => r.top)).bind
        (fun top => top.childAt 0)).bind (fun c => c.childAt 1)).bind
        (fun c => c.childAt 0)).map (fun c => (c.start, c.color, c.score))
      = some (('e', '8'), some BLACK, some 100)
    ∧ _Evaluate (demoMakeMove (demoMakeMove (demoMakeMove demoBoard2
          ('a', '2') ('a', '3') WHITE false).1 ('b', '2') ('b', '3') WHITE false).1
          ('e', '8') ('d', '8') BLACK false).1 WHITE = 200
    ∧ _Evaluate (demoMakeMove (demoMakeMove (demoMakeMove demoBoard2
          ('a', '2') ('a', '3') WHITE false).1 ('b', '2') ('b', '3') WHITE false).1
          ('e', '8') ('d', '8') BLACK false).1 BLACK = 100 := by
  decide

/-- C15, amended: a call of `_createAIMoveTree` returns, and every child to which its scoring
loop has given a score carries the colour `color` of the call (the side to move at the
expanded node) and has as score `_Evaluate` for that colour of the board copy with the
child's move applied. -/
theorem C15_score_is_for_color_of_call (E : Env) (fuel : Nat) (s : AIState)
    (curr : Option MoveTreeNode) (chb : Board) (color : Int) (dc : Nat)
    (hmax : s.max_depth < 65535) (hdc : dc ≤ s.max_depth + 1)
    (hfuel : s.max_depth + 2 ≤ fuel + dc) (hroot : dc = 0 → color = s.CPU_PLAYER)
    (hnode : dc ≠ 0 → ∃ node v, curr = some node ∧ node.score = some v) :
    ∃ s1 node1 chb1,
      _createAIMoveTree E fuel s curr chb color dc = some (s1, node1, chb1)
        ∧ ∀ c1, some c1 ∈ node1.child → ∀ v, c1.score = some v →
            ∃ c_end, c1.color = some color ∧ c1.end_ = some c_end
              ∧ v = _Evaluate
                  (E._makeMove (E.getAllMoves chb color).1 c1.start c_end color false).1 color := by
  obtain ⟨r, hr⟩ := create_total E fuel s curr chb color dc hmax hdc hfuel hroot hnode
  obtain ⟨s1, node1, chb1⟩ := r
  exact ⟨s1, node1, chb1, hr, create_scored E fuel s curr chb color dc s1 node1 chb1 hmax hr⟩

theorem C15_score_is_for_color_of_call_witness :
    ∃ s1 node1 chb1,
      _createAIMoveTree demoEnv2 1 ⟨1, WHITE, [], 6, []⟩ (some (demoNode.setScore 200))
          demoBoard2 BLACK 2 = some (s1, node1, chb1)
        ∧ ∀ c1, some c1 ∈ node1.child → ∀ v, c1.score = some v →
            ∃ c_end, c1.color = some BLACK ∧ c1.end_ = some c_end
              ∧ v = _Evaluate
                  (demoEnv2._makeMove (demoEnv2.getAllMoves demoBoard2 BLACK).1 c1.start c_end
                    BLACK false).1 BLACK :=
  C15_score_is_for_color_of_call demoEnv2 1 ⟨1, WHITE, [], 6, []⟩ (some (demoNode.setScore 200))
    demoBoard2 BLACK 2 (by decide) (by decide) (by decide) (by decide)
    (fun _ => ⟨demoNode.setScore 200, 200, rfl, rfl⟩)

/-- The run of the witness of C15 keeps e8d8 in slot 0 and gives it the score 100. -/
theorem scoring_demo :
    (_createAIMoveTree demoEnv2 1 ⟨1, WHITE, [], 6, []⟩ (some (demoNode.setScore 200))
        demoBoard2 BLACK 2).map
        (fun r => (r.2.1.child.take 2).map (fun slot => slot.map (fun c => (c.start, c.score))))
      = some [some (('e', '8'), some 100), none] := by
  decide

/-! ## Properties of whole subtrees -/

/-- The two ways in which one iteration of the scoring loop ends: the node is scored and
expanded by a recursive call at the next ply, or it is scored only. -/
theorem scoreSlot_cases (E : Env)
    (recur : AIState → MoveTreeNode → Board → Int → Nat → Option (AIState × MoveTreeNode × Board))
    (color : Int) (dc : Nat) (c : MoveTreeNode) (s : AIState) (chb : Board)
    (s1 : AIState) (chb1 : Board) (c1 : MoveTreeNode) (hmax : s.max_depth < 65535)
    (h : scoreSlot E recur color dc c s chb = some (s1, chb1, c1)) :
    ∃ v, ((dc = 0 ∨ dc ≤ s.max_depth) ∧ ∃ b b1,
            recur s (c.setScore v) b (if dc = 0 then color else opposite color) (dc + 1)
              = some (s1, c1, b1))
          ∨ (¬ (dc = 0 ∨ dc ≤ s.max_depth) ∧ c1 = c.setScore v ∧ s1 = s) := by
  unfold scoreSlot at h
  simp only [_copyBoard] at h
  split at h
  · rename_i c_color c_end hcol hen
    refine ⟨_Evaluate (E._makeMove chb c.start c_end c_color false).1 color, ?_⟩
    by_cases h0 : dc = 0
    · left
      refine ⟨Or.inl h0, (E._makeMove chb c.start c_end c_color false).1, ?_⟩
      simp only [h0, if_true, Option.map_eq_some', Prod.mk.injEq] at h ⊢
      obtain ⟨⟨s2, c2, b2⟩, hr, rfl, -, rfl⟩ := h
      exact ⟨b2, hr⟩
    · by_cases hle : dc ≤ s.max_depth
      · left
        refine ⟨Or.inr hle, (E._makeMove chb c.start c_end c_color false).1, ?_⟩
        have hmod : (dc + 1) % 65536 = dc + 1 := Nat.mod_eq_of_lt (by omega)
        simp only [h0, hle, if_true, if_false, hmod, Option.map_eq_some', Prod.mk.injEq] at h ⊢
        obtain ⟨⟨s2, c2, b2⟩, hr, rfl, -, rfl⟩ := h
        exact ⟨b2, hr⟩
      · right
        simp only [h0, hle, if_false, Option.map_some', Option.some.injEq, Prod.mk.injEq] at h
        obtain ⟨rfl, -, rfl⟩ := h
        exact ⟨fun hh => hh.elim h0 hle, rfl, rfl⟩
  · simp at h

/-- A property `Q` holds of every node in a slot after the scoring loop, when it holds of the
nodes that the loop does not reach, of those it only scores, and of those that a recursive
call returns. -/
theorem scoreSlots_forall (E : Env)
    (recur : AIState → MoveTreeNode → Board → Int → Nat → Option (AIState × MoveTreeNode × Board))
    (hrec : RecurOK recur) (color : Int) (dc M : Nat) (hM : M < 65535)
    (Pin Q : MoveTreeNode → Prop)
    (hleaf : ∀ c, Pin c → Q c)
    (hscored : ∀ c v, Pin c → Q (c.setScore v))
    (hexp : ∀ (s : AIState) (c : MoveTreeNode) (v : Int) (b : Board) (s1 : AIState)
      (c1 : MoveTreeNode) (b1 : Board), Pin c → s.max_depth = M → (dc = 0 ∨ dc ≤ M) →
      recur s (c.setScore v) b (if dc = 0 then color else opposite color) (dc + 1)
        = some (s1, c1, b1) → Q c1) :
    ∀ (slots : List (Option MoveTreeNode)) (s : AIState) (chb : Board)
      (s1 : AIState) (chb1 : Board) (slots1 : List (Option MoveTreeNode)),
    s.max_depth = M → (∀ c, some c ∈ slots → Pin c ∧ c.child = []) →
    scoreSlots E recur color dc slots s chb = some (s1, chb1, slots1) →
    ∀ c1, some c1 ∈ slots1 → Q c1 := by
  intro slots
  induction slots with
  | nil =>
    intro s chb s1 chb1 slots1 _ _ h
    simp only [scoreSlots, Option.some.injEq, Prod.mk.injEq] at h
    obtain ⟨-, -, rfl⟩ := h
    intro c1 hc1
    simp at hc1
  | cons slot rest ih =>
    intro s chb s1 chb1 slots1 hs hin h
    cases slot with
    | none =>
      simp only [scoreSlots, Option.some.injEq, Prod.mk.injEq] at h
      obtain ⟨-, -, rfl⟩ := h
      intro c1 hc1
      exact hleaf c1 (hin c1 hc1).1
    | some c =>
      rw [scoreSlots] at h
      cases hstep : scoreSlot E recur color dc c s chb with
      | none => simp [hstep] at h
      | some r =>
        obtain ⟨s2, chb2, c2⟩ := r
        simp only [hstep] at h
        cases hrest : scoreSlots E recur color dc rest s2 chb2 with
        | none => simp [hrest] at h
        | some r2 =>
          obtain ⟨s3, chb3, slots3⟩ := r2
          simp only [hrest, Option.map_some', Option.some.injEq, Prod.mk.injEq] at h
          obtain ⟨-, -, rfl⟩ := h
          have hpin := hin c (List.mem_cons_self _ _)
          have hmd := (scoreSlot_spec E recur hrec color dc c s chb s2 chb2 c2 (by omega)
            hpin.2 hstep).2.1
          intro c1 hc1
          simp only [List.mem_cons, Option.some.injEq] at hc1
          rcases hc1 with rfl | hc1
          · obtain ⟨v, hcase⟩ := scoreSlot_cases E recur color dc c s chb s2 chb2 c1 (by omega) hstep
            rcases hcase with ⟨hcond, b, b1, hr⟩ | ⟨-, rfl, -⟩
            · exact hexp s c v b s2 c1 b1 hpin.1 hs (by rw [← hs]; exact hcond) hr
            · exact hscored c v hpin.1
          · exact ih s2 chb2 s3 chb3 slots3 (by rw [hmd, hs])
              (fun c hc => hin c (List.mem_cons_of_mem _ hc)) hrest c1 hc1

/-! ## Parent links and plies -/

theorem linkedBy_eq (next : Nat → Nat) (t : MoveTreeNode) :
    t.LinkedBy next = slotsLinkedBy next t.self t.depth t.child := by
  cases t
  simp only [MoveTreeNode.LinkedBy, MoveTreeNode.self, MoveTreeNode.depth, MoveTreeNode.child]

theorem slotsLinkedBy_iff (next : Nat → Nat) (pself pdepth : Nat) :
    ∀ (l : List (Option MoveTreeNode)),
      slotsLinkedBy next pself pdepth l
        ↔ ∀ c, some c ∈ l → c.parent = some pself ∧ c.depth = next pdepth ∧ c.LinkedBy next := by
  intro l
  induction l with
  | nil => simp [slotsLinkedBy]
  | cons slot rest ih =>
    cases slot with
    | none =>
      simp only [slotsLinkedBy, ih, List.mem_cons, reduceCtorEq, false_or]
    | some c =>
      simp only [slotsLinkedBy, ih, List.mem_cons, Option.some.injEq]
      constructor
      · rintro ⟨h1, h2, h3, h4⟩ c' (rfl | hc')
        · exact ⟨h1, h2, h3⟩
        · exact h4 c' hc'
      · intro h
        exact ⟨(h c (Or.inl rfl)).1, (h c (Or.inl rfl)).2.1, (h c (Or.inl rfl)).2.2,
          fun c' hc' => h c' (Or.inr hc')⟩

/-- After a call that returns, the nodes below the expanded node are linked to their parents,
with `depth` one more than the parent's as `next` computes it, when `next` agrees with the
`unsigned short` sum `depth_count + 1` up to ply `max_depth + 1`. -/
theorem create_linked (E : Env) (next : Nat → Nat) :
    ∀ (fuel : Nat) (s : AIState) (curr : Option MoveTreeNode) (chb : Board) (color : Int)
      (dc : Nat) (s1 : AIState) (node1 : MoveTreeNode) (chb1 : Board),
    s.max_depth < 65535 → (∀ d, d ≤ s.max_depth + 1 → (d + 1) % 65536 = next d) →
    dc ≤ s.max_depth + 1 → (∀ node, curr = some node → node.depth = dc) →
    _createAIMoveTree E fuel s curr chb color dc = some (s1, node1, chb1) →
    node1.LinkedBy next ∧ node1.depth = dc := by
  intro fuel
  induction fuel with
  | zero => intro s curr chb color dc s1 node1 chb1 _ _ _ _ h; simp [create_zero] at h
  | succ fuel ih =>
    intro s curr chb color dc s1 node1 chb1 hmax hnext hdc hcurr h
    obtain ⟨s0, node0, sF, chbF, slots0, slots1, hinit, hfill, hscore, hnode⟩ :=
      create_unfold E fuel s curr chb color dc s1 node1 chb1 h
    obtain ⟨hmd0, -, hroot0, hnode0⟩ := create_init s curr dc s0 node0 hinit
    have hdepth0 : node0.depth = dc := by
      by_cases h0 : dc = 0
      · rw [hroot0 h0, h0]; rfl
      · exact hcurr node0 (hnode0 h0).1
    obtain ⟨-, hmdF, -, -, -, -, -, hchF⟩ := fillSlots_spec E color dc node0 _ _ _ _ _ _ _ _ hfill
    obtain ⟨k1, -, -, -, -, k6, k7, -⟩ := setChild_fields node0 slots1
    have hall := scoreSlots_forall E _ (create_recurOK E fuel) color dc s.max_depth hmax
      (fun c => c.parent = some node0.self ∧ c.depth = (dc + 1) % 65536 ∧ c.child = [])
      (fun c => c.parent = some node0.self ∧ c.depth = next dc ∧ c.LinkedBy next)
      (by
        intro c ⟨hp, hd, hch⟩
        refine ⟨hp, by rw [hd]; exact hnext dc hdc, ?_⟩
        rw [linkedBy_eq, hch]
        simp [slotsLinkedBy])
      (by
        intro c v ⟨hp, hd, hch⟩
        obtain ⟨-, -, -, -, -, f6, f7, f8⟩ := setScore_fields c v
        refine ⟨by rw [f8]; exact hp, by rw [f6, hd]; exact hnext dc hdc, ?_⟩
        rw [linkedBy_eq, f7, hch]
        simp [slotsLinkedBy])
      (by
        intro s' c v b s2 c2 b2 ⟨hp, hd, hch⟩ hs' hcond hr
        obtain ⟨-, -, -, -, -, f6, f7, f8⟩ := setScore_fields c v
        have hmod : (dc + 1) % 65536 = dc + 1 := Nat.mod_eq_of_lt (by omega)
        obtain ⟨hl, hd2⟩ := ih s' (some (c.setScore v)) b _ (dc + 1) s2 c2 b2 (by omega)
          (by rw [hs']; exact hnext) (by omega)
          (by
            intro node hn
            simp only [Option.some.injEq] at hn
            rw [← hn, f6, hd, hmod])
          hr
        obtain ⟨-, -, -, -, -, hset, -⟩ :=
          create_spec E fuel s' (some (c.setScore v)) b _ (dc + 1) s2 c2 b2 (by omega) hr
        obtain ⟨node, hn, hc2, -⟩ := hset (by omega)
        simp only [Option.some.injEq] at hn
        subst hn
        obtain ⟨-, -, -, -, -, g6, -, g8⟩ := setChild_fields (c.setScore v) c2.child
        rw [← hc2] at g6 g8
        exact ⟨by rw [g8, f8]; exact hp, by rw [g6, f6, hd]; exact hnext dc hdc, hl⟩)
      slots0 sF (E.getAllMoves chb color).1 s1 chb1 slots1 (by rw [hmdF, hmd0])
      (fun c hc => ⟨⟨(hchF c hc).2.2.2.2.2.1, (hchF c hc).2.2.2.2.1, (hchF c hc).2.2.2.1⟩,
        (hchF c hc).2.2.2.1⟩)
      (by
        have hbF := (fillSlots_spec E color dc node0 _ _ _ _ _ _ _ _ hfill).1
        rw [← hbF]
        exact hscore)
    rw [hnode]
    refine ⟨?_, by rw [k6]; exact hdepth0⟩
    rw [linkedBy_eq, k1, k6, k7, hdepth0, slotsLinkedBy_iff]
    exact hall

/-! ## The colours of the nodes -/

theorem coloredFor_eq (c : Int) (ply : Nat) (pc : Option Int) (t : MoveTreeNode) :
    t.ColoredFor c ply pc
      = (t.color = (if ply ≤ 2 then some c else pc.map opposite)
          ∧ slotsColoredFor c (ply + 1) t.color t.child) := by
  cases t
  simp only [MoveTreeNode.ColoredFor, MoveTreeNode.color, MoveTreeNode.child]

theorem slotsColoredFor_iff (c : Int) (ply : Nat) (pc : Option Int) :
    ∀ (l : List (Option MoveTreeNode)),
      slotsColoredFor c ply pc l ↔ ∀ t, some t ∈ l → t.ColoredFor c ply pc := by
  intro l
  induction l with
  | nil => simp [slotsColoredFor]
  | cons slot rest ih =>
    cases slot with
    | none =>
      simp only [slotsColoredFor, ih, List.mem_cons, reduceCtorEq, false_or]
    | some t =>
      simp only [slotsColoredFor, ih, List.mem_cons, Option.some.injEq]
      constructor
      · rintro ⟨h1, h2⟩ t' (rfl | ht')
        · exact h1
        · exact h2 t' ht'
      · intro h
        exact ⟨h t (Or.inl rfl), fun t' ht' => h t' (Or.inr ht')⟩

/-- After a call that returns, the nodes below the expanded node carry the colours of a
search for `c`, when the call at ply 0 or 1 runs for `c` and a call at a deeper ply runs for
the opposite of the colour of the node that it expands. -/
theorem create_colored (E : Env) (c : Int) :
    ∀ (fuel : Nat) (s : AIState) (curr : Option MoveTreeNode) (chb : Board) (col : Int)
      (dc : Nat) (s1 : AIState) (node1 : MoveTreeNode) (chb1 : Board),
    s.max_depth < 65535 → dc ≤ s.max_depth + 1 → (dc ≤ 1 → col = c) →
    (2 ≤ dc → ∃ node pcol, curr = some node ∧ node.color = some pcol ∧ col = opposite pcol) →
    _createAIMoveTree E fuel s curr chb col dc = some (s1, node1, chb1) →
    slotsColoredFor c (dc + 1) node1.color node1.child := by
  intro fuel
  induction fuel with
  | zero => intro s curr chb col dc s1 node1 chb1 _ _ _ _ h; simp [create_zero] at h
  | succ fuel ih =>
    intro s curr chb col dc s1 node1 chb1 hmax hdc hlow hhigh h
    obtain ⟨s0, node0, sF, chbF, slots0, slots1, hinit, hfill, hscore, hnode⟩ :=
      create_unfold E fuel s curr chb col dc s1 node1 chb1 h
    obtain ⟨hmd0, -, hroot0, hnode0⟩ := create_init s curr dc s0 node0 hinit
    obtain ⟨hbF, hmdF, -, -, -, -, -, hchF⟩ :=
      fillSlots_spec E col dc node0 _ _ _ _ _ _ _ _ hfill
    obtain ⟨-, -, -, k4, -, -, k7, -⟩ := setChild_fields node0 slots1
    have hcolor : some col = (if dc + 1 ≤ 2 then some c else node0.color.map opposite) := by
      by_cases h1 : dc ≤ 1
      · rw [if_pos (by omega), hlow h1]
      · rw [if_neg (by omega)]
        obtain ⟨node, pcol, hn, hpc, hcol⟩ := hhigh (by omega)
        obtain ⟨hn0, -⟩ := hnode0 (by omega)
        rw [hn] at hn0
        simp only [Option.some.injEq] at hn0
        subst hn0
        rw [hpc, hcol]
        rfl
    have hall := scoreSlots_forall E _ (create_recurOK E fuel) col dc s.max_depth hmax
      (fun t => t.color = some col ∧ t.child = [])
      (fun t => t.ColoredFor c (dc + 1) node0.color)
      (by
        intro t ⟨hc, hch⟩
        rw [coloredFor_eq, hc, hch]
        exact ⟨hcolor, by simp [slotsColoredFor]⟩)
      (by
        intro t v ⟨hc, hch⟩
        obtain ⟨-, -, -, f4, -, -, f7, -⟩ := setScore_fields t v
        rw [coloredFor_eq, f4, f7, hc, hch]
        exact ⟨hcolor, by simp [slotsColoredFor]⟩)
      (by
        intro s' t v b s2 t2 b2 ⟨hc, hch⟩ hs' hcond hr
        obtain ⟨-, -, -, f4, -, -, -, -⟩ := setScore_fields t v
        have hsub := ih s' (some (t.setScore v)) b _ (dc + 1) s2 t2 b2 (by omega) (by omega)
          (by
            intro h1
            have h0 : dc = 0 := by omega
            rw [if_pos h0]
            exact hlow (by omega))
          (by
            intro h2
            have h0 : dc ≠ 0 := by omega
            rw [if_neg h0]
            exact ⟨t.setScore v, col, rfl, by rw [f4]; exact hc, rfl⟩)
          hr
        obtain ⟨-, -, -, -, -, hset, -⟩ :=
          create_spec E fuel s' (some (t.setScore v)) b _ (dc + 1) s2 t2 b2 (by omega) hr
        obtain ⟨node, hn, ht2, -⟩ := hset (by omega)
        simp only [Option.some.injEq] at hn
        subst hn
        obtain ⟨-, -, -, g4, -, -, -, -⟩ := setChild_fields (t.setScore v) t2.child
        rw [← ht2] at g4
        rw [coloredFor_eq]
        refine ⟨by rw [g4, f4, hc]; exact hcolor, hsub⟩)
      slots0 sF (E.getAllMoves chb col).1 s1 chb1 slots1 (by rw [hmdF, hmd0])
      (fun t ht => ⟨⟨(hchF t ht).1, (hchF t ht).2.2.2.1⟩, (hchF t ht).2.2.2.1⟩)
      (by rw [← hbF]; exact hscore)
    rw [hnode, k4, k7, slotsColoredFor_iff]
    exact hall

/-- C19: in the tree that `getAImove` builds for the colour `color`, every node at ply 1 and
at ply 2 has the colour `color`, and every node at a ply from 3 on has the colour opposite
to its parent's. -/
theorem C19_colours_by_ply (E : Env) (s : AIState) (chb : Board) (color : Int) (depth : Nat)
    (hd : depth ≠ 0) (hlt : depth < 65536) (hc : color = BLACK ∨ color = WHITE) :
    ∃ r top, getAImove E s chb color depth = some r ∧ r.top = some top
      ∧ slotsColoredFor color 1 none top.child := by
  obtain ⟨s1, top, chb1, hcall, hget⟩ := getAImove_valid E s chb color depth hd hlt hc
  have hcol := create_colored E color _ _ _ _ _ _ _ _ _ (by simp only; omega) (by omega)
    (fun _ => rfl) (fun h => absurd h (by omega)) hcall
  obtain ⟨-, -, -, -, -, -, hroot⟩ :=
    create_spec E _ _ _ _ _ _ _ _ _ (by simp only; omega) hcall
  refine ⟨_, top, hget, rfl, ?_⟩
  rw [slotsColoredFor_iff] at hcol ⊢
  intro t ht
  have := hcol t ht
  rw [coloredFor_eq] at this ⊢
  simpa using this

theorem C19_colours_by_ply_witness :
    ∃ r top, getAImove demoEnv2 demoState demoBoard2 WHITE 3 = some r ∧ r.top = some top
      ∧ slotsColoredFor WHITE 1 none top.child :=
  C19_colours_by_ply demoEnv2 demoState demoBoard2 WHITE 3 (by decide) (by decide) (Or.inr rfl)

/-- The colours along one path of the tree of the witness of C19: White at ply 1 and 2, Black
at ply 3, White at ply 4. -/
theorem colours_demo :
    ((getAImove demoEnv2 demoState demoBoard2 WHITE 3).bind (fun r => r.top)).map
        (fun top =>
          [(top.childAt 0).bind (fun c => c.color),
           ((top.childAt 0).bind (fun c => c.childAt 1)).bind (fun c => c.color),
           (((top.childAt 0).bind (fun c => c.childAt 1)).bind (fun c => c.childAt 0)).bind
              (fun c => c.color),
           ((((top.childAt 0).bind (fun c => c.childAt 1)).bind (fun c => c.childAt 0)).bind
              (fun c => c.childAt 0)).bind (fun c => c.color)])
      = some [some WHITE, some WHITE, some BLACK, some WHITE] := by
  decide

/-! ## The depth field at ply 65536 -/

/-- The iteration of the scoring loop on a node, with the board and score written out. -/
theorem scoreSlot_cases_explicit (E : Env)
    (recur : AIState → MoveTreeNode → Board → Int → Nat → Option (AIState × MoveTreeNode × Board))
    (color : Int) (dc : Nat) (c : MoveTreeNode) (s : AIState) (chb : Board)
    (s1 : AIState) (chb1 : Board) (c1 : MoveTreeNode) (hmax : s.max_depth < 65535)
    (h : scoreSlot E recur color dc c s chb = some (s1, chb1, c1)) :
    ∃ c_color c_end, c.color = some c_color ∧ c.end_ = some c_end
      ∧ (((dc = 0 ∨ dc ≤ s.max_depth) ∧ ∃ b1,
            recur s (c.setScore (_Evaluate (E._makeMove chb c.start c_end c_color false).1 color))
              (E._makeMove chb c.start c_end c_color false).1
              (if dc = 0 then color else opposite color) (dc + 1) = some (s1, c1, b1))
          ∨ (¬ (dc = 0 ∨ dc ≤ s.max_depth)
              ∧ c1 = c.setScore (_Evaluate (E._makeMove chb c.start c_end c_color false).1 color)
              ∧ s1 = s)) := by
  unfold scoreSlot at h
  simp only [_copyBoard] at h
  split at h
  · rename_i c_color c_end hcol hen
    refine ⟨c_color, c_end, hcol, hen, ?_⟩
    by_cases h0 : dc = 0
    · left
      refine ⟨Or.inl h0, ?_⟩
      simp only [h0, if_true, Option.map_eq_some', Prod.mk.injEq] at h ⊢
      obtain ⟨⟨s2, c2, b2⟩, hr, rfl, -, rfl⟩ := h
      exact ⟨b2, hr⟩
    · by_cases hle : dc ≤ s.max_depth
      · left
        refine ⟨Or.inr hle, ?_⟩
        have hmod : (dc + 1) % 65536 = dc + 1 := Nat.mod_eq_of_lt (by omega)
        simp only [h0, hle, if_true, if_false, hmod, Option.map_eq_some', Prod.mk.injEq] at h ⊢
        obtain ⟨⟨s2, c2, b2⟩, hr, rfl, -, rfl⟩ := h
        exact ⟨b2, hr⟩
      · right
        simp only [h0, hle, if_false, Option.map_some', Option.some.injEq, Prod.mk.injEq] at h
        obtain ⟨rfl, -, rfl⟩ := h
        exact ⟨fun hh => hh.elim h0 hle, rfl, rfl⟩
  · simp at h

theorem chain_candidates (chb : Board) (col : Int) :
    candidateSlots MOVE_COUNT (candidates chainEnv chb col)
      = some ⟨('a', '2'), ('a', '3')⟩ :: List.replicate 49 none := by
  have h : candidates chainEnv chb col = [⟨('a', '2'), ('a', '3')⟩] := by
    simp [candidates, tempMoves, chainEnv, chainMoves, List.ofFn_succ]
    decide
  rw [h]
  decide

/-- With `chainEnv`, a call for a side whose pruning test, if any, compares equal evaluations
keeps its single candidate: slot 0 of the expanded node holds a node. -/
theorem chain_first_child (fuel : Nat) (s : AIState) (curr : Option MoveTreeNode)
    (chb : Board) (col : Int) (dc : Nat) (s1 : AIState) (node1 : MoveTreeNode) (chb1 : Board)
    (hmax : s.max_depth < 65535) (hcpu : s.CPU_PLAYER = WHITE)
    (hcol : col = WHITE ∨ col = BLACK)
    (hscore : col ≠ WHITE → node1.score = some (_Evaluate chb WHITE))
    (h : _createAIMoveTree chainEnv fuel s curr chb col dc = some (s1, node1, chb1)) :
    ∃ c1 rest, node1.child = some c1 :: rest := by
  have hc := create_candidates chainEnv fuel s curr chb col dc s1 node1 chb1 hmax h
  rw [chain_candidates, hcpu] at hc
  cases hchild : node1.child with
  | nil => rw [hchild] at hc; cases hc
  | cons slot rest =>
    rw [hchild] at hc
    cases hc with
    | cons hslot _ =>
      cases slot with
      | some c1 => exact ⟨c1, rest, rfl⟩
      | none =>
        exfalso
        obtain ⟨hne, sc, hsc, hgt⟩ := hslot
        have hb : col = BLACK := by
          rcases hcol with hw | hb
          · exact absurd hw hne
          · exact hb
        rw [hscore hne] at hsc
        simp only [Option.some.injEq] at hsc
        subst hb
        have hev : (_evaluateNext chainEnv (chainEnv.getAllMoves chb BLACK).1 (opposite BLACK)
            ('a', '2') ('a', '3')).2 = _Evaluate chb WHITE := rfl
        simp only [] at hgt
        rw [hev, ← hsc] at hgt
        exact lt_irrefl _ hgt

/-- With `chainEnv` and `max_depth = 65534` (that is `depth = 65535`), the subtree that a call
at ply `dc` builds is not linked with `depth = parent's depth + 1`: the path below it reaches
the call at ply 65535, whose children get the `depth` 65536 mod 65536 = 0. -/
theorem chain_not_linked :
    ∀ (k fuel : Nat) (s : AIState) (curr : Option MoveTreeNode) (chb : Board) (col : Int)
      (dc : Nat),
    s.max_depth = 65534 → s.CPU_PLAYER = WHITE → dc + k = 65535 → k + 1 ≤ fuel →
    (col = WHITE ∨ col = BLACK) → (dc = 0 → col = WHITE) →
    (∀ node, curr = some node → node.depth = dc) →
    (dc ≠ 0 → ∃ node v, curr = some node ∧ node.score = some v
      ∧ (col ≠ WHITE → v = _Evaluate chb WHITE)) →
    ∃ s1 node1 chb1,
      _createAIMoveTree chainEnv fuel s curr chb col dc = some (s1, node1, chb1)
        ∧ ¬ node1.LinkedBy (fun d => d + 1) := by
  intro k
  induction k with
  | zero =>
    intro fuel s curr chb col dc hmd hcpu hk hfuel hcol hroot hdepth hnode
    obtain ⟨r, hr⟩ := create_total chainEnv fuel s curr chb col dc (by omega) (by omega)
      (by omega) (fun h => by rw [hcpu]; exact hroot h)
      (fun h => by obtain ⟨node, v, h1, h2, -⟩ := hnode h; exact ⟨node, v, h1, h2⟩)
    obtain ⟨s1, node1, chb1⟩ := r
    refine ⟨s1, node1, chb1, hr, ?_⟩
    intro hlinked
    obtain ⟨-, -, -, -, -, hset, -⟩ := create_spec chainEnv fuel s curr chb col dc s1 node1 chb1
      (by omega) hr
    obtain ⟨node, hn, hn1, -⟩ := hset (by omega)
    obtain ⟨node', v, hn', hv, hvw⟩ := hnode (by omega)
    rw [hn] at hn'
    simp only [Option.some.injEq] at hn'
    subst hn'
    have hsc1 : node1.score = some v := by
      rw [hn1, (setChild_fields node node1.child).2.2.2.2.1]; exact hv
    obtain ⟨c1, rest, hchild⟩ := chain_first_child fuel s curr chb col dc s1 node1 chb1
      (by omega) hcpu hcol (fun hne => by rw [hsc1, hvw hne]) hr
    obtain ⟨hmod, hd1⟩ := create_linked chainEnv (fun d => (d + 1) % 65536) fuel s curr
      chb col dc s1 node1 chb1 (by omega) (fun _ _ => rfl) (by omega) hdepth hr
    rw [linkedBy_eq, slotsLinkedBy_iff] at hmod hlinked
    have h1 := (hmod c1 (by rw [hchild]; exact List.mem_cons_self _ _)).2.1
    have h2 := (hlinked c1 (by rw [hchild]; exact List.mem_cons_self _ _)).2.1
    rw [hd1] at h1 h2
    omega
  | succ k ih =>
    intro fuel s curr chb col dc hmd hcpu hk hfuel hcol hroot hdepth hnode
    obtain ⟨r, hr⟩ := create_total chainEnv fuel s curr chb col dc (by omega) (by omega)
      (by omega) (fun h => by rw [hcpu]; exact hroot h)
      (fun h => by obtain ⟨node, v, h1, h2, -⟩ := hnode h; exact ⟨node, v, h1, h2⟩)
    obtain ⟨s1, node1, chb1⟩ := r
    refine ⟨s1, node1, chb1, hr, ?_⟩
    intro hlinked
    cases fuel with
    | zero => omega
    | succ fuel =>
      obtain ⟨s0, node0, sF, chbF, slots0, slots1, hinit, hfill, hscore, hnode1⟩ :=
        create_unfold chainEnv fuel s curr chb col dc s1 node1 chb1 hr
      obtain ⟨hmd0, hcpu0, hroot0, hnode0⟩ := create_init s curr dc s0 node0 hinit
      obtain ⟨hbF, hmdF, hcpuF, -, -, -, -, hchF⟩ :=
        fillSlots_spec chainEnv col dc node0 _ _ _ _ _ _ _ _ hfill
      obtain ⟨-, -, -, -, hsame, -, -⟩ :=
        scoreSlots_spec chainEnv _ (create_recurOK chainEnv fuel) col dc slots0 sF chbF s1 chb1
          slots1 (by omega) (fun c hc => (hchF c hc).2.2.2.1) hscore
      obtain ⟨-, -, -, -, k5, -, k7, -⟩ := setChild_fields node0 slots1
      have hsc1 : col ≠ WHITE → node1.score = some (_Evaluate chb WHITE) := by
        intro hne
        have h0 : dc ≠ 0 := fun h => hne (hroot h)
        obtain ⟨node, v, hn, hv, hvw⟩ := hnode h0
        obtain ⟨hn0, -⟩ := hnode0 h0
        rw [hn] at hn0
        simp only [Option.some.injEq] at hn0
        subst hn0
        rw [hnode1, k5, hv, hvw hne]
      obtain ⟨c1, rest, hchild⟩ := chain_first_child (fuel + 1) s curr chb col dc s1 node1 chb1
        (by omega) hcpu hcol hsc1 hr
      have hslots1 : slots1 = some c1 :: rest := by rw [← k7, ← hnode1]; exact hchild
      rw [hslots1] at hsame hscore
      cases hsame with
      | cons hab hrest =>
        rename_i a rest0
        cases a with
        | none => exact absurd hab (by simp [SameSlot])
        | some c0 =>
          rw [scoreSlots] at hscore
          cases hstep : scoreSlot chainEnv
              (fun s c b col d => _createAIMoveTree chainEnv fuel s (some c) b col d)
              col dc c0 sF chbF with
          | none => simp [hstep] at hscore
          | some r2 =>
            obtain ⟨s2, chb2, c2⟩ := r2
            simp only [hstep] at hscore
            cases hrest2 : scoreSlots chainEnv
                (fun s c b col d => _createAIMoveTree chainEnv fuel s (some c) b col d)
                col dc rest0 s2 chb2 with
            | none => simp [hrest2] at hscore
            | some r3 =>
              simp only [hrest2, Option.map_some', Option.some.injEq, Prod.mk.injEq,
                List.cons.injEq] at hscore
              obtain ⟨-, -, hc2, -⟩ := hscore
              subst hc2
              obtain ⟨c_color, c_end, -, -, hcase⟩ := scoreSlot_cases_explicit chainEnv _ col dc
                c0 sF chbF s2 chb2 c2 (by omega) hstep
              have hc0 := hchF c0 (List.mem_cons_self _ _)
              rcases hcase with ⟨-, b1, hrec⟩ | ⟨hno, -, -⟩
              · have hbrd : (chainEnv._makeMove chbF c0.start c_end c_color false).1 = chb := by
                  rw [hbF]; rfl
                rw [hbrd] at hrec
                obtain ⟨s1', node1', chb1', hcall, hnl⟩ := ih fuel sF
                  (some (c0.setScore (_Evaluate chb col))) chb
                  (if dc = 0 then col else opposite col) (dc + 1)
                  (by rw [hmdF, hmd0, hmd]) (by rw [hcpuF, hcpu0, hcpu]) (by omega) (by omega)
                  (by
                    by_cases h0 : dc = 0
                    · rw [if_pos h0]; exact hcol
                    · rw [if_neg h0]
                      rcases hcol with h | h
                      · right; rw [h]; decide
                      · left; rw [h]; decide)
                  (fun h => absurd h (by omega))
                  (by
                    intro node hn
                    simp only [Option.some.injEq] at hn
                    rw [← hn, (setScore_fields c0 _).2.2.2.2.2.1, hc0.2.2.2.2.1]
                    exact Nat.mod_eq_of_lt (by omega))
                  (by
                    intro _
                    refine ⟨_, _, rfl, (setScore_fields c0 _).2.2.2.2.1, ?_⟩
                    intro hne
                    by_cases h0 : dc = 0
                    · rw [if_pos h0] at hne
                      exact absurd (hroot h0) hne
                    · rw [if_neg h0] at hne
                      rcases hcol with h | h
                      · rw [h]
                      · rw [h] at hne
                        exact absurd (by decide) hne)
                rw [hrec] at hcall
                simp only [Option.some.injEq, Prod.mk.injEq] at hcall
                obtain ⟨-, hcc, -⟩ := hcall
                subst hcc
                rw [linkedBy_eq, slotsLinkedBy_iff] at hlinked
                exact hnl (hlinked c2 (by rw [hchild]; exact List.mem_cons_self _ _)).2.2
              · apply hno
                rw [hmdF, hmd0, hmd]
                right
                omega

/-- What holds of the links in every tree that `getAImove` builds: the root has `depth` 0 and
no parent; every other node has as `parent` the node whose slot holds it and as `depth` the
`unsigned short` sum of its parent's `depth` and 1, which is the parent's `depth` plus one
whenever `depth` is below 65535. -/
theorem getAImove_linked (E : Env) (s : AIState) (chb : Board) (color : Int) (depth : Nat)
    (hd : depth ≠ 0) (hlt : depth < 65536) (hc : color = BLACK ∨ color = WHITE) :
    ∃ r top, getAImove E s chb color depth = some r ∧ r.top = some top
      ∧ top.depth = 0 ∧ top.parent = none ∧ top.start = ('T', Char.ofNat 0)
      ∧ top.LinkedBy (fun d => (d + 1) % 65536)
      ∧ (depth < 65535 → top.LinkedBy (fun d => d + 1)) := by
  obtain ⟨s1, top, chb1, hcall, hget⟩ := getAImove_valid E s chb color depth hd hlt hc
  obtain ⟨-, -, -, -, -, -, hroot⟩ :=
    create_spec E _ _ _ _ _ _ _ _ _ (by simp only; omega) hcall
  obtain ⟨-, hd0, hp0, -, hst0, -⟩ := hroot rfl
  refine ⟨_, top, hget, rfl, hd0, hp0, hst0, ?_, ?_⟩
  · exact (create_linked E _ _ _ _ _ _ _ _ _ _ (by simp only; omega) (fun _ _ => rfl)
      (by omega) (fun node hn => by simp at hn) hcall).1
  · intro hsmall
    refine (create_linked E _ _ _ _ _ _ _ _ _ _ (by simp only; omega) ?_
      (by omega) (fun node hn => by simp at hn) hcall).1
    intro d hdle
    simp only at hdle
    exact Nat.mod_eq_of_lt (by omega)

/-- C20 fails on the code at `depth = 65535`: the tree that `getAImove` builds for a position
with one candidate at every node has a sentinel root (`depth` 0, no parent), but not every
node has a `depth` one more than its parent's: the builder goes one ply beyond `depth`, and
the nodes at ply 65536 get the `unsigned short` value 65535 + 1 = 0. -/
theorem C20_depth_field_wraps_at_ply_65536 :
    ∃ r top, getAImove chainEnv demoState demoBoard WHITE 65535 = some r ∧ r.top = some top
      ∧ top.depth = 0 ∧ top.parent = none ∧ ¬ top.LinkedBy (fun d => d + 1) := by
  obtain ⟨r, top, hget, htop, hd0, hp0, -, -, -⟩ :=
    getAImove_linked chainEnv demoState demoBoard WHITE 65535 (by decide) (by decide)
      (Or.inr rfl)
  obtain ⟨s1, top', chb1, hcall, hget'⟩ :=
    getAImove_valid chainEnv demoState demoBoard WHITE 65535 (by decide) (by decide) (Or.inr rfl)
  obtain ⟨s2, top2, chb2, hcall2, hnl⟩ := chain_not_linked 65535 (65535 + 1)
    ⟨65535 - 1, WHITE, [], demoState.nextBlock, demoState.freed⟩ none demoBoard WHITE 0
    rfl rfl rfl (le_refl _) (Or.inl rfl) (fun _ => rfl) (fun node hn => by simp at hn)
    (fun h => absurd rfl h)
  rw [hcall] at hcall2
  simp only [Option.some.injEq, Prod.mk.injEq] at hcall2
  obtain ⟨-, htt, -⟩ := hcall2
  rw [hget] at hget'
  simp only [Option.some.injEq] at hget'
  have htop' : r.top = some top' := by rw [hget']
  rw [htop] at htop'
  simp only [Option.some.injEq] at htop'
  refine ⟨r, top, hget, htop, hd0, hp0, ?_⟩
  rw [htop', htt]
  exact hnl


/-- A call of `_createAIMoveTree` returns, given fuel for the plies that remain: at ply 0 the
side to move is `CPU_PLAYER`, and at a deeper ply the node to expand exists and has its
score assigned in case the side to move is not `CPU_PLAYER` (the case in which the pruning
test reads it). -/
theorem create_returns (E : Env) (fuel : Nat) (s : AIState) (curr : Option MoveTreeNode)
    (chb : Board) (color : Int) (dc : Nat)
    (hmax : s.max_depth < 65535) (hdc : dc ≤ s.max_depth + 1)
    (hfuel : s.max_depth + 2 ≤ fuel + dc) (hroot : dc = 0 → color = s.CPU_PLAYER)
    (hnode : dc ≠ 0 → ∃ node, curr = some node
      ∧ (color ≠ s.CPU_PLAYER → ∃ v, node.score = some v)) :
    ∃ r, _createAIMoveTree E fuel s curr chb color dc = some r := by
  cases fuel with
  | zero => omega
  | succ fuel =>
    have hrec := create_recurOK E fuel
    have hinit : ∃ s0 node0,
        (if dc = 0 then
          some (_addToAIHeap (malloc s).1 (malloc s).2,
            MoveTreeNode.mk (malloc s).1 ('T', Char.ofNat 0) none none none 0 [] none)
        else curr.map (fun node => (s, node))) = some (s0, node0)
        ∧ s0.max_depth = s.max_depth ∧ s0.CPU_PLAYER = s.CPU_PLAYER
        ∧ (dc ≠ 0 → color ≠ s.CPU_PLAYER → ∃ v, node0.score = some v) := by
      by_cases h0 : dc = 0
      · simp only [h0, if_true]
        exact ⟨_, _, rfl, rfl, rfl, fun h => absurd rfl h⟩
      · obtain ⟨node, hc, hv⟩ := hnode h0
        simp only [h0, if_false, hc, Option.map_some']
        exact ⟨_, _, rfl, rfl, rfl, fun _ => hv⟩
    obtain ⟨s0, node0, hinit, hmd0, hcpu0, hsc0⟩ := hinit
    obtain ⟨rF, hfill⟩ := fillSlots_total E color dc node0 MOVE_COUNT s0 (E.getAllMoves chb color).1
      (List.ofFn (fun i : Fin 6 =>
        if color = BLACK then (E.getAllMoves chb color).2.1 i
        else (E.getAllMoves chb color).2.2 i)) 0 (by simp) (by omega)
      (by
        intro hne
        rw [hcpu0] at hne
        by_cases h0 : dc = 0
        · exact absurd (hroot h0) hne
        · exact hsc0 h0 hne)
    obtain ⟨sF, chbF, slots0⟩ := rF
    obtain ⟨-, hmdF, -, -, -, -, -, hchF⟩ := fillSlots_spec E color dc node0 _ _ _ _ _ _ _ _ hfill
    obtain ⟨rS, hscore⟩ := scoreSlots_total E
      (fun s c b col d => _createAIMoveTree E fuel s (some c) b col d) hrec color dc
      s.max_depth hmax
      (by
        intro hd s2 c1 b col hs2 hv
        have hmod : (dc + 1) % 65536 = dc + 1 := by
          apply Nat.mod_eq_of_lt
          rcases hd with hd | hd <;> omega
        rw [hmod]
        apply create_total E fuel s2 (some c1) b col (dc + 1) (by omega)
          (by rcases hd with hd | hd <;> omega) (by omega) (by omega)
        intro _
        obtain ⟨v, hv⟩ := hv
        exact ⟨c1, v, rfl, hv⟩)
      slots0 sF chbF (by rw [hmdF, hmd0])
      (fun c hc => ⟨⟨color, (hchF c hc).1⟩, (hchF c hc).2.1, (hchF c hc).2.2.2.1⟩)
    obtain ⟨s1, chb1, slots1⟩ := rS
    rw [_createAIMoveTree]
    simp only [hinit, hfill, hscore]
    exact ⟨_, rfl⟩

/-- One iteration of the slot-filling loop gives no result exactly when a candidate is left,
the side to move is not `CPU_PLAYER` and the score of the expanded node is not assigned:
when the pruning test reads a score that was never written. -/
theorem fillSlot_none_iff (E : Env) (color : Int) (dc : Nat) (node : MoveTreeNode)
    (s : AIState) (chb : Board) (tm : List (List MoveNode)) (mlc : Nat)
    (hlen : tm.length = 6) :
    fillSlot E color dc node s chb tm mlc = none
      ↔ (skipNull (tm.drop mlc) mlc ≤ 5 ∧ color ≠ s.CPU_PLAYER ∧ node.score = none) := by
  obtain ⟨h1, h2, h3⟩ := skipNull_spec (tm.drop mlc) mlc
  have hdl : (tm.drop mlc).length = 6 - mlc := by simp [hlen]
  rw [hdl] at h2 h3
  unfold fillSlot
  simp only []
  by_cases hgt : skipNull (tm.drop mlc) mlc > 5
  · rw [if_pos hgt]
    simp only [reduceCtorEq, false_iff, not_and]
    intro hle
    omega
  · rw [if_neg hgt]
    obtain ⟨m, nxt, hm⟩ := h3 (by omega)
    rw [List.getElem?_drop] at hm
    have hidx : mlc + (skipNull (tm.drop mlc) mlc - mlc) = skipNull (tm.drop mlc) mlc := by omega
    rw [hidx] at hm
    simp only [hm]
    by_cases hcpu : color = s.CPU_PLAYER
    · simp only [hcpu, ne_eq, not_true_eq_false, if_false, reduceCtorEq, false_and, and_false]
    · cases hsc : node.score with
      | none =>
        simp only [ne_eq, hcpu, not_false_eq_true, if_true, true_and, and_true, true_iff]
        omega
      | some sc =>
        simp only [ne_eq, hcpu, not_false_eq_true, if_true, reduceCtorEq, and_false, iff_false]
        by_cases hp : (_evaluateNext E chb (if color = BLACK then WHITE else BLACK) m.start m.end_).2 > sc
        · simp only [hp, decide_True, reduceCtorEq, not_false_eq_true]
        · simp only [hp, decide_False, reduceCtorEq, not_false_eq_true]


/-! ## Properties of all nodes of a built tree -/

theorem allBelow_eq (P : MoveTreeNode → Prop) (t : MoveTreeNode) :
    t.AllBelow P = slotsAll P t.child := by
  cases t
  simp only [MoveTreeNode.AllBelow, MoveTreeNode.child]

theorem slotsAll_iff (P : MoveTreeNode → Prop) :
    ∀ (l : List (Option MoveTreeNode)),
      slotsAll P l ↔ ∀ c, some c ∈ l → P c ∧ c.AllBelow P := by
  intro l
  induction l with
  | nil => simp [slotsAll]
  | cons slot rest ih =>
    cases slot with
    | none =>
      simp only [slotsAll, ih, List.mem_cons, reduceCtorEq, false_or]
    | some c =>
      simp only [slotsAll, ih, List.mem_cons, Option.some.injEq]
      constructor
      · rintro ⟨h1, h2, h3⟩ c' (rfl | hc')
        · exact ⟨h1, h2⟩
        · exact h3 c' hc'
      · intro h
        exact ⟨(h c (Or.inl rfl)).1, (h c (Or.inl rfl)).2, fun c' hc' => h c' (Or.inr hc')⟩

/-- After a call that returns, the expanded node has `MOVE_COUNT` slots, and every node below
it has the property `P`, when `P` holds of a node without slots and of a node that was scored
and then given `MOVE_COUNT` slots. -/
theorem create_allBelow (E : Env) (P : MoveTreeNode → Prop)
    (hleaf : ∀ c : MoveTreeNode, c.child = [] → P c)
    (hexp : ∀ (c : MoveTreeNode) (v : Int) (slots : List (Option MoveTreeNode)),
      slots.length = MOVE_COUNT → P ((c.setScore v).setChild slots)) :
    ∀ (fuel : Nat) (s : AIState) (curr : Option MoveTreeNode) (chb : Board) (color : Int)
      (dc : Nat) (s1 : AIState) (node1 : MoveTreeNode) (chb1 : Board),
    s.max_depth < 65535 →
    _createAIMoveTree E fuel s curr chb color dc = some (s1, node1, chb1) →
    node1.AllBelow P ∧ node1.child.length = MOVE_COUNT := by
  intro fuel
  induction fuel with
  | zero => intro s curr chb color dc s1 node1 chb1 _ h; simp [create_zero] at h
  | succ fuel ih =>
    intro s curr chb color dc s1 node1 chb1 hmax h
    obtain ⟨s0, node0, sF, chbF, slots0, slots1, hinit, hfill, hscore, hnode⟩ :=
      create_unfold E fuel s curr chb color dc s1 node1 chb1 h
    obtain ⟨hmd0, -, -, -⟩ := create_init s curr dc s0 node0 hinit
    obtain ⟨hbF, hmdF, -, -, hlenF, -, -, hchF⟩ :=
      fillSlots_spec E color dc node0 _ _ _ _ _ _ _ _ hfill
    obtain ⟨-, -, -, -, hsame, -, -⟩ :=
      scoreSlots_spec E _ (create_recurOK E fuel) color dc slots0 sF chbF s1 chb1 slots1
        (by omega) (fun c hc => (hchF c hc).2.2.2.1) hscore
    obtain ⟨-, -, -, -, -, -, k7, -⟩ := setChild_fields node0 slots1
    have hall := scoreSlots_forall E _ (create_recurOK E fuel) color dc s.max_depth hmax
      (fun c => c.child = [])
      (fun c => P c ∧ c.AllBelow P)
      (by
        intro c hch
        refine ⟨hleaf c hch, ?_⟩
        rw [allBelow_eq, hch]
        simp [slotsAll])
      (by
        intro c v hch
        obtain ⟨-, -, -, -, -, -, f7, -⟩ := setScore_fields c v
        refine ⟨hleaf _ (by rw [f7, hch]), ?_⟩
        rw [allBelow_eq, f7, hch]
        simp [slotsAll])
      (by
        intro s' c v b s2 c2 b2 _ hs' hcond hr
        obtain ⟨hl, hlen2⟩ := ih s' (some (c.setScore v)) b _ (dc + 1) s2 c2 b2 (by omega) hr
        obtain ⟨-, -, -, -, -, hset, -⟩ :=
          create_spec E fuel s' (some (c.setScore v)) b _ (dc + 1) s2 c2 b2 (by omega) hr
        obtain ⟨node, hn, hc2, -⟩ := hset (by omega)
        simp only [Option.some.injEq] at hn
        subst hn
        refine ⟨?_, hl⟩
        rw [hc2]
        exact hexp c v c2.child hlen2)
      slots0 sF chbF s1 chb1 slots1 (by rw [hmdF, hmd0])
      (fun c hc => ⟨(hchF c hc).2.2.2.1, (hchF c hc).2.2.2.1⟩)
      hscore
    rw [hnode]
    refine ⟨?_, ?_⟩
    · rw [allBelow_eq, k7, slotsAll_iff]
      exact hall
    · rw [k7, ← hsame.length_eq, hlenF]


/-! ## The slots of a node expanded for the searching side -/

/-- Slot `i` of the candidate slots is candidate `i`, for `i` below the number of slots. -/
theorem candidateSlots_getElem? (n : Nat) (l : List MoveNode) (i : Nat) (hi : i < n) :
    (candidateSlots n l)[i]? = some l[i]? := by
  unfold candidateSlots
  rw [List.getElem?_take_of_lt hi]
  by_cases hl : i < l.length
  · rw [List.getElem?_append_left (by simpa using hl)]
    simp [List.getElem?_eq_getElem hl]
  · rw [List.getElem?_append_right (by simpa using hl)]
    have h1 : l[i]? = none := List.getElem?_eq_none (by omega)
    rw [h1, List.getElem?_replicate]
    simp only [List.length_map]
    rw [if_pos (by omega)]

/-- The candidate slots hold as many candidates as there are, up to the number of slots. -/
theorem candidateSlots_count (n : Nat) (l : List MoveNode) :
    ((candidateSlots n l).filter Option.isSome).length = min l.length n := by
  unfold candidateSlots
  rw [List.take_append_eq_append_take, List.filter_append, List.length_append]
  have h1 : ((List.take n (List.map some l)).filter Option.isSome).length
      = (List.take n (List.map some l)).length := by
    congr 1
    rw [List.filter_eq_self]
    intro a ha
    have := List.mem_of_mem_take ha
    simp only [List.mem_map] at this
    obtain ⟨m, -, rfl⟩ := this
    rfl
  have h2 : ((List.take (n - (List.map some l).length) (List.replicate n (none : Option MoveNode))).filter
      Option.isSome).length = 0 := by
    rw [List.length_eq_zero, List.filter_eq_nil_iff]
    intro a ha
    have := List.mem_of_mem_take ha
    rw [List.mem_replicate] at this
    rw [this.2]
    simp
  rw [h1, h2, List.length_take, List.length_map]
  omega

/-- Without pruning (the side to move is `CPU_PLAYER`) every slot holds a node with the
squares of its candidate, and is empty where there is no candidate. -/
theorem slotFrom_searching (E : Env) (cpu : Int) (score : Option Int) (chb : Board) :
    ∀ (ms : List (Option MoveNode)) (slots : List (Option MoveTreeNode)),
      List.Forall₂ (SlotFrom E cpu cpu score chb) ms slots →
      slots.map slotMove = ms.map (fun m => m.map (fun m => (m.start, some m.end_))) := by
  intro ms
  induction ms with
  | nil => intro slots h; cases h; rfl
  | cons m ms ih =>
    intro slots h
    cases h with
    | cons ha hrest =>
      rename_i slot rest
      rw [List.map_cons, List.map_cons, ih rest hrest]
      congr 1
      cases m with
      | none =>
        simp only [SlotFrom] at ha
        rw [ha]
        rfl
      | some m =>
        cases slot with
        | none => exact absurd rfl ha.1
        | some c =>
          obtain ⟨h1, h2, -⟩ := ha
          simp only [slotMove, Option.map_some', h1, h2]

/-- After a call for the searching side that returns, the slots of the expanded node hold, in
order, nodes for the first `MOVE_COUNT` candidates. -/
theorem create_searching (E : Env) (fuel : Nat) (s : AIState) (curr : Option MoveTreeNode)
    (chb : Board) (color : Int) (dc : Nat) (s1 : AIState) (node1 : MoveTreeNode) (chb1 : Board)
    (hmax : s.max_depth < 65535) (hcolor : color = s.CPU_PLAYER)
    (h : _createAIMoveTree E fuel s curr chb color dc = some (s1, node1, chb1)) :
    (∀ i m, i < MOVE_COUNT → (candidates E chb color)[i]? = some m →
        ∃ c, node1.childAt i = some c ∧ c.start = m.start ∧ c.end_ = some m.end_)
      ∧ (∀ i, (candidates E chb color).length ≤ i → node1.childAt i = none)
      ∧ node1.childCount = min (candidates E chb color).length MOVE_COUNT := by
  have hcand := create_candidates E fuel s curr chb color dc s1 node1 chb1 hmax h
  rw [← hcolor] at hcand
  have hmap := slotFrom_searching E color _ _ _ _ hcand
  have hget : ∀ i : Nat, (node1.child[i]?).map slotMove
      = ((candidateSlots MOVE_COUNT (candidates E chb color))[i]?).map
          (fun (m : Option MoveNode) => m.map (fun m => (m.start, some m.end_))) := by
    intro i
    rw [← List.getElem?_map, ← List.getElem?_map, hmap]
  refine ⟨?_, ?_, ?_⟩
  · intro i m hi hm
    have := hget i
    rw [candidateSlots_getElem? _ _ _ hi, hm] at this
    simp only [Option.map_some'] at this
    cases hs : node1.child[i]? with
    | none => rw [hs] at this; simp at this
    | some slot =>
      rw [hs] at this
      simp only [Option.map_some', Option.some.injEq] at this
      cases slot with
      | none => simp [slotMove] at this
      | some c =>
        simp only [slotMove, Option.map_some', Option.some.injEq, Prod.mk.injEq] at this
        refine ⟨c, ?_, this.1, this.2⟩
        simp [MoveTreeNode.childAt, List.getD_eq_getElem?_getD, hs]
  · intro i hi
    simp only [MoveTreeNode.childAt, List.getD_eq_getElem?_getD]
    cases hs : node1.child[i]? with
    | none => rfl
    | some slot =>
      have := hget i
      have hlt : i < MOVE_COUNT := by
        have hl := hcand.length_eq
        have : i < node1.child.length := by
          by_contra hge
          rw [List.getElem?_eq_none (by omega)] at hs
          simp at hs
        have hcl : (candidateSlots MOVE_COUNT (candidates E chb color)).length ≤ MOVE_COUNT := by
          simp [candidateSlots]
        omega
      rw [candidateSlots_getElem? _ _ _ hlt, List.getElem?_eq_none hi, hs] at this
      simp only [Option.map_some', Option.map_none', Option.some.injEq] at this
      cases slot with
      | none => rfl
      | some c => simp [slotMove] at this
  · unfold MoveTreeNode.childCount
    rw [← candidateSlots_count MOVE_COUNT (candidates E chb color)]
    have e1 : (node1.child.filter Option.isSome).length
        = ((node1.child.map slotMove).filter Option.isSome).length := by
      rw [List.filter_map, List.length_map]
      congr 2
      funext slot
      cases slot <;> rfl
    have e2 : ((candidateSlots MOVE_COUNT (candidates E chb color)).filter Option.isSome).length
        = (((candidateSlots MOVE_COUNT (candidates E chb color)).map
            (fun m => m.map (fun m => (m.start, some m.end_)))).filter Option.isSome).length := by
      rw [List.filter_map, List.length_map]
      congr 2
      funext m
      cases m <;> rfl
    rw [e1, e2, hmap]


/-- C21: a call of `_createAIMoveTree` that expands a node for the searching side
(`color = CPU_PLAYER`, so that no candidate is pruned) returns, and afterwards the node has
`MOVE_COUNT` = 50 slots; for every `i` below 50 for which the six move lists, taken one after
the other in class order (pawn, king, queen, rook, knight, bishop), have a move `i`, slot `i`
holds a node with the start and end square of that move; the slots from the number of
candidates on are empty (the scan of the exhausted lists stops right after the array, as
`skipNull` has it); the node has `min n 50` children for `n` candidates, so that the candidates
from the 51st on get no node; and no node below it has more than 50 children. -/
theorem C21_searching_side_slots_hold_first_candidates (E : Env) (fuel : Nat) (s : AIState)
    (curr : Option MoveTreeNode) (chb : Board) (color : Int) (dc : Nat)
    (hmax : s.max_depth < 65535) (hdc : dc ≤ s.max_depth + 1)
    (hfuel : s.max_depth + 2 ≤ fuel + dc) (hcolor : color = s.CPU_PLAYER)
    (hnode : dc ≠ 0 → ∃ node, curr = some node) :
    ∃ s1 node1 chb1,
      _createAIMoveTree E fuel s curr chb color dc = some (s1, node1, chb1)
        ∧ node1.child.length = MOVE_COUNT
        ∧ (∀ i m, i < MOVE_COUNT → (candidates E chb color)[i]? = some m →
            ∃ c, node1.childAt i = some c ∧ c.start = m.start ∧ c.end_ = some m.end_)
        ∧ (∀ i, (candidates E chb color).length ≤ i → node1.childAt i = none)
        ∧ node1.childCount = min (candidates E chb color).length MOVE_COUNT
        ∧ node1.AllBelow (fun c => c.childCount ≤ MOVE_COUNT) := by
  obtain ⟨r, hr⟩ := create_returns E fuel s curr chb color dc hmax hdc hfuel (fun _ => hcolor)
    (fun h0 => by
      obtain ⟨node, hn⟩ := hnode h0
      exact ⟨node, hn, fun hne => absurd hcolor hne⟩)
  obtain ⟨s1, node1, chb1⟩ := r
  obtain ⟨h1, h2, h3⟩ := create_searching E fuel s curr chb color dc s1 node1 chb1 hmax hcolor hr
  obtain ⟨h4, h5⟩ := create_allBelow E (fun c => c.childCount ≤ MOVE_COUNT)
    (by
      intro c hc
      simp [MoveTreeNode.childCount, hc])
    (by
      intro c v slots hlen
      simp only [MoveTreeNode.childCount, (setChild_fields (c.setScore v) slots).2.2.2.2.2.2.1]
      rw [← hlen]
      exact List.length_filter_le _ _)
    fuel s curr chb color dc s1 node1 chb1 hmax hr
  exact ⟨s1, node1, chb1, hr, h5, h1, h2, h3, h4⟩

theorem C21_searching_side_slots_hold_first_candidates_witness :
    ∃ s1 node1 chb1,
      _createAIMoveTree crowdedEnv 2 ⟨1, WHITE, [], 0, []⟩ (some demoNode) demoBoard WHITE 1
          = some (s1, node1, chb1)
        ∧ node1.child.length = MOVE_COUNT
        ∧ (∀ i m, i < MOVE_COUNT → (candidates crowdedEnv demoBoard WHITE)[i]? = some m →
            ∃ c, node1.childAt i = some c ∧ c.start = m.start ∧ c.end_ = some m.end_)
        ∧ (∀ i, (candidates crowdedEnv demoBoard WHITE).length ≤ i → node1.childAt i = none)
        ∧ node1.childCount = min (candidates crowdedEnv demoBoard WHITE).length MOVE_COUNT
        ∧ node1.AllBelow (fun c => c.childCount ≤ MOVE_COUNT) :=
  C21_searching_side_slots_hold_first_candidates crowdedEnv 2 ⟨1, WHITE, [], 0, []⟩
    (some demoNode) demoBoard WHITE 1 (by decide) (by decide) (by decide) rfl
    (fun _ => ⟨demoNode, rfl⟩)

/-- With 60 candidates (30 pawn moves, then 30 queen moves) a node expanded for the searching
side gets 50 children: slot 29 holds the last pawn move, slot 49 the 20th queen move, and
there is no slot 50. -/
theorem truncation_demo :
    (candidates crowdedEnv demoBoard WHITE).length = 60
      ∧ ((_createAIMoveTree crowdedEnv 1 ⟨0, WHITE, [], 0, []⟩ (some demoNode) demoBoard WHITE
            1).map (fun r => [r.2.1.child.length, r.2.1.childCount])) = some [50, 50]
      ∧ ((_createAIMoveTree crowdedEnv 1 ⟨0, WHITE, [], 0, []⟩ (some demoNode) demoBoard WHITE
            1).map (fun r => [slotMove (r.2.1.childAt 29), slotMove (r.2.1.childAt 49),
              slotMove (r.2.1.childAt 50)]))
        = some [some (('f', '4'), some ('f', '5')), some (('d', '3'), some ('d', '6')), none] := by
  decide


/-! ## The score that the pruning test reads -/

/-- The scoring loop recurses only into a node that it has just scored, and from ply 0 only
for the colour of the call: restricting the recursive call to such arguments does not change
an iteration. -/
theorem scoreSlot_onScored (E : Env)
    (recur : AIState → MoveTreeNode → Board → Int → Nat → Option (AIState × MoveTreeNode × Board))
    (color : Int) (dc : Nat) (c : MoveTreeNode) (s : AIState) (chb : Board) :
    scoreSlot E (onScored recur color dc) color dc c s chb = scoreSlot E recur color dc c s chb := by
  unfold scoreSlot
  simp only []
  split
  · rename_i c_color c_end hcol hen
    have hsc : ∀ v, (c.setScore v).score.isSome = true := by
      intro v
      rw [(setScore_fields c v).2.2.2.2.1]
      rfl
    by_cases h0 : dc = 0
    · simp only [h0, if_true, onScored, hsc, true_and, forall_const]
    · simp only [h0, if_false, onScored, hsc, true_and, false_implies, if_true]
  · rfl

/-- A call for the side that is not `CPU_PLAYER` on a node without score, with a candidate to
test, gives no result in the model: the read of the unassigned score is not passed over. -/
theorem unassigned_read_demo :
    unassignedRead BLACK unscoredNode ⟨0, WHITE, [], 0, []⟩ (tempMoves demoEnv demoBoard BLACK) 0
      ∧ _createAIMoveTree demoEnv 1 ⟨0, WHITE, [], 0, []⟩ (some unscoredNode) demoBoard BLACK 1
          = none :=
  ⟨by unfold unassignedRead; decide, Option.isNone_iff_eq_none.mp (by decide)⟩

/-- C22: for a valid request (`depth` not 0, a colour that is Black or White), `getAImove`
returns and no pruning test has read an unassigned score.  In the model an iteration of the
slot-filling loop gives no result exactly when its pruning test reads a score that was never
written (first part), and such a failure would leave the whole call without result; the
scoring loop recurses only into a node that it has scored before, and from ply 0 only for the
same colour, which is `CPU_PLAYER` (second part).  The run returns with the root's score still
unassigned, and every node below the root that was expanded (that has slots) has its score
assigned (third part). -/
theorem C22_pruning_test_reads_assigned_score (E : Env) (s : AIState) (chb : Board)
    (color : Int) (depth : Nat)
    (hd : depth ≠ 0) (hlt : depth < 65536) (hc : color = BLACK ∨ color = WHITE) :
    (∀ (col : Int) (dc : Nat) (node : MoveTreeNode) (st : AIState) (b : Board)
        (tm : List (List MoveNode)) (mlc : Nat), tm.length = 6 →
        (fillSlot E col dc node st b tm mlc = none ↔ unassignedRead col node st tm mlc))
      ∧ (∀ (recur : AIState → MoveTreeNode → Board → Int → Nat →
            Option (AIState × MoveTreeNode × Board))
          (col : Int) (dc : Nat) (c : MoveTreeNode) (st : AIState) (b : Board),
          scoreSlot E (onScored recur col dc) col dc c st b = scoreSlot E recur col dc c st b)
      ∧ ∃ r top, getAImove E s chb color depth = some r ∧ r.top = some top
          ∧ r.state.CPU_PLAYER = color ∧ top.score = none
          ∧ top.AllBelow (fun c => c.child ≠ [] → ∃ v, c.score = some v) := by
  refine ⟨?_, ?_, ?_⟩
  · intro col dc node st b tm mlc hlen
    exact fillSlot_none_iff E col dc node st b tm mlc hlen
  · intro recur col dc c st b
    exact scoreSlot_onScored E recur col dc c st b
  · obtain ⟨s1, top, chb1, hcall, hget⟩ := getAImove_valid E s chb color depth hd hlt hc
    obtain ⟨-, -, hcpu, -, -, -, hroot⟩ :=
      create_spec E _ _ _ _ _ _ _ _ _ (by simp only; omega) hcall
    obtain ⟨hall, -⟩ := create_allBelow E (fun c => c.child ≠ [] → ∃ v, c.score = some v)
      (fun c hc hne => absurd hc hne)
      (by
        intro c v slots _ _
        exact ⟨v, by rw [(setChild_fields (c.setScore v) slots).2.2.2.2.1,
          (setScore_fields c v).2.2.2.2.1]⟩)
      _ _ _ _ _ _ _ _ _ (by simp only; omega) hcall
    refine ⟨_, top, hget, rfl, ?_, (hroot rfl).2.2.2.1, hall⟩
    simp only [_deleteAIHeap_eq]
    exact hcpu

theorem C22_pruning_test_reads_assigned_score_witness :
    (∀ (col : Int) (dc : Nat) (node : MoveTreeNode) (st : AIState) (b : Board)
        (tm : List (List MoveNode)) (mlc : Nat), tm.length = 6 →
        (fillSlot demoEnv col dc node st b tm mlc = none ↔ unassignedRead col node st tm mlc))
      ∧ (∀ (recur : AIState → MoveTreeNode → Board → Int → Nat →
            Option (AIState × MoveTreeNode × Board))
          (col : Int) (dc : Nat) (c : MoveTreeNode) (st : AIState) (b : Board),
          scoreSlot demoEnv (onScored recur col dc) col dc c st b
            = scoreSlot demoEnv recur col dc c st b)
      ∧ ∃ r top, getAImove demoEnv demoState demoBoard BLACK 3 = some r ∧ r.top = some top
          ∧ r.state.CPU_PLAYER = BLACK ∧ top.score = none
          ∧ top.AllBelow (fun c => c.child ≠ [] → ∃ v, c.score = some v) :=
  C22_pruning_test_reads_assigned_score demoEnv demoState demoBoard BLACK 3
    (by decide) (by decide) (Or.inl rfl)

end Chesslib
